import Mathlib

/-!
# Globalnet CIDR allocation (controllers/discovery/globalnet/globalnet.go)

A shallow embedding of the allocator of `globalnet.go` and proofs about it.

Conventions of the embedding.

* An IPv4 address is the natural number that `ipToUint` computes from it (the
  big-endian value of its four bytes), so `10.0.0.0` is `167772160`.
* A Go `uint` is 64 bits wide (`bits.UintSize = 64`); a `uint32` conversion is
  `% 2 ^ 32`.
* A CIDR text is represented by what Go's `net.ParseCIDR` reads in it
  (`CidrText`): the dotted address and the number after the slash, or a text
  that `net.ParseCIDR` rejects.  IPv6 texts are outside the model.
* A `net.IPNet` is its network number together with the length of its mask
  (every mask in the program comes from `net.CIDRMask (ones, 32)`).
* `map[string]*GlobalNetwork` is an association list; the order of the list is
  the order in which one `range` over the map visits its entries.
* The only unbounded loop (`for err != nil` in `allocateByClusterSize`) takes a
  fuel argument; `none` means that the fuel ran out before the loop ended.
* A function that returns `(string, error)` returns `Except Error CidrText` (the
  program returns the empty string with every error); `allocateByCidr`, whose
  `uint` result is read together with the error, returns both.
* Map values are never nil: `GetGlobalNetworks` stores a pointer to a fresh
  `GlobalNetwork` for every key.
-/

namespace Globalnet

/-! ## Texts, networks and errors -/

/-- A CIDR text: `v4 addr bits` is the text `a.b.c.d/bits` whose dotted address has
the big-endian value `addr`; `raw s` is any other text `s` (the empty text
included), which `net.ParseCIDR` rejects. -/
inductive CidrText where
  | v4 (addr : Nat) (bits : Int) : CidrText
  | raw (s : String) : CidrText
  deriving DecidableEq, Repr

/-- The empty string `""`. -/
def CidrText.empty : CidrText := CidrText.raw ""

/-- The 32-bit value of `net.CIDRMask(ones, 32)`: `ones` one bits followed by zero bits. -/
def CIDRMask (ones : Nat) : Nat := 2 ^ 32 - 2 ^ (32 - ones)

/-- A `net.IPNet` for IPv4: the network number and the number of leading ones of the mask. -/
structure IPNet where
  IP : Nat
  ones : Nat
  deriving DecidableEq, Repr

/-- The mask of a network as a 32-bit number. -/
def IPNet.Mask (n : IPNet) : Nat := CIDRMask n.ones

/-- Go's `(*IPNet).Contains`: the address and the network number agree on the mask bits. -/
def IPNet.Contains (n : IPNet) (ip : Nat) : Bool := (n.IP &&& n.Mask) == (ip &&& n.Mask)

/-- Go's `net.ParseCIDR` on IPv4 texts: the address as written and the network it lies in
(the address with the host bits cleared, and the mask). -/
def ParseCIDR : CidrText → Option (Nat × IPNet)
  | .v4 addr bits =>
    if addr < 2 ^ 32 ∧ 0 ≤ bits ∧ bits ≤ 32 then
      some (addr, { IP := addr &&& CIDRMask bits.toNat, ones := bits.toNat })
    else none
  | .raw _ => none

deriving instance DecidableEq for Except

/-- The errors of the package, one constructor for each message. -/
inductive Error where
  /-- the error of `net.ParseCIDR` -/
  | parseError (cidr : CidrText) : Error
  /-- "invalid cidr %q passed as input" -/
  | invalidCidr (cidr : CidrText) : Error
  /-- "%s not a valid subnet of %v" -/
  | notValidSubnet (cidr : CidrText) (base : IPNet) : Error
  /-- "%s subset of already allocated globalCidr %v" -/
  | subsetOfAllocated (cidr : CidrText) (allocated : IPNet) : Error
  /-- "%s overlaps with already allocated globalCidr %s" -/
  | overlapsAllocated (cidr : CidrText) (allocated : IPNet) : Error
  /-- "allocation not available" -/
  | allocationNotAvailable : Error
  /-- "invalid GlobalCIDR %s configured" -/
  | invalidGlobalCIDR (cidr : CidrText) : Error
  /-- "cluster size %d, should be <= %d" -/
  | clusterSizeTooLarge (userClusterSize half : Nat) : Error
  /-- "unable to validate overlapping CIDR: %s" -/
  | unableToValidate (err : Error) : Error
  /-- "invalid CIDR %s overlaps with cluster %q" -/
  | overlapsWithCluster (cidr : CidrText) (cluster : String) : Error
  /-- "invalid globalnet-cluster-size %s" with a non-nil error -/
  | invalidClusterSize (err : Error) : Error
  /-- "invalid globalnet-cluster-size %s" with a nil error -/
  | invalidClusterSizeNil : Error
  /-- "both globalnet-cluster-size and globalnet-cidr can't be specified. Specify either one" -/
  | bothSpecified : Error
  /-- "specified globalnet-cidr is invalid: %s" -/
  | invalidGlobalnetCidr (err : Error) : Error
  /-- "%s can't be unspecified" -/
  | unspecifiedAddress (cidr : CidrText) : Error
  /-- "%s can't be in loopback range" -/
  | loopbackRange (cidr : CidrText) : Error
  /-- "%s can't be in link-local range" -/
  | linkLocalRange (cidr : CidrText) : Error
  /-- "%s can't be in link-local multicast range" -/
  | linkLocalMulticastRange (cidr : CidrText) : Error
  deriving DecidableEq, Repr

/-! ## The data of the package -/

structure GlobalNetwork where
  GlobalCIDRs : List CidrText
  ClusterID : String
  deriving DecidableEq, Repr

structure GlobalnetInfo where
  GlobalnetEnabled : Bool
  GlobalnetCidrRange : CidrText
  GlobalnetClusterSize : Nat
  GlobalCidrInfo : List (String × GlobalNetwork)
  deriving DecidableEq, Repr

structure CIDR where
  network : IPNet
  size : Nat
  lastIP : Nat
  deriving DecidableEq, Repr

structure GlobalCIDR where
  cidr : CidrText
  net : IPNet
  allocatedClusters : List CIDR
  allocatedCount : Nat
  deriving DecidableEq, Repr

structure Config where
  ClusterCIDR : String
  ClusterID : String
  GlobalnetCIDR : CidrText
  ServiceCIDR : String
  GlobalnetClusterSize : Nat
  ClusterCIDRAutoDetected : Bool
  ServiceCIDRAutoDetected : Bool
  deriving DecidableEq, Repr

/-! ## Address arithmetic -/

/-- Go's `ipToUint`: the big-endian value of the four bytes. -/
def ipToUint (ip : Nat) : Nat := ip

/-- Go's `uintToIP`: the address of the low 32 bits of a `uint`. -/
def uintToIP (ip : Nat) : Nat := ip % 2 ^ 32

/-- The number of halvings that bring `x` to zero, at most `fuel` of them. -/
def bitsLenAux : Nat → Nat → Nat
  | 0, _ => 0
  | fuel + 1, x => if x = 0 then 0 else bitsLenAux fuel (x / 2) + 1

/-- Go's `bits.Len` on a 64-bit `uint`: the number of bits needed to write `x`
(`0` for `x = 0`). -/
def bitsLen (x : Nat) : Nat := bitsLenAux 64 x

/-- Go's `bits.LeadingZeros` on a 64-bit `uint`. -/
def LeadingZeros (x : Nat) : Nat := 64 - bitsLen x

/-- Go's `LastIP`: `(firstIPInt + 1<<clusterSize) - 1` in `uint` arithmetic. -/
def LastIP (network : IPNet) : Nat :=
  let clusterSize := 32 - network.ones
  let firstIPInt := ipToUint network.IP
  ((firstIPInt + 2 ^ clusterSize) % 2 ^ 64 + 2 ^ 64 - 1) % 2 ^ 64

/-- Go's `NewCIDR`. -/
def NewCIDR (cidr : CidrText) : Except Error CIDR :=
  match ParseCIDR cidr with
  | none => .error (.invalidCidr cidr)
  | some (_, network) =>
    .ok { network := network, size := 32 - network.ones, lastIP := LastIP network }

/-- Go's `nextPowerOf2` on a `uint32`. -/
def nextPowerOf2 (n : Nat) : Nat :=
  let n := (n + 2 ^ 32 - 1) % 2 ^ 32
  let n := n ||| (n >>> 1)
  let n := n ||| (n >>> 2)
  let n := n ||| (n >>> 4)
  let n := n ||| (n >>> 8)
  let n := n ||| (n >>> 16)
  (n + 1) % 2 ^ 32

/-! ## The allocator -/

/-- The loop over the allocated clusters in `allocateByCidr`: the first entry that
conflicts with the request gives the returned address and error. -/
def scanAllocated (cidr : CidrText) (requestedIP : Nat) (requestedNetwork : IPNet)
    (clusterCidr : CIDR) : List CIDR → Option (Nat × Error)
  | [] => none
  | allocated :: rest =>
    if allocated.network.Contains requestedIP then
      some (allocated.lastIP, .subsetOfAllocated cidr allocated.network)
    else if requestedNetwork.Contains allocated.network.IP then
      some (clusterCidr.lastIP, .overlapsAllocated cidr allocated.network)
    else scanAllocated cidr requestedIP requestedNetwork clusterCidr rest

/-- Go's `allocateByCidr` on the package variable `globalCidr` (here `g`): the returned
`uint`, the returned error (`none` is `nil`) and the package variable afterwards. -/
def allocateByCidr (g : GlobalCIDR) (cidr : CidrText) : (Nat × Option Error) × GlobalCIDR :=
  match ParseCIDR cidr with
  | none => ((0, some (.notValidSubnet cidr g.net)), g)
  | some (requestedIP, requestedNetwork) =>
    if !g.net.Contains requestedIP then ((0, some (.notValidSubnet cidr g.net)), g)
    else
      match NewCIDR cidr with
      | .error e => ((0, some e), g)
      | .ok clusterCidr =>
        if !g.net.Contains (uintToIP clusterCidr.lastIP) then
          ((0, some (.notValidSubnet cidr g.net)), g)
        else
          match scanAllocated cidr requestedIP requestedNetwork clusterCidr
              (g.allocatedClusters.take g.allocatedCount) with
          | some (last, e) => ((last, some e), g)
          | none =>
            ((0, none), { g with allocatedClusters := g.allocatedClusters ++ [clusterCidr],
                                 allocatedCount := g.allocatedCount + 1 })

/-- The text of `nextNet.String()` for `nextNet = net.IPNet{IP: uintToIP(last + 1), Mask: mask}`
where `mask = net.CIDRMask(clusterPrefix, 32)`, which is nil when the length is not in
`0..32`. -/
def nextNetString (last : Nat) (clusterPrefix : Int) : CidrText :=
  if 0 ≤ clusterPrefix ∧ clusterPrefix ≤ 32 then
    .v4 (uintToIP ((last + 1) % 2 ^ 64)) clusterPrefix
  else .raw "<nil>"

/-- The loop `for err != nil` of `allocateByClusterSize`, entered with the address `last`
that the failed attempt returned. -/
def probe (g : GlobalCIDR) (clusterPrefix : Int) : Nat → Nat → Option (Except Error CidrText)
  | 0, _ => none
  | fuel + 1, last =>
    let cidr := nextNetString last clusterPrefix
    match allocateByCidr g cidr with
    | ((_, none), _) => some (.ok cidr)
    | ((last', some _), _) =>
      if last' = 0 then some (.error .allocationNotAvailable)
      else probe g clusterPrefix fuel last'

/-- The prefix length that `allocateByClusterSize` computes for `numSize`:
`totalbits - (bits.LeadingZeros(0) - bits.LeadingZeros(numSize-1))`, with `numSize-1`
in `uint` arithmetic. -/
def clusterPrefixOf (numSize : Nat) : Int :=
  let bitSize : Int := (LeadingZeros 0 : Int) - (LeadingZeros ((numSize + 2 ^ 64 - 1) % 2 ^ 64) : Int)
  (32 : Int) - bitSize

/-- Go's `allocateByClusterSize`. -/
def allocateByClusterSize (fuel : Nat) (g : GlobalCIDR) (numSize : Nat) :
    Option (Except Error CidrText) :=
  let clusterPrefix := clusterPrefixOf numSize
  let cidr := CidrText.v4 g.net.IP clusterPrefix
  match allocateByCidr g cidr with
  | ((_, none), _) => some (.ok cidr)
  | ((last, some err), _) =>
    if last = 0 then some (.error err)
    else probe g clusterPrefix fuel last

/-- The inner loop of `AllocateGlobalCIDR` over the CIDRs of one cluster. -/
def appendClusters (g : GlobalCIDR) : List CidrText → Except Error GlobalCIDR
  | [] => .ok g
  | otherCluster :: rest =>
    match NewCIDR otherCluster with
    | .error e => .error e
    | .ok otherClusterCIDR =>
      appendClusters { g with allocatedClusters := g.allocatedClusters ++ [otherClusterCIDR],
                              allocatedCount := g.allocatedCount + 1 } rest

/-- The outer loop of `AllocateGlobalCIDR` over the clusters of the map. -/
def loadClusters (g : GlobalCIDR) : List (String × GlobalNetwork) → Except Error GlobalCIDR
  | [] => .ok g
  | (_, globalNetwork) :: rest =>
    match appendClusters g globalNetwork.GlobalCIDRs with
    | .error e => .error e
    | .ok g' => loadClusters g' rest

/-- Go's `AllocateGlobalCIDR`. -/
def AllocateGlobalCIDR (fuel : Nat) (globalnetInfo : GlobalnetInfo) :
    Option (Except Error CidrText) :=
  match ParseCIDR globalnetInfo.GlobalnetCidrRange with
  | none => some (.error (.invalidGlobalCIDR globalnetInfo.GlobalnetCidrRange))
  | some (_, network) =>
    let g : GlobalCIDR :=
      { cidr := globalnetInfo.GlobalnetCidrRange, net := network,
        allocatedClusters := [], allocatedCount := 0 }
    match loadClusters g globalnetInfo.GlobalCidrInfo with
    | .error e => some (.error e)
    | .ok g' => allocateByClusterSize fuel g' globalnetInfo.GlobalnetClusterSize

/-! ## The configuration reconciler -/

/-- Go's `GetValidClusterSize`. -/
def GetValidClusterSize (cidrRange : CidrText) (clusterSize : Nat) : Except Error Nat :=
  match ParseCIDR cidrRange with
  | none => .error (.parseError cidrRange)
  | some (_, network) =>
    let availableSize := 2 ^ (32 - network.ones)
    let userClusterSize := clusterSize
    let clusterSize := nextPowerOf2 (clusterSize % 2 ^ 32)
    if clusterSize > availableSize / 2 then
      .error (.clusterSizeTooLarge userClusterSize (availableSize / 2))
    else .ok clusterSize

/-- The loop of `isOverlappingCIDR` over the list. -/
def overlapsAny (newNet : IPNet) : List CidrText → Except Error Bool
  | [] => .ok false
  | v :: rest =>
    match ParseCIDR v with
    | none => .error (.parseError v)
    | some (_, baseNet) =>
      if baseNet.Contains newNet.IP || newNet.Contains baseNet.IP then .ok true
      else overlapsAny newNet rest

/-- Go's `isOverlappingCIDR`. -/
def isOverlappingCIDR (cidrList : List CidrText) (cidr : CidrText) : Except Error Bool :=
  match ParseCIDR cidr with
  | none => .error (.parseError cidr)
  | some (_, newNet) => overlapsAny newNet cidrList

/-- The loop of `CheckOverlappingCidrs` over the map. -/
def checkClusters (netconfig : Config) : List (String × GlobalNetwork) → Option Error
  | [] => none
  | (k, v) :: rest =>
    match isOverlappingCIDR v.GlobalCIDRs netconfig.GlobalnetCIDR with
    | .error err => some (.unableToValidate err)
    | .ok overlap =>
      if overlap && k != netconfig.ClusterID then
        some (.overlapsWithCluster netconfig.GlobalnetCIDR k)
      else checkClusters netconfig rest

/-- Go's `CheckOverlappingCidrs` (`none` is `nil`). -/
def CheckOverlappingCidrs (globalnetInfo : GlobalnetInfo) (netconfig : Config) : Option Error :=
  checkClusters netconfig globalnetInfo.GlobalCidrInfo

/-- Go's `isCIDRPreConfigured`. -/
def isCIDRPreConfigured (clusterID : String) (globalNetworks : List (String × GlobalNetwork)) :
    Bool :=
  match globalNetworks.lookup clusterID with
  | none => false
  | some globalNetwork => !globalNetwork.GlobalCIDRs.isEmpty

/-- The expression `globalnetInfo.GlobalCidrInfo[clusterID].GlobalCIDRs[0]`, which the program
evaluates only after `isCIDRPreConfigured` has returned true. -/
def firstGlobalCIDR (clusterID : String) (globalNetworks : List (String × GlobalNetwork)) :
    CidrText :=
  match globalNetworks.lookup clusterID with
  | none => CidrText.empty
  | some globalNetwork => globalNetwork.GlobalCIDRs.headD CidrText.empty

/-- The first block of `ValidateGlobalnetConfiguration`: the requested cluster size is
checked and stored when Globalnet is enabled and the size is new. -/
def validateClusterSize (globalnetInfo : GlobalnetInfo) (netconfig : Config) :
    Except Error GlobalnetInfo :=
  if globalnetInfo.GlobalnetEnabled ∧ netconfig.GlobalnetClusterSize ≠ 0 ∧
      netconfig.GlobalnetClusterSize ≠ globalnetInfo.GlobalnetClusterSize then
    match GetValidClusterSize globalnetInfo.GlobalnetCidrRange netconfig.GlobalnetClusterSize with
    | .error err => .error (.invalidClusterSize err)
    | .ok clusterSize =>
      if clusterSize = 0 then .error .invalidClusterSizeNil
      else .ok { globalnetInfo with GlobalnetClusterSize := clusterSize }
  else .ok globalnetInfo

/-- Go's `ValidateGlobalnetConfiguration`: the returned text or error, and `globalnetInfo`
as the call leaves it. -/
def ValidateGlobalnetConfiguration (globalnetInfo : GlobalnetInfo) (netconfig : Config) :
    Except Error CidrText × GlobalnetInfo :=
  let globalnetClusterSize := netconfig.GlobalnetClusterSize
  let globalnetCIDR := netconfig.GlobalnetCIDR
  match validateClusterSize globalnetInfo netconfig with
  | .error err => (.error err, globalnetInfo)
  | .ok globalnetInfo =>
    if globalnetCIDR ≠ CidrText.empty ∧ globalnetClusterSize ≠ 0 then
      (.error .bothSpecified, globalnetInfo)
    else if globalnetCIDR ≠ CidrText.empty ∧ (ParseCIDR globalnetCIDR).isNone then
      (.error (.invalidGlobalnetCidr (.parseError globalnetCIDR)), globalnetInfo)
    else if !globalnetInfo.GlobalnetEnabled then
      if globalnetCIDR ≠ CidrText.empty then (.ok CidrText.empty, globalnetInfo)
      else if globalnetClusterSize ≠ 0 then
        (.ok globalnetCIDR, { globalnetInfo with GlobalnetClusterSize := 0 })
      else (.ok globalnetCIDR, globalnetInfo)
    else (.ok globalnetCIDR, globalnetInfo)

/-- Go's `AssignGlobalnetIPs`. -/
def AssignGlobalnetIPs (fuel : Nat) (globalnetInfo : GlobalnetInfo) (netconfig : Config) :
    Option (Except Error CidrText) :=
  let globalnetCIDR := netconfig.GlobalnetCIDR
  let clusterID := netconfig.ClusterID
  if globalnetCIDR = CidrText.empty then
    if isCIDRPreConfigured clusterID globalnetInfo.GlobalCidrInfo then
      some (.ok (firstGlobalCIDR clusterID globalnetInfo.GlobalCidrInfo))
    else
      match AllocateGlobalCIDR fuel globalnetInfo with
      | none => none
      | some (.error err) => some (.error err)
      | some (.ok cidr) => some (.ok cidr)
  else
    if isCIDRPreConfigured clusterID globalnetInfo.GlobalCidrInfo then
      some (.ok (firstGlobalCIDR clusterID globalnetInfo.GlobalCidrInfo))
    else
      match CheckOverlappingCidrs globalnetInfo netconfig with
      | some err => some (.error err)
      | none => some (.ok globalnetCIDR)

/-- The byte `ip4[i]` of an IPv4 address (`i = 0` is the first byte of the dotted form). -/
def octet (ip : Nat) (i : Nat) : Nat := ip / 2 ^ (8 * (3 - i)) % 256

/-- Go's `IP.IsUnspecified` on an IPv4 address: the address is `0.0.0.0`. -/
def IsUnspecified (ip : Nat) : Bool := ip == 0

/-- Go's `IP.IsLoopback` on an IPv4 address: `ip4[0] == 127`. -/
def IsLoopback (ip : Nat) : Bool := octet ip 0 == 127

/-- Go's `IP.IsLinkLocalUnicast` on an IPv4 address: `ip4[0] == 169 && ip4[1] == 254`. -/
def IsLinkLocalUnicast (ip : Nat) : Bool := octet ip 0 == 169 && octet ip 1 == 254

/-- Go's `IP.IsLinkLocalMulticast` on an IPv4 address:
`ip4[0] == 224 && ip4[1] == 0 && ip4[2] == 0`. -/
def IsLinkLocalMulticast (ip : Nat) : Bool :=
  octet ip 0 == 224 && octet ip 1 == 0 && octet ip 2 == 0

/-- Go's `IsValidCIDR` (`none` is `nil`). -/
def IsValidCIDR (cidr : CidrText) : Option Error :=
  match ParseCIDR cidr with
  | none => some (.parseError cidr)
  | some (ip, _) =>
    if IsUnspecified ip then some (.unspecifiedAddress cidr)
    else if IsLoopback ip then some (.loopbackRange cidr)
    else if IsLinkLocalUnicast ip then some (.linkLocalRange cidr)
    else if IsLinkLocalMulticast ip then some (.linkLocalMulticastRange cidr)
    else none

/-- A request of a cluster for an explicit CIDR text and a cluster size. -/
def requestOf (clusterID : String) (cidr : CidrText) (size : Nat) : Config :=
  { ClusterCIDR := "", ClusterID := clusterID, GlobalnetCIDR := cidr, ServiceCIDR := "",
    GlobalnetClusterSize := size, ClusterCIDRAutoDetected := false,
    ServiceCIDRAutoDetected := false }

/-! ## Notions used in the statements -/

/-- The value of the dotted address `a.b.c.d`. -/
def ip4 (a b c d : Nat) : Nat := ((a * 256 + b) * 256 + c) * 256 + d

/-- A `GlobalnetInfo` with one cluster that holds the given CIDR texts. -/
def infoOf (base : CidrText) (size : Nat) (entries : List CidrText) : GlobalnetInfo :=
  { GlobalnetEnabled := true, GlobalnetCidrRange := base, GlobalnetClusterSize := size,
    GlobalCidrInfo := [("cluster-a", { GlobalCIDRs := entries, ClusterID := "cluster-a" })] }

/-- A network as `net.ParseCIDR` builds it: the mask length is at most 32 and the network
number is a 32-bit number with the host bits cleared. -/
def IPNet.WF (n : IPNet) : Prop :=
  n.ones ≤ 32 ∧ n.IP < 2 ^ 32 ∧ n.IP % 2 ^ (32 - n.ones) = 0

/-- The ledger of an allocation run: the CIDR texts of all clusters, in the order in which
`AllocateGlobalCIDR` visits them. -/
def ledger (globalnetInfo : GlobalnetInfo) : List CidrText :=
  (globalnetInfo.GlobalCidrInfo.map (fun p => p.2.GlobalCIDRs)).flatten

/-- The network that a CIDR text denotes (`none` for a text that does not parse). -/
def blockOf (t : CidrText) : Option IPNet := (ParseCIDR t).map Prod.snd

/-- The ledger entry that `NewCIDR` builds from a text. -/
def entryOf (t : CidrText) : Option CIDR :=
  match NewCIDR t with
  | .ok c => some c
  | .error _ => none

/-- Two networks overlap when some IPv4 address lies in both. -/
def Overlap (a b : IPNet) : Prop :=
  ∃ x, x < 2 ^ 32 ∧ a.Contains x = true ∧ b.Contains x = true

/-- Two CIDR texts are disjoint when the networks they denote share no address. -/
def TextsDisjoint (s t : CidrText) : Prop :=
  ∀ a b, blockOf s = some a → blockOf t = some b → ¬ Overlap a b

/-- The package variable `globalCidr` as `AllocateGlobalCIDR` has set it up when it calls
`allocateByClusterSize`. -/
def loaded (base : IPNet) (globalnetInfo : GlobalnetInfo) : GlobalCIDR :=
  { cidr := globalnetInfo.GlobalnetCidrRange, net := base,
    allocatedClusters := (ledger globalnetInfo).filterMap entryOf,
    allocatedCount := (ledger globalnetInfo).length }

/-- A block of the allocation run: aligned to its size, contained in the base range (first
and last address) and sharing no address with the block of any ledger entry. -/
def AvailableSlot (base : IPNet) (globalnetInfo : GlobalnetInfo) (F : IPNet) : Prop :=
  F.WF ∧ base.Contains F.IP = true ∧ base.Contains (F.IP + 2 ^ (32 - F.ones) - 1) = true ∧
    ∀ t ∈ ledger globalnetInfo, ∀ E, blockOf t = some E → ¬ Overlap F E

/-- The entries that the scan of `allocateByCidr` visits are as `NewCIDR` builds them. -/
def GoodEntries (g : GlobalCIDR) : Prop :=
  ∀ c ∈ g.allocatedClusters.take g.allocatedCount, c.network.WF ∧ c.lastIP = LastIP c.network

/-- The explicit CIDR `newNet` overlaps a CIDR of a cluster other than `clusterID`: one of
the two networks contains the network address of the other. -/
def OverlapsOtherCluster (globalNetworks : List (String × GlobalNetwork)) (clusterID : String)
    (newNet : IPNet) : Prop :=
  ∃ p ∈ globalNetworks, p.1 ≠ clusterID ∧ ∃ t ∈ p.2.GlobalCIDRs, ∃ m, blockOf t = some m ∧
    (m.Contains newNet.IP = true ∨ newNet.Contains m.IP = true)

/-- An address that `IsValidCIDR` does not admit: `0.0.0.0`, or an address of
`127.0.0.0/8`, `169.254.0.0/16` or `224.0.0.0/24`. -/
def ReservedAddress (ip : Nat) : Prop :=
  ip = 0 ∨ IPNet.Contains { IP := ip4 127 0 0 0, ones := 8 } ip = true ∨
    IPNet.Contains { IP := ip4 169 254 0 0, ones := 16 } ip = true ∨
    IPNet.Contains { IP := ip4 224 0 0 0, ones := 24 } ip = true

/-- The address that a failed attempt returns is the last address of an entry, or is
followed by an address aligned to the size of the candidates. -/
def ResumePoint (g : GlobalCIDR) (P : Int) (last : Nat) : Prop :=
  ((last + 1) % 2 ^ 32) % 2 ^ (32 - P.toNat) = 0 ∨
    ∃ c ∈ g.allocatedClusters.take g.allocatedCount, c.lastIP = last

/-- The package variable for base range `0.0.0.0/0` whose ledger is `0.0.0.0/0` itself. -/
def wholeSpaceTaken : GlobalnetInfo :=
  infoOf (CidrText.v4 (ip4 0 0 0 0) 0) 256 [CidrText.v4 (ip4 0 0 0 0) 0]

/-- Base range `0.0.0.0/8`, written `0.0.0.1/8`, with the ledger entry `0.0.0.0/0`. -/
def zeroRangeUnderWholeSpace : GlobalnetInfo :=
  infoOf (CidrText.v4 (ip4 0 0 0 1) 8) 256 [CidrText.v4 (ip4 0 0 0 0) 0]

/-- Base range `0.0.0.0/8`, written `0.0.0.1/8`, size 2, clusters visited in the order
`0.0.0.0/32`, `0.0.0.1/32`. -/
def zeroFirst : GlobalnetInfo :=
  { GlobalnetEnabled := true, GlobalnetCidrRange := CidrText.v4 (ip4 0 0 0 1) 8,
    GlobalnetClusterSize := 2,
    GlobalCidrInfo :=
      [("cluster-a", { GlobalCIDRs := [CidrText.v4 (ip4 0 0 0 0) 32], ClusterID := "cluster-a" }),
       ("cluster-b", { GlobalCIDRs := [CidrText.v4 (ip4 0 0 0 1) 32], ClusterID := "cluster-b" })] }

/-- The same map as `zeroFirst`, visited in the other order. -/
def zeroSecond : GlobalnetInfo :=
  { GlobalnetEnabled := true, GlobalnetCidrRange := CidrText.v4 (ip4 0 0 0 1) 8,
    GlobalnetClusterSize := 2,
    GlobalCidrInfo :=
      [("cluster-b", { GlobalCIDRs := [CidrText.v4 (ip4 0 0 0 1) 32], ClusterID := "cluster-b" }),
       ("cluster-a", { GlobalCIDRs := [CidrText.v4 (ip4 0 0 0 0) 32], ClusterID := "cluster-a" })] }

/-! ## Arithmetic of networks -/

theorem land_CIDRMask (x ones : Nat) (hx : x < 2 ^ 32) :
    x &&& CIDRMask ones = x / 2 ^ (32 - ones) * 2 ^ (32 - ones) := by
  unfold CIDRMask
  have hk : 32 - ones ≤ 32 := Nat.sub_le _ _
  generalize 32 - ones = k at hk ⊢
  have hpos : 0 < 2 ^ k := Nat.two_pow_pos k
  have hle : 2 ^ k ≤ 2 ^ 32 := Nat.pow_le_pow_right (by decide) hk
  have hm : 2 ^ 32 - 2 ^ k = 2 ^ 32 - ((2 ^ k - 1) + 1) := by omega
  apply Nat.eq_of_testBit_eq
  intro i
  rw [Nat.testBit_and, hm, Nat.testBit_two_pow_sub_succ (by omega), Nat.testBit_two_pow_sub_one,
    Nat.mul_comm, Nat.testBit_mul_pow_two, ← Nat.shiftRight_eq_div_pow, Nat.testBit_shiftRight]
  by_cases h1 : k ≤ i
  · by_cases h2 : i < 32
    · have h3 : ¬ i < k := by omega
      simp [h1, h2, h3, Nat.add_sub_cancel' h1]
    · have h4 : x < 2 ^ i :=
        Nat.lt_of_lt_of_le hx (Nat.pow_le_pow_right (by decide) (by omega))
      simp [h1, h2, Nat.add_sub_cancel' h1, Nat.testBit_lt_two_pow h4]
  · have h3 : i < k := by omega
    simp [h1, h3]

theorem div_pow_eq_of_le {x y j k : Nat} (h : j ≤ k) (e : x / 2 ^ j = y / 2 ^ j) :
    x / 2 ^ k = y / 2 ^ k := by
  have hk : k = j + (k - j) := by omega
  rw [hk, Nat.pow_add, ← Nat.div_div_eq_div_mul, ← Nat.div_div_eq_div_mul, e]

theorem Contains_iff_div (n : IPNet) (x : Nat) (hn : n.IP < 2 ^ 32) (hx : x < 2 ^ 32) :
    n.Contains x = true ↔ n.IP / 2 ^ (32 - n.ones) = x / 2 ^ (32 - n.ones) := by
  unfold IPNet.Contains IPNet.Mask
  rw [land_CIDRMask _ _ hn, land_CIDRMask _ _ hx, beq_iff_eq]
  exact Nat.mul_left_inj (Nat.pos_iff_ne_zero.mp (Nat.two_pow_pos _))

theorem Contains_iff_range (n : IPNet) (x : Nat) (hn : n.WF) (hx : x < 2 ^ 32) :
    n.Contains x = true ↔ n.IP ≤ x ∧ x < n.IP + 2 ^ (32 - n.ones) := by
  obtain ⟨_, h2, h3⟩ := hn
  rw [Contains_iff_div n x h2 hx]
  have hpos : 0 < 2 ^ (32 - n.ones) := Nat.two_pow_pos _
  generalize 2 ^ (32 - n.ones) = m at h3 hpos ⊢
  obtain ⟨q, hq⟩ := Nat.dvd_of_mod_eq_zero h3
  rw [hq, Nat.mul_div_cancel_left _ hpos]
  constructor
  · intro h
    have e1 := Nat.div_add_mod x m
    have e2 := Nat.mod_lt x hpos
    rw [← h] at e1
    constructor <;> omega
  · rintro ⟨h1, h2⟩
    symm
    apply Nat.div_eq_of_lt_le
    · rw [Nat.mul_comm]; exact h1
    · rw [Nat.succ_mul, Nat.mul_comm]; exact h2

theorem ParseCIDR_some {t : CidrText} {ip : Nat} {n : IPNet} (h : ParseCIDR t = some (ip, n)) :
    t = .v4 ip (n.ones : Int) ∧ ip < 2 ^ 32 ∧ n.ones ≤ 32 ∧
      n.IP = ip / 2 ^ (32 - n.ones) * 2 ^ (32 - n.ones) := by
  cases t with
  | raw s => simp [ParseCIDR] at h
  | v4 addr bits =>
    by_cases hc : addr < 2 ^ 32 ∧ 0 ≤ bits ∧ bits ≤ 32
    · simp only [ParseCIDR, if_pos hc, Option.some.injEq, Prod.mk.injEq] at h
      obtain ⟨h1, h2, h3⟩ := hc
      obtain ⟨rfl, rfl⟩ := h
      refine ⟨?_, h1, ?_, ?_⟩
      · show CidrText.v4 addr bits = CidrText.v4 addr (bits.toNat : Int)
        rw [Int.toNat_of_nonneg h2]
      · show bits.toNat ≤ 32
        omega
      · exact land_CIDRMask _ _ h1
    · simp only [ParseCIDR, if_neg hc] at h
      cases h

theorem ParseCIDR_WF {t : CidrText} {ip : Nat} {n : IPNet} (h : ParseCIDR t = some (ip, n)) :
    n.WF ∧ n.Contains ip = true := by
  obtain ⟨_, h1, h2, h3⟩ := ParseCIDR_some h
  have hpos : 0 < 2 ^ (32 - n.ones) := Nat.two_pow_pos _
  have hle : n.IP ≤ ip := by rw [h3]; exact Nat.div_mul_le_self _ _
  have hlt : n.IP < 2 ^ 32 := by omega
  refine ⟨⟨h2, hlt, ?_⟩, ?_⟩
  · rw [h3]; exact Nat.mul_mod_left _ _
  · rw [Contains_iff_div n ip hlt h1, h3, Nat.mul_div_cancel _ hpos]

theorem LastIP_eq {n : IPNet} (hn : n.WF) :
    LastIP n = n.IP + 2 ^ (32 - n.ones) - 1 ∧ n.IP + 2 ^ (32 - n.ones) ≤ 2 ^ 32 := by
  obtain ⟨h1, h2, h3⟩ := hn
  have hpos : 0 < 2 ^ (32 - n.ones) := Nat.two_pow_pos _
  have hle : 2 ^ (32 - n.ones) ∣ 2 ^ 32 := Nat.pow_dvd_pow 2 (Nat.sub_le _ _)
  have hb : n.IP + 2 ^ (32 - n.ones) ≤ 2 ^ 32 := by
    generalize 2 ^ (32 - n.ones) = m at h3 hpos hle ⊢
    obtain ⟨q, hq⟩ := Nat.dvd_of_mod_eq_zero h3
    obtain ⟨r, hr⟩ := hle
    rw [hr, hq] at h2 ⊢
    have : q < r := Nat.lt_of_mul_lt_mul_left h2
    nlinarith
  refine ⟨?_, hb⟩
  unfold LastIP ipToUint
  simp only
  have e1 : (n.IP + 2 ^ (32 - n.ones)) % 2 ^ 64 = n.IP + 2 ^ (32 - n.ones) :=
    Nat.mod_eq_of_lt (by omega)
  rw [e1]
  omega

/-! ## The ledger and the attempts -/

theorem entryOf_some {t : CidrText} {c : CIDR} (h : entryOf t = some c) :
    blockOf t = some c.network ∧ c.network.WF ∧ c.lastIP = LastIP c.network := by
  unfold entryOf NewCIDR at h
  cases hp : ParseCIDR t with
  | none => simp [hp] at h
  | some r =>
    obtain ⟨ip, n⟩ := r
    simp only [hp, Option.some.injEq] at h
    subst h
    exact ⟨by simp [blockOf, hp], (ParseCIDR_WF hp).1, rfl⟩

theorem blockOf_some {t : CidrText} {n : IPNet} (h : blockOf t = some n) :
    ∃ ip, ParseCIDR t = some (ip, n) := by
  unfold blockOf at h
  cases hp : ParseCIDR t with
  | none => simp [hp] at h
  | some r =>
    obtain ⟨ip, m⟩ := r
    simp only [hp, Option.map_some', Option.some.injEq] at h
    subst h
    exact ⟨ip, rfl⟩

theorem entryOf_of_blockOf {t : CidrText} {n : IPNet} (h : blockOf t = some n) :
    entryOf t = some { network := n, size := 32 - n.ones, lastIP := LastIP n } := by
  obtain ⟨ip, hp⟩ := blockOf_some h
  simp [entryOf, NewCIDR, hp]

theorem appendClusters_ok {l : List CidrText} {g g' : GlobalCIDR}
    (h : appendClusters g l = .ok g') :
    g' = { g with allocatedClusters := g.allocatedClusters ++ l.filterMap entryOf,
                  allocatedCount := g.allocatedCount + l.length } ∧
      ∀ t ∈ l, (entryOf t).isSome = true := by
  induction l generalizing g with
  | nil =>
    simp only [appendClusters, Except.ok.injEq] at h
    subst h
    simp
  | cons t rest ih =>
    unfold appendClusters at h
    cases hn : NewCIDR t with
    | error e => simp [hn] at h
    | ok c =>
      simp only [hn] at h
      obtain ⟨h1, h2⟩ := ih h
      have he : entryOf t = some c := by simp [entryOf, hn]
      refine ⟨?_, ?_⟩
      · rw [h1]
        simp [List.filterMap_cons, he, Nat.add_assoc, Nat.add_comm 1]
      · intro u hu
        rcases List.mem_cons.mp hu with rfl | hu
        · simp [he]
        · exact h2 u hu

theorem loadClusters_ok {l : List (String × GlobalNetwork)} {g g' : GlobalCIDR}
    (h : loadClusters g l = .ok g') :
    g' = { g with
            allocatedClusters :=
              g.allocatedClusters ++ ((l.map (fun p => p.2.GlobalCIDRs)).flatten).filterMap entryOf,
            allocatedCount :=
              g.allocatedCount + ((l.map (fun p => p.2.GlobalCIDRs)).flatten).length } ∧
      ∀ t ∈ (l.map (fun p => p.2.GlobalCIDRs)).flatten, (entryOf t).isSome = true := by
  induction l generalizing g with
  | nil =>
    simp only [loadClusters, Except.ok.injEq] at h
    subst h
    simp
  | cons p rest ih =>
    obtain ⟨k, gn⟩ := p
    unfold loadClusters at h
    cases ha : appendClusters g gn.GlobalCIDRs with
    | error e => simp [ha] at h
    | ok g1 =>
      simp only [ha] at h
      obtain ⟨h1, h2⟩ := ih h
      obtain ⟨h3, h4⟩ := appendClusters_ok ha
      refine ⟨?_, ?_⟩
      · rw [h1, h3]
        simp [List.filterMap_append, Nat.add_assoc]
      · intro u hu
        simp only [List.map_cons, List.flatten_cons, List.mem_append] at hu
        rcases hu with hu | hu
        · exact h4 u hu
        · exact h2 u hu

theorem scanAllocated_none {cidr : CidrText} {ip : Nat} {net : IPNet} {cc : CIDR}
    {l : List CIDR} (h : scanAllocated cidr ip net cc l = none) :
    ∀ c ∈ l, c.network.Contains ip = false ∧ net.Contains c.network.IP = false := by
  induction l with
  | nil => simp
  | cons a rest ih =>
    unfold scanAllocated at h
    by_cases h1 : a.network.Contains ip = true
    · simp [h1] at h
    · by_cases h2 : net.Contains a.network.IP = true
      · simp [h1, h2] at h
      · rw [if_neg h1, if_neg h2] at h
        intro c hc
        rcases List.mem_cons.mp hc with rfl | hc
        · exact ⟨by simpa using h1, by simpa using h2⟩
        · exact ih h c hc

theorem scanAllocated_of_none {cidr : CidrText} {ip : Nat} {net : IPNet} {cc : CIDR}
    {l : List CIDR}
    (h : ∀ c ∈ l, c.network.Contains ip = false ∧ net.Contains c.network.IP = false) :
    scanAllocated cidr ip net cc l = none := by
  induction l with
  | nil => rfl
  | cons a rest ih =>
    unfold scanAllocated
    have ha := h a (List.mem_cons_self _ _)
    simp only [ha.1, ha.2, if_false]
    exact ih (fun c hc => h c (List.mem_cons_of_mem _ hc))

theorem scanAllocated_some {cidr : CidrText} {ip : Nat} {net : IPNet} {cc : CIDR}
    {l : List CIDR} {last : Nat} {e : Error}
    (h : scanAllocated cidr ip net cc l = some (last, e)) :
    ∃ c ∈ l, (c.network.Contains ip = true ∧ last = c.lastIP) ∨
      (c.network.Contains ip = false ∧ net.Contains c.network.IP = true ∧
        last = cc.lastIP) := by
  induction l with
  | nil => simp [scanAllocated] at h
  | cons a rest ih =>
    unfold scanAllocated at h
    by_cases h1 : a.network.Contains ip = true
    · rw [if_pos h1] at h
      simp only [Option.some.injEq, Prod.mk.injEq] at h
      exact ⟨a, List.mem_cons_self _ _, Or.inl ⟨h1, h.1.symm⟩⟩
    · by_cases h2 : net.Contains a.network.IP = true
      · rw [if_neg h1, if_pos h2] at h
        simp only [Option.some.injEq, Prod.mk.injEq] at h
        exact ⟨a, List.mem_cons_self _ _, Or.inr ⟨by simpa using h1, h2, h.1.symm⟩⟩
      · rw [if_neg h1, if_neg h2] at h
        obtain ⟨c, hc, hh⟩ := ih h
        exact ⟨c, List.mem_cons_of_mem _ hc, hh⟩

/-- The body of `allocateByCidr` once the text is known to parse. -/
theorem allocateByCidr_parsed {g : GlobalCIDR} {cidr : CidrText} {ip : Nat} {net : IPNet}
    (hp : ParseCIDR cidr = some (ip, net)) :
    allocateByCidr g cidr =
      if g.net.Contains ip = true ∧ g.net.Contains (uintToIP (LastIP net)) = true then
        match scanAllocated cidr ip net
            { network := net, size := 32 - net.ones, lastIP := LastIP net }
            (g.allocatedClusters.take g.allocatedCount) with
        | some (last, e) => ((last, some e), g)
        | none =>
          ((0, none), { g with
            allocatedClusters := g.allocatedClusters ++
              [{ network := net, size := 32 - net.ones, lastIP := LastIP net }],
            allocatedCount := g.allocatedCount + 1 })
      else ((0, some (.notValidSubnet cidr g.net)), g) := by
  unfold allocateByCidr NewCIDR
  simp only [hp]
  by_cases h1 : g.net.Contains ip = true
  · by_cases h2 : g.net.Contains (uintToIP (LastIP net)) = true
    · simp [h1, h2]
    · simp [h1, h2]
  · simp [h1]

theorem allocateByCidr_ok {g : GlobalCIDR} {cidr : CidrText}
    (h : (allocateByCidr g cidr).1.2 = none) :
    ∃ ip net, ParseCIDR cidr = some (ip, net) ∧ g.net.Contains ip = true ∧
      g.net.Contains (uintToIP (LastIP net)) = true ∧
      ∀ c ∈ g.allocatedClusters.take g.allocatedCount,
        c.network.Contains ip = false ∧ net.Contains c.network.IP = false := by
  cases hp : ParseCIDR cidr with
  | none => simp [allocateByCidr, hp] at h
  | some r =>
    obtain ⟨ip, net⟩ := r
    rw [allocateByCidr_parsed hp] at h
    by_cases hc : g.net.Contains ip = true ∧ g.net.Contains (uintToIP (LastIP net)) = true
    · rw [if_pos hc] at h
      cases hs : scanAllocated cidr ip net
          { network := net, size := 32 - net.ones, lastIP := LastIP net }
          (g.allocatedClusters.take g.allocatedCount) with
      | some r =>
        obtain ⟨last, e⟩ := r
        simp [hs] at h
      | none => exact ⟨ip, net, rfl, hc.1, hc.2, scanAllocated_none hs⟩
    · rw [if_neg hc] at h
      simp at h

theorem probe_ok {g : GlobalCIDR} {P : Int} {cidr : CidrText} :
    ∀ (fuel last : Nat), probe g P fuel last = some (.ok cidr) →
      (allocateByCidr g cidr).1.2 = none := by
  intro fuel
  induction fuel with
  | zero => intro last h; simp [probe] at h
  | succ n ih =>
    intro last h
    unfold probe at h
    simp only at h
    split at h
    · rename_i heq
      simp only [Option.some.injEq, Except.ok.injEq] at h
      rw [← h, heq]
    · rename_i last1 e g1 heq
      by_cases h0 : last1 = 0
      · simp [h0] at h
      · simp only [h0, if_false] at h
        exact ih last1 h

theorem allocateByClusterSize_ok {fuel : Nat} {g : GlobalCIDR} {n : Nat} {cidr : CidrText}
    (h : allocateByClusterSize fuel g n = some (.ok cidr)) :
    (allocateByCidr g cidr).1.2 = none := by
  unfold allocateByClusterSize at h
  simp only at h
  split at h
  · rename_i heq
    simp only [Option.some.injEq, Except.ok.injEq] at h
    rw [← h, heq]
  · rename_i last1 e g1 heq
    by_cases h0 : last1 = 0
    · simp [h0] at h
    · simp only [h0, if_false] at h
      exact probe_ok fuel last1 h

/-! ## A successful allocation is disjoint from the ledger -/

theorem Overlap_symm {a b : IPNet} (h : Overlap a b) : Overlap b a := by
  obtain ⟨x, hx, h1, h2⟩ := h
  exact ⟨x, hx, h2, h1⟩

theorem no_overlap_of_checks {a b : IPNet} {ip : Nat} (ha : a.IP < 2 ^ 32) (hb : b.IP < 2 ^ 32)
    (hip : ip < 2 ^ 32) (h0 : a.Contains ip = true) (h1 : b.Contains ip = false)
    (h2 : a.Contains b.IP = false) : ¬ Overlap a b := by
  rintro ⟨x, hx, hxa, hxb⟩
  rw [Contains_iff_div a x ha hx] at hxa
  rw [Contains_iff_div b x hb hx] at hxb
  rw [Contains_iff_div a ip ha hip] at h0
  rcases Nat.le_total (32 - a.ones) (32 - b.ones) with hle | hle
  · have e : b.IP / 2 ^ (32 - b.ones) = ip / 2 ^ (32 - b.ones) := by
      rw [hxb]
      exact div_pow_eq_of_le hle (hxa.symm.trans h0)
    have : b.Contains ip = true := (Contains_iff_div b ip hb hip).mpr e
    rw [this] at h1
    cases h1
  · have e : a.IP / 2 ^ (32 - a.ones) = b.IP / 2 ^ (32 - a.ones) := by
      rw [hxa]
      exact div_pow_eq_of_le hle hxb.symm
    have : a.Contains b.IP = true := (Contains_iff_div a b.IP ha hb).mpr e
    rw [this] at h2
    cases h2

theorem take_loaded (base : IPNet) (info : GlobalnetInfo) :
    (loaded base info).allocatedClusters.take (loaded base info).allocatedCount =
      (ledger info).filterMap entryOf := by
  apply List.take_of_length_le
  exact List.length_filterMap_le _ _

/-- What a successful `AllocateGlobalCIDR` went through: the base range parses, every
ledger text parses, and `allocateByClusterSize` succeeds on the loaded package variable. -/
theorem AllocateGlobalCIDR_ok {fuel : Nat} {info : GlobalnetInfo} {cidr : CidrText}
    (h : AllocateGlobalCIDR fuel info = some (.ok cidr)) :
    ∃ bip base, ParseCIDR info.GlobalnetCidrRange = some (bip, base) ∧
      (∀ t ∈ ledger info, (entryOf t).isSome = true) ∧
      allocateByClusterSize fuel (loaded base info) info.GlobalnetClusterSize
        = some (.ok cidr) := by
  unfold AllocateGlobalCIDR at h
  cases hp : ParseCIDR info.GlobalnetCidrRange with
  | none => simp [hp] at h
  | some r =>
    obtain ⟨bip, base⟩ := r
    simp only [hp] at h
    cases hl : loadClusters
        { cidr := info.GlobalnetCidrRange, net := base, allocatedClusters := [],
          allocatedCount := 0 } info.GlobalCidrInfo with
    | error e => simp [hl] at h
    | ok g1 =>
      simp only [hl] at h
      obtain ⟨h1, h2⟩ := loadClusters_ok hl
      refine ⟨bip, base, rfl, h2, ?_⟩
      have : g1 = loaded base info := by
        rw [h1]
        simp [loaded, ledger]
      rw [← this]
      exact h

/-- The checks that the returned text has passed in `allocateByCidr`. -/
theorem AllocateGlobalCIDR_checks {fuel : Nat} {info : GlobalnetInfo} {cidr : CidrText}
    (h : AllocateGlobalCIDR fuel info = some (.ok cidr)) :
    ∃ bip base ip net, ParseCIDR info.GlobalnetCidrRange = some (bip, base) ∧
      ParseCIDR cidr = some (ip, net) ∧
      base.Contains ip = true ∧ base.Contains (uintToIP (LastIP net)) = true ∧
      ∀ t ∈ ledger info, ∃ c, entryOf t = some c ∧
        c.network.Contains ip = false ∧ net.Contains c.network.IP = false := by
  obtain ⟨bip, base, hp, hall, hs⟩ := AllocateGlobalCIDR_ok h
  obtain ⟨ip, net, hc, h1, h2, h3⟩ := allocateByCidr_ok (allocateByClusterSize_ok hs)
  rw [take_loaded] at h3
  refine ⟨bip, base, ip, net, hp, hc, h1, h2, ?_⟩
  intro t ht
  have hsome := hall t ht
  cases he : entryOf t with
  | none => simp [he] at hsome
  | some c =>
    exact ⟨c, rfl, h3 c (List.mem_filterMap.mpr ⟨t, ht, he⟩)⟩

/-- C1. Whenever `AllocateGlobalCIDR` succeeds, the returned text denotes a block that
shares no address with the block of any ledger entry (so neither contains an address of
the other), and a ledger whose entries are pairwise disjoint is still pairwise disjoint
after the returned text is appended. -/
theorem allocated_block_disjoint_from_ledger (fuel : Nat) (info : GlobalnetInfo)
    (cidr : CidrText) (h : AllocateGlobalCIDR fuel info = some (.ok cidr)) :
    ∃ B, blockOf cidr = some B ∧
      (∀ t ∈ ledger info, ∃ E, blockOf t = some E ∧ ¬ Overlap B E ∧ ¬ Overlap E B) ∧
      ((ledger info).Pairwise TextsDisjoint →
        (ledger info ++ [cidr]).Pairwise TextsDisjoint) := by
  obtain ⟨bip, base, ip, net, hp, hc, h1, h2, h3⟩ := AllocateGlobalCIDR_checks h
  have hB : blockOf cidr = some net := by simp [blockOf, hc]
  have hnet := ParseCIDR_WF hc
  have hip := (ParseCIDR_some hc).2.1
  have key : ∀ t ∈ ledger info, ∃ E, blockOf t = some E ∧ ¬ Overlap net E := by
    intro t ht
    obtain ⟨c, he, hc1, hc2⟩ := h3 t ht
    obtain ⟨hb, hwf, _⟩ := entryOf_some he
    exact ⟨c.network, hb, no_overlap_of_checks hnet.1.2.1 hwf.2.1 hip hnet.2 hc1 hc2⟩
  refine ⟨net, hB, ?_, ?_⟩
  · intro t ht
    obtain ⟨E, hE, hno⟩ := key t ht
    exact ⟨E, hE, hno, fun ho => hno (Overlap_symm ho)⟩
  · intro hpw
    rw [List.pairwise_append]
    refine ⟨hpw, List.pairwise_singleton _ _, ?_⟩
    intro t ht u hu a b ha hb
    rw [List.mem_singleton] at hu
    subst hu
    obtain ⟨E, hE, hno⟩ := key t ht
    rw [hE] at ha
    rw [hB] at hb
    cases ha
    cases hb
    exact fun ho => hno (Overlap_symm ho)

theorem allocated_block_disjoint_from_ledger_witness :
    AllocateGlobalCIDR 8 (infoOf (CidrText.v4 (ip4 10 0 0 0) 8) 256 [CidrText.v4 (ip4 10 0 0 0) 24])
      = some (.ok (CidrText.v4 (ip4 10 0 1 0) 24)) ∧
    ∃ B, blockOf (CidrText.v4 (ip4 10 0 1 0) 24) = some B ∧
      (∀ t ∈ ledger (infoOf (CidrText.v4 (ip4 10 0 0 0) 8) 256 [CidrText.v4 (ip4 10 0 0 0) 24]),
        ∃ E, blockOf t = some E ∧ ¬ Overlap B E ∧ ¬ Overlap E B) ∧
      ((ledger (infoOf (CidrText.v4 (ip4 10 0 0 0) 8) 256 [CidrText.v4 (ip4 10 0 0 0) 24])).Pairwise
          TextsDisjoint →
        (ledger (infoOf (CidrText.v4 (ip4 10 0 0 0) 8) 256 [CidrText.v4 (ip4 10 0 0 0) 24])
          ++ [CidrText.v4 (ip4 10 0 1 0) 24]).Pairwise TextsDisjoint) :=
  ⟨by decide,
    allocated_block_disjoint_from_ledger 8
      (infoOf (CidrText.v4 (ip4 10 0 0 0) 8) 256 [CidrText.v4 (ip4 10 0 0 0) 24]) (CidrText.v4 (ip4 10 0 1 0) 24)
      (by decide)⟩

/-! ## The prefix length and the base range -/

theorem bitsLenAux_le_iff : ∀ (fuel x k : Nat), x < 2 ^ fuel →
    (bitsLenAux fuel x ≤ k ↔ x < 2 ^ k) := by
  intro fuel
  induction fuel with
  | zero =>
    intro x k hx
    have hx0 : x = 0 := by simpa using hx
    subst hx0
    simp [bitsLenAux, Nat.two_pow_pos]
  | succ f ih =>
    intro x k hx
    unfold bitsLenAux
    by_cases h0 : x = 0
    · subst h0
      simp [Nat.two_pow_pos]
    · rw [if_neg h0]
      have hx2 : x / 2 < 2 ^ f := by
        rw [Nat.pow_succ] at hx
        omega
      cases k with
      | zero =>
        simp only [Nat.pow_zero, Nat.lt_one_iff]
        constructor
        · intro h; omega
        · intro h; exact absurd h h0
      | succ k =>
        rw [Nat.succ_le_succ_iff, ih (x / 2) k hx2, Nat.pow_succ]
        omega

theorem bitsLen_le_iff (x k : Nat) (hx : x < 2 ^ 64) : bitsLen x ≤ k ↔ x < 2 ^ k :=
  bitsLenAux_le_iff 64 x k hx

theorem bitsLen_le_64 (x : Nat) (hx : x < 2 ^ 64) : bitsLen x ≤ 64 :=
  (bitsLen_le_iff x 64 hx).mpr hx

/-- The prefix length in terms of the bit length of `numSize - 1`. -/
theorem clusterPrefixOf_eq (n : Nat) :
    clusterPrefixOf n = (32 : Int) - (bitsLen ((n + 2 ^ 64 - 1) % 2 ^ 64) : Int) := by
  have h := bitsLen_le_64 ((n + 2 ^ 64 - 1) % 2 ^ 64) (Nat.mod_lt _ (by decide))
  have h0 : bitsLen 0 = 0 := by decide
  unfold clusterPrefixOf LeadingZeros
  simp only [h0]
  omega

theorem clusterPrefixOf_ge {n k : Nat} (hk : k ≤ 32) (h1 : 1 ≤ n) (h2 : n ≤ 2 ^ k) :
    (32 : Int) - (k : Int) ≤ clusterPrefixOf n := by
  have hp : 2 ^ k ≤ 2 ^ 32 := Nat.pow_le_pow_right (by decide) hk
  have e : (n + 2 ^ 64 - 1) % 2 ^ 64 = n - 1 := by
    have : n + 2 ^ 64 - 1 = (n - 1) + 2 ^ 64 := by omega
    rw [this, Nat.add_mod_right]
    exact Nat.mod_eq_of_lt (by omega)
  have hb : bitsLen (n - 1) ≤ k := (bitsLen_le_iff (n - 1) k (by omega)).mpr (by omega)
  rw [clusterPrefixOf_eq, e]
  omega

theorem Contains_of_nested {a b : IPNet} {x y : Nat} (ha : a.IP < 2 ^ 32) (hb : b.IP < 2 ^ 32)
    (hx : x < 2 ^ 32) (hy : y < 2 ^ 32) (hle : a.ones ≤ b.ones)
    (hay : a.Contains y = true) (hby : b.Contains y = true) (hbx : b.Contains x = true) :
    a.Contains x = true := by
  rw [Contains_iff_div a y ha hy] at hay
  rw [Contains_iff_div b y hb hy] at hby
  rw [Contains_iff_div b x hb hx] at hbx
  rw [Contains_iff_div a x ha hx, hay]
  exact div_pow_eq_of_le (by omega) (hby.symm.trans hbx)

theorem Contains_self {n : IPNet} (hn : n.WF) : n.Contains n.IP = true :=
  (Contains_iff_div n n.IP hn.2.1 hn.2.1).mpr rfl

theorem Contains_last {n : IPNet} (hn : n.WF) :
    n.Contains (n.IP + 2 ^ (32 - n.ones) - 1) = true := by
  have h := (LastIP_eq hn).2
  have hpos : 0 < 2 ^ (32 - n.ones) := Nat.two_pow_pos _
  rw [Contains_iff_range n _ hn (by omega)]
  omega

theorem probe_text {g : GlobalCIDR} {P : Int} {cidr : CidrText} :
    ∀ (fuel last : Nat), probe g P fuel last = some (.ok cidr) →
      ∃ last', cidr = nextNetString last' P := by
  intro fuel
  induction fuel with
  | zero => intro last h; simp [probe] at h
  | succ n ih =>
    intro last h
    unfold probe at h
    simp only at h
    split at h
    · simp only [Option.some.injEq, Except.ok.injEq] at h
      exact ⟨last, h.symm⟩
    · rename_i last1 e g1 heq
      by_cases h0 : last1 = 0
      · simp [h0] at h
      · simp only [h0, if_false] at h
        exact ih last1 h

/-- The text that a successful `allocateByClusterSize` returns carries the prefix length
computed from the requested size. -/
theorem allocateByClusterSize_text {fuel : Nat} {g : GlobalCIDR} {n : Nat} {cidr : CidrText}
    {ip : Nat} {net : IPNet}
    (h : allocateByClusterSize fuel g n = some (.ok cidr))
    (hp : ParseCIDR cidr = some (ip, net)) : (net.ones : Int) = clusterPrefixOf n := by
  have hform : ∃ a, cidr = .v4 a (clusterPrefixOf n) := by
    unfold allocateByClusterSize at h
    simp only at h
    split at h
    · simp only [Option.some.injEq, Except.ok.injEq] at h
      exact ⟨_, h.symm⟩
    · rename_i last1 e g1 heq
      by_cases h0 : last1 = 0
      · simp [h0] at h
      · simp only [h0, if_false] at h
        obtain ⟨l, hl⟩ := probe_text fuel last1 h
        unfold nextNetString at hl
        split at hl
        · exact ⟨_, hl⟩
        · rw [hl] at hp
          simp [ParseCIDR] at hp
  obtain ⟨a, ha⟩ := hform
  have := (ParseCIDR_some hp).1
  rw [ha] at this
  simp only [CidrText.v4.injEq] at this
  exact this.2.symm

/-- C2, failing input. Base range `10.0.0.128/25`, which `IsValidCIDR` admits, empty ledger,
configured size 256: the allocation succeeds with the text `10.0.0.128/24`, which denotes the
block `10.0.0.0/24`, and the network address `10.0.0.0` of that block is not in the base
range. `allocateByCidr` tests the address as written and the last address, not the network
address of the candidate. The same size on the base range `10.0.0.0/25` is refused as not a
valid subnet, by the test of the last address. -/
theorem oversized_request_leaves_base :
    IsValidCIDR (CidrText.v4 (ip4 10 0 0 128) 25) = none ∧
    (∀ fuel, AllocateGlobalCIDR fuel (infoOf (CidrText.v4 (ip4 10 0 0 0) 25) 256 [])
      = some (.error (.notValidSubnet (CidrText.v4 (ip4 10 0 0 0) 24)
          { IP := ip4 10 0 0 0, ones := 25 }))) ∧
    AllocateGlobalCIDR 8 (infoOf (.v4 (ip4 10 0 0 128) 25) 256 [])
      = some (.ok (.v4 (ip4 10 0 0 128) 24)) ∧
    blockOf (.v4 (ip4 10 0 0 128) 25) = some { IP := ip4 10 0 0 128, ones := 25 } ∧
    blockOf (.v4 (ip4 10 0 0 128) 24) = some { IP := ip4 10 0 0 0, ones := 24 } ∧
    IPNet.Contains { IP := ip4 10 0 0 128, ones := 25 } (ip4 10 0 0 0) = false := by
  refine ⟨by decide, fun fuel => ?_, by decide, by decide, by decide, by decide⟩
  cases fuel <;> rfl

/-- Away from oversized requests the block stays in the base range. When the requested size is at most the capacity `2 ^ hostBits` of the
base range `R` and `AllocateGlobalCIDR` succeeds, the first address (the network address)
and the last address (network address `+ 2 ^ hostBits - 1`) of the block that the returned
text denotes both lie in `R`. -/
theorem allocated_block_within_base (fuel : Nat) (info : GlobalnetInfo) (cidr : CidrText)
    (bip : Nat) (base : IPNet)
    (hbase : ParseCIDR info.GlobalnetCidrRange = some (bip, base))
    (hsize : info.GlobalnetClusterSize ≤ 2 ^ (32 - base.ones))
    (h : AllocateGlobalCIDR fuel info = some (.ok cidr)) :
    ∃ B, blockOf cidr = some B ∧ base.Contains B.IP = true ∧
      base.Contains (B.IP + 2 ^ (32 - B.ones) - 1) = true := by
  obtain ⟨bip1, base1, ip, net, hp, hc, h1, _, _⟩ := AllocateGlobalCIDR_checks h
  obtain ⟨bip2, base2, hp2, _, hs⟩ := AllocateGlobalCIDR_ok h
  rw [hbase] at hp hp2
  cases hp
  cases hp2
  have hones := allocateByClusterSize_text hs hc
  have hnet := ParseCIDR_WF hc
  have hbwf := (ParseCIDR_WF hbase).1
  have hip := (ParseCIDR_some hc).2.1
  have hn1 : 1 ≤ info.GlobalnetClusterSize := by
    by_contra hlt
    have h0 : info.GlobalnetClusterSize = 0 := by omega
    rw [h0] at hones
    have : clusterPrefixOf 0 = -32 := by decide
    omega
  have hge := clusterPrefixOf_ge (Nat.sub_le 32 base.ones) hn1 hsize
  have hb32 := hbwf.1
  have hle : base.ones ≤ net.ones := by omega
  have hlast := LastIP_eq hnet.1
  have hpos : 0 < 2 ^ (32 - net.ones) := Nat.two_pow_pos _
  refine ⟨net, by simp [blockOf, hc], ?_, ?_⟩
  · exact Contains_of_nested hbwf.2.1 hnet.1.2.1 hnet.1.2.1 hip hle h1 hnet.2
      (Contains_self hnet.1)
  · exact Contains_of_nested hbwf.2.1 hnet.1.2.1 (by omega) hip hle h1 hnet.2
      (Contains_last hnet.1)

theorem allocated_block_within_base_witness :
    ParseCIDR (infoOf (CidrText.v4 (ip4 10 0 0 0) 8) 256
        [CidrText.v4 (ip4 10 0 0 0) 24]).GlobalnetCidrRange
      = some (ip4 10 0 0 0, { IP := ip4 10 0 0 0, ones := 8 }) ∧
    (infoOf (CidrText.v4 (ip4 10 0 0 0) 8) 256
        [CidrText.v4 (ip4 10 0 0 0) 24]).GlobalnetClusterSize ≤ 2 ^ (32 - 8) ∧
    AllocateGlobalCIDR 8 (infoOf (CidrText.v4 (ip4 10 0 0 0) 8) 256
        [CidrText.v4 (ip4 10 0 0 0) 24]) = some (.ok (CidrText.v4 (ip4 10 0 1 0) 24)) ∧
    ∃ B, blockOf (CidrText.v4 (ip4 10 0 1 0) 24) = some B ∧
      IPNet.Contains { IP := ip4 10 0 0 0, ones := 8 } B.IP = true ∧
      IPNet.Contains { IP := ip4 10 0 0 0, ones := 8 } (B.IP + 2 ^ (32 - B.ones) - 1) = true :=
  ⟨by decide, by decide, by decide,
    allocated_block_within_base 8
      (infoOf (CidrText.v4 (ip4 10 0 0 0) 8) 256 [CidrText.v4 (ip4 10 0 0 0) 24])
      (CidrText.v4 (ip4 10 0 1 0) 24) (ip4 10 0 0 0) { IP := ip4 10 0 0 0, ones := 8 }
      (by decide) (by decide) (by decide)⟩

/-! ## The probing returns the lowest available slot -/

/-- What a failed attempt that returns a non-zero address has found. -/
theorem attempt_fail {g g1 : GlobalCIDR} {cidr : CidrText} {a last : Nat} {net : IPNet}
    {e : Error} (hp : ParseCIDR cidr = some (a, net))
    (h : allocateByCidr g cidr = ((last, some e), g1)) (h0 : last ≠ 0) :
    g.net.Contains a = true ∧ g.net.Contains (uintToIP (LastIP net)) = true ∧
      ∃ c ∈ g.allocatedClusters.take g.allocatedCount,
        (c.network.Contains a = true ∧ last = c.lastIP) ∨
        (c.network.Contains a = false ∧ net.Contains c.network.IP = true ∧
          last = LastIP net) := by
  rw [allocateByCidr_parsed hp] at h
  by_cases hc : g.net.Contains a = true ∧ g.net.Contains (uintToIP (LastIP net)) = true
  · rw [if_pos hc] at h
    refine ⟨hc.1, hc.2, ?_⟩
    cases hs : scanAllocated cidr a net
        { network := net, size := 32 - net.ones, lastIP := LastIP net }
        (g.allocatedClusters.take g.allocatedCount) with
    | none => simp [hs] at h
    | some r =>
      obtain ⟨l, e1⟩ := r
      simp only [hs, Prod.mk.injEq, Option.some.injEq] at h
      obtain ⟨c, hc1, hc2⟩ := scanAllocated_some hs
      rw [h.1.1] at hc2
      exact ⟨c, hc1, hc2⟩
  · rw [if_neg hc] at h
    simp only [Prod.mk.injEq] at h
    exact absurd h.1.1.symm h0

/-- The addresses from a failed candidate up to the address that the attempt returns hold no
first address of an aligned block of the candidate's size that avoids the conflicting
entry. -/
theorem skip_no_slot {a last : Nat} {net : IPNet} {c : CIDR} {F : IPNet}
    (hnet : net.WF) (ha : a < 2 ^ 32) (hna : net.Contains a = true)
    (hc : c.network.WF) (hcl : c.lastIP = LastIP c.network)
    (hcase : (c.network.Contains a = true ∧ last = c.lastIP) ∨
      (c.network.Contains a = false ∧ net.Contains c.network.IP = true ∧ last = LastIP net))
    (hF1 : F.ones = net.ones) (hF2 : F.WF) (hF3 : ¬ Overlap F c.network)
    (hle : a ≤ F.IP) : last < F.IP := by
  by_contra hcon
  have hFl : F.IP ≤ last := by omega
  have hFF := Contains_self hF2
  rcases hcase with ⟨h1, h2⟩ | ⟨_, h1, h2⟩
  · rw [hcl, (LastIP_eq hc).1] at h2
    have hb := (LastIP_eq hc).2
    rw [Contains_iff_range c.network a hc ha] at h1
    have : c.network.Contains F.IP = true := by
      rw [Contains_iff_range c.network F.IP hc hF2.2.1]
      omega
    exact hF3 ⟨F.IP, hF2.2.1, hFF, this⟩
  · rw [(LastIP_eq hnet).1] at h2
    rw [Contains_iff_range net a hnet ha] at hna
    have hin : net.Contains F.IP = true := by
      rw [Contains_iff_range net F.IP hnet hF2.2.1]
      omega
    have heq : F.IP = net.IP := by
      rw [Contains_iff_div net F.IP hnet.2.1 hF2.2.1] at hin
      have e1 := Nat.div_mul_cancel (Nat.dvd_of_mod_eq_zero hF2.2.2)
      have e2 := Nat.div_mul_cancel (Nat.dvd_of_mod_eq_zero hnet.2.2)
      rw [hF1] at e1
      rw [← e1, ← e2, hin]
    have hFn : F = net := by
      cases F
      cases net
      simp only at hF1 heq
      simp [hF1, heq]
    rw [hFn] at hF3
    exact hF3 ⟨c.network.IP, hc.2.1, h1, Contains_self hc⟩

theorem nextNetString_parse (last : Nat) {P : Int} (h0 : 0 ≤ P) (h1 : P ≤ 32) :
    ParseCIDR (nextNetString last P) =
      some ((last + 1) % 2 ^ 32,
        { IP := ((last + 1) % 2 ^ 32) &&& CIDRMask P.toNat, ones := P.toNat }) := by
  have e : uintToIP ((last + 1) % 2 ^ 64) = (last + 1) % 2 ^ 32 := by
    unfold uintToIP
    exact Nat.mod_mod_of_dvd _ (by decide)
  have hlt : (last + 1) % 2 ^ 32 < 2 ^ 32 := Nat.mod_lt _ (by decide)
  simp only [nextNetString, if_pos (And.intro h0 h1), ParseCIDR, e]
  rw [if_pos ⟨hlt, h0, h1⟩]

theorem probe_lowest {g : GlobalCIDR} {P : Int} {F : IPNet} (hgood : GoodEntries g)
    (hF1 : (F.ones : Int) = P) (hF2 : F.WF)
    (hF3 : ∀ c ∈ g.allocatedClusters.take g.allocatedCount, ¬ Overlap F c.network) :
    ∀ (fuel last : Nat) (cidr : CidrText), probe g P fuel last = some (.ok cidr) →
      (last + 1) % 2 ^ 32 ≤ F.IP →
      ∃ ip net, ParseCIDR cidr = some (ip, net) ∧ ip ≤ F.IP := by
  have hP0 : 0 ≤ P := by omega
  have hP1 : P ≤ 32 := by have := hF2.1; omega
  intro fuel
  induction fuel with
  | zero => intro last cidr h; simp [probe] at h
  | succ n ih =>
    intro last cidr h hle
    have hparse := nextNetString_parse last hP0 hP1
    unfold probe at h
    simp only at h
    split at h
    · simp only [Option.some.injEq, Except.ok.injEq] at h
      rw [← h]
      exact ⟨_, _, hparse, hle⟩
    · rename_i last1 e g1 heq
      by_cases h0 : last1 = 0
      · simp [h0] at h
      · simp only [h0, if_false] at h
        obtain ⟨_, _, c, hc, hcase⟩ := attempt_fail hparse heq h0
        have hwf := ParseCIDR_WF hparse
        have hlt := skip_no_slot hwf.1 (Nat.mod_lt _ (by decide)) hwf.2 (hgood c hc).1
          (hgood c hc).2 hcase (by simp only; omega) hF2 (hF3 c hc) hle
        have := Nat.mod_le (last1 + 1) (2 ^ 32)
        exact ih last1 cidr h (by omega)

theorem allocateByClusterSize_lowest {fuel : Nat} {g : GlobalCIDR} {n : Nat} {F : IPNet}
    {cidr : CidrText} (hgood : GoodEntries g) (hg : g.net.WF)
    (hF1 : (F.ones : Int) = clusterPrefixOf n) (hF2 : F.WF)
    (hF3 : ∀ c ∈ g.allocatedClusters.take g.allocatedCount, ¬ Overlap F c.network)
    (hF4 : g.net.Contains F.IP = true)
    (h : allocateByClusterSize fuel g n = some (.ok cidr)) :
    ∃ ip net, ParseCIDR cidr = some (ip, net) ∧ ip ≤ F.IP := by
  have hP0 : 0 ≤ clusterPrefixOf n := by omega
  have hP1 : clusterPrefixOf n ≤ 32 := by have := hF2.1; omega
  have hle : g.net.IP ≤ F.IP := ((Contains_iff_range g.net F.IP hg hF2.2.1).mp hF4).1
  have hparse : ParseCIDR (.v4 g.net.IP (clusterPrefixOf n)) =
      some (g.net.IP, { IP := g.net.IP &&& CIDRMask (clusterPrefixOf n).toNat,
                        ones := (clusterPrefixOf n).toNat }) := by
    simp only [ParseCIDR]
    rw [if_pos ⟨hg.2.1, hP0, hP1⟩]
  unfold allocateByClusterSize at h
  simp only at h
  split at h
  · simp only [Option.some.injEq, Except.ok.injEq] at h
    rw [← h]
    exact ⟨_, _, hparse, hle⟩
  · rename_i last1 e g1 heq
    by_cases h0 : last1 = 0
    · simp [h0] at h
    · simp only [h0, if_false] at h
      obtain ⟨_, _, c, hc, hcase⟩ := attempt_fail hparse heq h0
      have hwf := ParseCIDR_WF hparse
      have hlt := skip_no_slot hwf.1 hg.2.1 hwf.2 (hgood c hc).1
        (hgood c hc).2 hcase (by simp only; omega) hF2 (hF3 c hc) hle
      have := Nat.mod_le (last1 + 1) (2 ^ 32)
      exact probe_lowest hgood hF1 hF2 hF3 fuel last1 cidr h (by omega)

theorem GoodEntries_loaded (base : IPNet) (info : GlobalnetInfo) :
    GoodEntries (loaded base info) := by
  intro c hc
  rw [take_loaded] at hc
  obtain ⟨t, _, ht⟩ := List.mem_filterMap.mp hc
  exact (entryOf_some ht).2

/-- C3. Whenever `AllocateGlobalCIDR` succeeds, the block `B` that the returned text
denotes is the lowest available slot: every block `F` of the same prefix length that is
aligned to its size, contained in the base range and disjoint from every ledger entry has
`B.IP ≤ F.IP`. This holds for every requested size, in particular for
`1 ≤ n ≤ capacity`. -/
theorem allocated_block_is_lowest (fuel : Nat) (info : GlobalnetInfo) (cidr : CidrText)
    (h : AllocateGlobalCIDR fuel info = some (.ok cidr)) :
    ∃ base B, blockOf info.GlobalnetCidrRange = some base ∧ blockOf cidr = some B ∧
      ∀ F : IPNet, F.ones = B.ones → AvailableSlot base info F → B.IP ≤ F.IP := by
  obtain ⟨bip, base, hp, hall, hs⟩ := AllocateGlobalCIDR_ok h
  obtain ⟨ip, net, hc, _⟩ := allocateByCidr_ok (allocateByClusterSize_ok hs)
  have hones := allocateByClusterSize_text hs hc
  refine ⟨base, net, by simp [blockOf, hp], by simp [blockOf, hc], ?_⟩
  intro F hF1 ⟨hF2, hF3, _, hF5⟩
  have hbwf := (ParseCIDR_WF hp).1
  have hfree : ∀ c ∈ (loaded base info).allocatedClusters.take (loaded base info).allocatedCount,
      ¬ Overlap F c.network := by
    intro c hc'
    rw [take_loaded] at hc'
    obtain ⟨t, ht, hte⟩ := List.mem_filterMap.mp hc'
    exact hF5 t ht c.network (entryOf_some hte).1
  obtain ⟨ip', net', hc', hle⟩ := allocateByClusterSize_lowest (GoodEntries_loaded base info)
    hbwf (by rw [hF1]; exact hones) hF2 hfree hF3 hs
  rw [hc] at hc'
  cases hc'
  have := (ParseCIDR_some hc).2.2.2
  have : net.IP ≤ ip := by rw [this]; exact Nat.div_mul_le_self _ _
  omega

theorem allocated_block_is_lowest_witness :
    AllocateGlobalCIDR 8 (infoOf (CidrText.v4 (ip4 10 0 0 0) 8) 256
        [CidrText.v4 (ip4 10 0 0 0) 24]) = some (.ok (CidrText.v4 (ip4 10 0 1 0) 24)) ∧
    ∃ base B,
      blockOf (infoOf (CidrText.v4 (ip4 10 0 0 0) 8) 256
        [CidrText.v4 (ip4 10 0 0 0) 24]).GlobalnetCidrRange = some base ∧
      blockOf (CidrText.v4 (ip4 10 0 1 0) 24) = some B ∧
      ∀ F : IPNet, F.ones = B.ones →
        AvailableSlot base (infoOf (CidrText.v4 (ip4 10 0 0 0) 8) 256
          [CidrText.v4 (ip4 10 0 0 0) 24]) F → B.IP ≤ F.IP :=
  ⟨by decide,
    allocated_block_is_lowest 8
      (infoOf (CidrText.v4 (ip4 10 0 0 0) 8) 256 [CidrText.v4 (ip4 10 0 0 0) 24])
      (CidrText.v4 (ip4 10 0 1 0) 24) (by decide)⟩

/-! ## The configuration reconciler: assignment and validation -/

/-- C7. When the cluster of the request already has a non-empty list of global CIDRs,
`AssignGlobalnetIPs` returns the first CIDR of that list and no error, whatever explicit
CIDR the request carries (none included). -/
theorem preconfigured_cidr_is_kept (fuel : Nat) (info : GlobalnetInfo) (netconfig : Config)
    (gn : GlobalNetwork) (c : CidrText) (rest : List CidrText)
    (h1 : info.GlobalCidrInfo.lookup netconfig.ClusterID = some gn)
    (h2 : gn.GlobalCIDRs = c :: rest) :
    AssignGlobalnetIPs fuel info netconfig = some (.ok c) := by
  have hpre : isCIDRPreConfigured netconfig.ClusterID info.GlobalCidrInfo = true := by
    simp [isCIDRPreConfigured, h1, h2]
  have hfirst : firstGlobalCIDR netconfig.ClusterID info.GlobalCidrInfo = c := by
    simp [firstGlobalCIDR, h1, h2]
  unfold AssignGlobalnetIPs
  simp only [hpre, hfirst, if_true]
  split <;> rfl

theorem preconfigured_cidr_is_kept_witness :
    (infoOf (CidrText.v4 (ip4 10 0 0 0) 8) 256 [CidrText.v4 (ip4 10 0 5 0) 24]).GlobalCidrInfo.lookup
        (requestOf "cluster-a" (CidrText.v4 (ip4 10 0 9 0) 24) 0).ClusterID
      = some { GlobalCIDRs := [CidrText.v4 (ip4 10 0 5 0) 24], ClusterID := "cluster-a" } ∧
    AssignGlobalnetIPs 8 (infoOf (CidrText.v4 (ip4 10 0 0 0) 8) 256 [CidrText.v4 (ip4 10 0 5 0) 24])
        (requestOf "cluster-a" (CidrText.v4 (ip4 10 0 9 0) 24) 0)
      = some (.ok (CidrText.v4 (ip4 10 0 5 0) 24)) :=
  ⟨by decide,
    preconfigured_cidr_is_kept 8
      (infoOf (CidrText.v4 (ip4 10 0 0 0) 8) 256 [CidrText.v4 (ip4 10 0 5 0) 24])
      (requestOf "cluster-a" (CidrText.v4 (ip4 10 0 9 0) 24) 0)
      { GlobalCIDRs := [CidrText.v4 (ip4 10 0 5 0) 24], ClusterID := "cluster-a" }
      (CidrText.v4 (ip4 10 0 5 0) 24) [] (by decide) rfl⟩

theorem overlapsAny_spec (newNet : IPNet) (l : List CidrText)
    (hwf : ∀ t ∈ l, (blockOf t).isSome = true) :
    ∃ b, overlapsAny newNet l = .ok b ∧
      (b = true ↔ ∃ t ∈ l, ∃ m, blockOf t = some m ∧
        (m.Contains newNet.IP = true ∨ newNet.Contains m.IP = true)) := by
  induction l with
  | nil => exact ⟨false, rfl, by simp⟩
  | cons v rest ih =>
    obtain ⟨b, hb, hiff⟩ := ih (fun t ht => hwf t (List.mem_cons_of_mem _ ht))
    have hv := hwf v (List.mem_cons_self _ _)
    cases hbv : blockOf v with
    | none => simp [hbv] at hv
    | some m =>
      obtain ⟨ip, hp⟩ := blockOf_some hbv
      unfold overlapsAny
      simp only [hp]
      by_cases hc : (m.Contains newNet.IP || newNet.Contains m.IP) = true
      · refine ⟨true, by simp [hc], ?_⟩
        simp only [true_iff]
        refine ⟨v, List.mem_cons_self _ _, m, hbv, ?_⟩
        simpa using hc
      · refine ⟨b, by simp [hc, hb], ?_⟩
        rw [hiff]
        constructor
        · rintro ⟨t, ht, m', hm', hh⟩
          exact ⟨t, List.mem_cons_of_mem _ ht, m', hm', hh⟩
        · rintro ⟨t, ht, m', hm', hh⟩
          rcases List.mem_cons.mp ht with rfl | ht
          · rw [hbv] at hm'
            cases hm'
            exact absurd (by simpa using hh) hc
          · exact ⟨t, ht, m', hm', hh⟩

theorem checkClusters_spec (netconfig : Config) (ip : Nat) (newNet : IPNet)
    (hc : ParseCIDR netconfig.GlobalnetCIDR = some (ip, newNet))
    (l : List (String × GlobalNetwork))
    (hwf : ∀ p ∈ l, ∀ t ∈ p.2.GlobalCIDRs, (blockOf t).isSome = true) :
    (checkClusters netconfig l = none ∧ ¬ OverlapsOtherCluster l netconfig.ClusterID newNet) ∨
    (∃ k, k ≠ netconfig.ClusterID ∧
      checkClusters netconfig l = some (.overlapsWithCluster netconfig.GlobalnetCIDR k) ∧
      OverlapsOtherCluster l netconfig.ClusterID newNet) := by
  induction l with
  | nil =>
    left
    exact ⟨rfl, by rintro ⟨p, hp, _⟩; cases hp⟩
  | cons p rest ih =>
    obtain ⟨k, v⟩ := p
    obtain ⟨b, hb, hiff⟩ := overlapsAny_spec newNet v.GlobalCIDRs
      (hwf (k, v) (List.mem_cons_self _ _))
    have hio : isOverlappingCIDR v.GlobalCIDRs netconfig.GlobalnetCIDR = .ok b := by
      simp [isOverlappingCIDR, hc, hb]
    unfold checkClusters
    simp only [hio]
    by_cases hcond : (b && k != netconfig.ClusterID) = true
    · right
      simp only [Bool.and_eq_true, bne_iff_ne, ne_eq] at hcond
      refine ⟨k, hcond.2, by simp [hcond.1, hcond.2], ?_⟩
      obtain ⟨t, ht, m, hm, hh⟩ := hiff.mp hcond.1
      exact ⟨(k, v), List.mem_cons_self _ _, hcond.2, t, ht, m, hm, hh⟩
    · rw [if_neg hcond]
      rcases ih (fun p hp => hwf p (List.mem_cons_of_mem _ hp)) with ⟨h1, h2⟩ | ⟨k', hk', h1, h2⟩
      · left
        refine ⟨h1, ?_⟩
        rintro ⟨p, hp, hne, t, ht, m, hm, hh⟩
        rcases List.mem_cons.mp hp with rfl | hp
        · apply hcond
          simp only [Bool.and_eq_true, bne_iff_ne, ne_eq]
          exact ⟨hiff.mpr ⟨t, ht, m, hm, hh⟩, hne⟩
        · exact h2 ⟨p, hp, hne, t, ht, m, hm, hh⟩
      · right
        obtain ⟨p, hp, hh⟩ := h2
        exact ⟨k', hk', h1, p, List.mem_cons_of_mem _ hp, hh⟩

/-- C8. When every assigned CIDR is well formed, the request carries a well-formed explicit
CIDR and its cluster has no assignment yet, `AssignGlobalnetIPs` fails if and only if the
explicit CIDR overlaps (in either containment direction) a CIDR of another cluster; the
error then is the overlap error naming another cluster, and otherwise the explicit CIDR
text is returned unchanged. -/
theorem explicit_cidr_checked_against_other_clusters (fuel : Nat) (info : GlobalnetInfo)
    (netconfig : Config) (ip : Nat) (newNet : IPNet)
    (hwf : ∀ t ∈ ledger info, (blockOf t).isSome = true)
    (hc : ParseCIDR netconfig.GlobalnetCIDR = some (ip, newNet))
    (hpre : isCIDRPreConfigured netconfig.ClusterID info.GlobalCidrInfo = false) :
    ((∃ e, AssignGlobalnetIPs fuel info netconfig = some (.error e)) ↔
        OverlapsOtherCluster info.GlobalCidrInfo netconfig.ClusterID newNet) ∧
    (OverlapsOtherCluster info.GlobalCidrInfo netconfig.ClusterID newNet →
        ∃ k, k ≠ netconfig.ClusterID ∧ AssignGlobalnetIPs fuel info netconfig =
          some (.error (.overlapsWithCluster netconfig.GlobalnetCIDR k))) ∧
    (¬ OverlapsOtherCluster info.GlobalCidrInfo netconfig.ClusterID newNet →
        AssignGlobalnetIPs fuel info netconfig = some (.ok netconfig.GlobalnetCIDR)) := by
  have hne : netconfig.GlobalnetCIDR ≠ CidrText.empty := by
    intro he
    rw [he] at hc
    simp [CidrText.empty, ParseCIDR] at hc
  have hwf' : ∀ p ∈ info.GlobalCidrInfo, ∀ t ∈ p.2.GlobalCIDRs, (blockOf t).isSome = true := by
    intro p hp t ht
    apply hwf
    unfold ledger
    rw [List.mem_flatten]
    exact ⟨p.2.GlobalCIDRs, List.mem_map.mpr ⟨p, hp, rfl⟩, ht⟩
  have hA : AssignGlobalnetIPs fuel info netconfig =
      match checkClusters netconfig info.GlobalCidrInfo with
      | some err => some (.error err)
      | none => some (.ok netconfig.GlobalnetCIDR) := by
    unfold AssignGlobalnetIPs CheckOverlappingCidrs
    simp only [hpre, if_neg hne]
    rfl
  rcases checkClusters_spec netconfig ip newNet hc info.GlobalCidrInfo hwf' with
    ⟨h1, h2⟩ | ⟨k, hk, h1, h2⟩
  · rw [h1] at hA
    refine ⟨?_, fun h => absurd h h2, fun _ => hA⟩
    constructor
    · rintro ⟨e, he⟩
      rw [hA] at he
      cases he
    · intro h
      exact absurd h h2
  · rw [h1] at hA
    exact ⟨⟨fun _ => h2, fun _ => ⟨_, hA⟩⟩, fun _ => ⟨k, hk, hA⟩, fun h => absurd h2 h⟩

theorem explicit_cidr_checked_against_other_clusters_witness :
    (∀ t ∈ ledger (infoOf (CidrText.v4 (ip4 10 0 0 0) 8) 256 [CidrText.v4 (ip4 10 0 5 128) 25]),
      (blockOf t).isSome = true) ∧
    ParseCIDR (requestOf "cluster-b" (CidrText.v4 (ip4 10 0 5 0) 24) 0).GlobalnetCIDR
      = some (ip4 10 0 5 0, { IP := ip4 10 0 5 0, ones := 24 }) ∧
    AssignGlobalnetIPs 8
        (infoOf (CidrText.v4 (ip4 10 0 0 0) 8) 256 [CidrText.v4 (ip4 10 0 5 128) 25])
        (requestOf "cluster-b" (CidrText.v4 (ip4 10 0 5 0) 24) 0)
      = some (.error (.overlapsWithCluster (CidrText.v4 (ip4 10 0 5 0) 24) "cluster-a")) ∧
    OverlapsOtherCluster
      (infoOf (CidrText.v4 (ip4 10 0 0 0) 8) 256 [CidrText.v4 (ip4 10 0 5 128) 25]).GlobalCidrInfo
      "cluster-b" { IP := ip4 10 0 5 0, ones := 24 } :=
  ⟨by decide, by decide, by decide,
    (explicit_cidr_checked_against_other_clusters 8
      (infoOf (CidrText.v4 (ip4 10 0 0 0) 8) 256 [CidrText.v4 (ip4 10 0 5 128) 25])
      (requestOf "cluster-b" (CidrText.v4 (ip4 10 0 5 0) 24) 0) (ip4 10 0 5 0)
      { IP := ip4 10 0 5 0, ones := 24 } (by decide) (by decide) (by decide)).1.mp
      ⟨Error.overlapsWithCluster (CidrText.v4 (ip4 10 0 5 0) 24) "cluster-a", by decide⟩⟩

/-- C9, counterexample. Globalnet enabled on `10.0.0.0/8` with cluster size 256; the request
carries the explicit CIDR `10.0.5.0/24` and the cluster size `2 ^ 24`. Both are supplied,
yet the call fails with the invalid-cluster-size error, not with the conflict error. -/
theorem size_check_precedes_conflict_check :
    (requestOf "cluster-b" (CidrText.v4 (ip4 10 0 5 0) 24) (2 ^ 24)).GlobalnetCIDR
      ≠ CidrText.empty ∧
    (requestOf "cluster-b" (CidrText.v4 (ip4 10 0 5 0) 24) (2 ^ 24)).GlobalnetClusterSize ≠ 0 ∧
    (ValidateGlobalnetConfiguration (infoOf (CidrText.v4 (ip4 10 0 0 0) 8) 256 [])
        (requestOf "cluster-b" (CidrText.v4 (ip4 10 0 5 0) 24) (2 ^ 24))).1
      = .error (.invalidClusterSize (.clusterSizeTooLarge (2 ^ 24) (2 ^ 23))) ∧
    (ValidateGlobalnetConfiguration (infoOf (CidrText.v4 (ip4 10 0 0 0) 8) 256 [])
        (requestOf "cluster-b" (CidrText.v4 (ip4 10 0 5 0) 24) (2 ^ 24))).1
      ≠ .error .bothSpecified := by
  decide

/-- C9, amended. A request that supplies both an explicit CIDR and a non-zero cluster size
always fails. The error is the conflict error whenever the size check of the first block
is skipped (Globalnet disabled, or the size equals the configured one) or passes
(`GetValidClusterSize` returns a non-zero size); when Globalnet is enabled, the size is new
and `GetValidClusterSize` rejects it or returns zero, the error is the invalid-cluster-size
error, which is decided first. -/
theorem conflicting_request_rejected (info : GlobalnetInfo) (netconfig : Config)
    (h1 : netconfig.GlobalnetCIDR ≠ CidrText.empty) (h2 : netconfig.GlobalnetClusterSize ≠ 0) :
    ((info.GlobalnetEnabled = false ∨
        netconfig.GlobalnetClusterSize = info.GlobalnetClusterSize ∨
        ∃ s, s ≠ 0 ∧
          GetValidClusterSize info.GlobalnetCidrRange netconfig.GlobalnetClusterSize = .ok s) →
      (ValidateGlobalnetConfiguration info netconfig).1 = .error .bothSpecified) ∧
    ((info.GlobalnetEnabled = true ∧
        netconfig.GlobalnetClusterSize ≠ info.GlobalnetClusterSize ∧
        ∀ s, GetValidClusterSize info.GlobalnetCidrRange netconfig.GlobalnetClusterSize = .ok s →
          s = 0) →
      (ValidateGlobalnetConfiguration info netconfig).1 = .error .invalidClusterSizeNil ∨
      ∃ err, (ValidateGlobalnetConfiguration info netconfig).1
        = .error (.invalidClusterSize err)) := by
  constructor
  · intro h
    have hv : ∃ info1, validateClusterSize info netconfig = .ok info1 := by
      unfold validateClusterSize
      by_cases hc : info.GlobalnetEnabled = true ∧ netconfig.GlobalnetClusterSize ≠ 0 ∧
          netconfig.GlobalnetClusterSize ≠ info.GlobalnetClusterSize
      · rw [if_pos hc]
        rcases h with h | h | ⟨s, hs, hg⟩
        · rw [h] at hc
          exact absurd hc.1 (by decide)
        · exact absurd h hc.2.2
        · rw [hg]
          simp only [if_neg hs]
          exact ⟨_, rfl⟩
      · rw [if_neg hc]
        exact ⟨_, rfl⟩
    obtain ⟨info1, hv⟩ := hv
    unfold ValidateGlobalnetConfiguration
    simp only [hv]
    rw [if_pos ⟨h1, h2⟩]
  · rintro ⟨he, hne, hs⟩
    have hc : info.GlobalnetEnabled = true ∧ netconfig.GlobalnetClusterSize ≠ 0 ∧
        netconfig.GlobalnetClusterSize ≠ info.GlobalnetClusterSize := ⟨he, h2, hne⟩
    unfold ValidateGlobalnetConfiguration validateClusterSize
    simp only [if_pos hc]
    cases hg : GetValidClusterSize info.GlobalnetCidrRange netconfig.GlobalnetClusterSize with
    | error err =>
      right
      exact ⟨err, rfl⟩
    | ok s =>
      left
      have := hs s hg
      subst this
      rfl

theorem conflicting_request_rejected_witness :
    (requestOf "cluster-b" (CidrText.v4 (ip4 10 0 5 0) 24) 512).GlobalnetCIDR
      ≠ CidrText.empty ∧
    (requestOf "cluster-b" (CidrText.v4 (ip4 10 0 5 0) 24) 512).GlobalnetClusterSize ≠ 0 ∧
    (ValidateGlobalnetConfiguration (infoOf (CidrText.v4 (ip4 10 0 0 0) 8) 256 [])
        (requestOf "cluster-b" (CidrText.v4 (ip4 10 0 5 0) 24) 512)).1
      = .error .bothSpecified :=
  ⟨by decide, by decide,
    (conflicting_request_rejected (infoOf (CidrText.v4 (ip4 10 0 0 0) 8) 256 [])
      (requestOf "cluster-b" (CidrText.v4 (ip4 10 0 5 0) 24) 512) (by decide) (by decide)).1
      (Or.inr (Or.inr ⟨512, by decide, by decide⟩))⟩

/-- C10, counterexample. With Globalnet disabled, a request that carries both an explicit
CIDR and a cluster size fails with the conflict error, and a request whose explicit CIDR
does not parse fails with the invalid-CIDR error: the request is not ignored. -/
theorem disabled_feature_still_validates :
    (ValidateGlobalnetConfiguration
        (GlobalnetInfo.mk false (CidrText.v4 (ip4 10 0 0 0) 8) 256 [])
        (requestOf "cluster-b" (CidrText.v4 (ip4 10 0 5 0) 24) 256)).1
      = .error .bothSpecified ∧
    (ValidateGlobalnetConfiguration
        (GlobalnetInfo.mk false (CidrText.v4 (ip4 10 0 0 0) 8) 256 [])
        (requestOf "cluster-b" (CidrText.raw "10.0.5.0") 0)).1
      = .error (.invalidGlobalnetCidr (.parseError (CidrText.raw "10.0.5.0"))) := by
  decide

/-- C10, amended. With Globalnet disabled, a request that does not supply both an explicit
CIDR and a non-zero cluster size, and whose explicit CIDR (if there is one) is well
formed, is ignored: `ValidateGlobalnetConfiguration` returns the empty text and no error. -/
theorem disabled_feature_ignores_request (info : GlobalnetInfo) (netconfig : Config)
    (hoff : info.GlobalnetEnabled = false)
    (hone : netconfig.GlobalnetCIDR = CidrText.empty ∨ netconfig.GlobalnetClusterSize = 0)
    (hwf : netconfig.GlobalnetCIDR = CidrText.empty ∨
      (ParseCIDR netconfig.GlobalnetCIDR).isSome = true) :
    (ValidateGlobalnetConfiguration info netconfig).1 = .ok CidrText.empty := by
  have hv : validateClusterSize info netconfig = .ok info := by
    unfold validateClusterSize
    rw [if_neg]
    rw [hoff]
    rintro ⟨h, _⟩
    cases h
  have hboth : ¬ (netconfig.GlobalnetCIDR ≠ CidrText.empty ∧
      netconfig.GlobalnetClusterSize ≠ 0) := by
    rintro ⟨ha, hb⟩
    rcases hone with h | h
    · exact ha h
    · exact hb h
  have hparse : ¬ (netconfig.GlobalnetCIDR ≠ CidrText.empty ∧
      (ParseCIDR netconfig.GlobalnetCIDR).isNone = true) := by
    rintro ⟨ha, hb⟩
    rcases hwf with h | h
    · exact ha h
    · rw [Option.isNone_iff_eq_none] at hb
      rw [hb] at h
      cases h
  unfold ValidateGlobalnetConfiguration
  simp only [hv, if_neg hboth, if_neg hparse, hoff]
  by_cases hem : netconfig.GlobalnetCIDR = CidrText.empty
  · by_cases hz : netconfig.GlobalnetClusterSize = 0
    · simp [hem, hz]
    · simp [hem, hz]
  · simp [hem]

theorem disabled_feature_ignores_request_witness :
    (GlobalnetInfo.mk false (CidrText.v4 (ip4 10 0 0 0) 8) 256 []).GlobalnetEnabled = false ∧
    ((requestOf "cluster-b" (CidrText.v4 (ip4 10 0 5 0) 24) 0).GlobalnetCIDR = CidrText.empty ∨
      (requestOf "cluster-b" (CidrText.v4 (ip4 10 0 5 0) 24) 0).GlobalnetClusterSize = 0) ∧
    (ParseCIDR (requestOf "cluster-b" (CidrText.v4 (ip4 10 0 5 0) 24) 0).GlobalnetCIDR).isSome
      = true ∧
    (ValidateGlobalnetConfiguration
        (GlobalnetInfo.mk false (CidrText.v4 (ip4 10 0 0 0) 8) 256 [])
        (requestOf "cluster-b" (CidrText.v4 (ip4 10 0 5 0) 24) 0)).1
      = .ok CidrText.empty :=
  ⟨rfl, Or.inr rfl, by decide,
    disabled_feature_ignores_request
      (GlobalnetInfo.mk false (CidrText.v4 (ip4 10 0 0 0) 8) 256 [])
      (requestOf "cluster-b" (CidrText.v4 (ip4 10 0 5 0) 24) 0) rfl (Or.inr rfl)
      (Or.inr (by decide))⟩

/-! ## Loading always succeeds on a well-formed ledger; more fuel changes nothing -/

theorem appendClusters_of_all (l : List CidrText) (g : GlobalCIDR)
    (h : ∀ t ∈ l, (entryOf t).isSome = true) :
    appendClusters g l =
      .ok { g with allocatedClusters := g.allocatedClusters ++ l.filterMap entryOf,
                   allocatedCount := g.allocatedCount + l.length } := by
  induction l generalizing g with
  | nil => simp [appendClusters]
  | cons t rest ih =>
    have ht := h t (List.mem_cons_self _ _)
    cases he : entryOf t with
    | none => simp [he] at ht
    | some c =>
      have hn : NewCIDR t = .ok c := by
        unfold entryOf at he
        split at he
        · rename_i c' hc'
          cases he
          exact hc'
        · cases he
      unfold appendClusters
      simp only [hn]
      rw [ih _ (fun u hu => h u (List.mem_cons_of_mem _ hu))]
      simp [List.filterMap_cons, he, Nat.add_assoc, Nat.add_comm 1]

theorem loadClusters_of_all (l : List (String × GlobalNetwork)) (g : GlobalCIDR)
    (h : ∀ t ∈ (l.map (fun p => p.2.GlobalCIDRs)).flatten, (entryOf t).isSome = true) :
    loadClusters g l =
      .ok { g with
            allocatedClusters :=
              g.allocatedClusters ++ ((l.map (fun p => p.2.GlobalCIDRs)).flatten).filterMap entryOf,
            allocatedCount :=
              g.allocatedCount + ((l.map (fun p => p.2.GlobalCIDRs)).flatten).length } := by
  induction l generalizing g with
  | nil => simp [loadClusters]
  | cons p rest ih =>
    obtain ⟨k, gn⟩ := p
    have h1 : ∀ t ∈ gn.GlobalCIDRs, (entryOf t).isSome = true := by
      intro t ht
      apply h
      simp only [List.map_cons, List.flatten_cons, List.mem_append]
      exact Or.inl ht
    have h2 : ∀ t ∈ (rest.map (fun p => p.2.GlobalCIDRs)).flatten, (entryOf t).isSome = true := by
      intro t ht
      apply h
      simp only [List.map_cons, List.flatten_cons, List.mem_append]
      exact Or.inr ht
    unfold loadClusters
    simp only [appendClusters_of_all _ _ h1]
    rw [ih _ h2]
    simp [List.filterMap_append, Nat.add_assoc]

theorem entryOf_isSome {t : CidrText} (h : (blockOf t).isSome = true) :
    (entryOf t).isSome = true := by
  cases hb : blockOf t with
  | none => simp [hb] at h
  | some n => simp [entryOf_of_blockOf hb]

/-- With a base range and a ledger that parse, `AllocateGlobalCIDR` is
`allocateByClusterSize` on the loaded package variable. -/
theorem AllocateGlobalCIDR_eq {info : GlobalnetInfo} {bip : Nat} {base : IPNet} (fuel : Nat)
    (hp : ParseCIDR info.GlobalnetCidrRange = some (bip, base))
    (hall : ∀ t ∈ ledger info, (blockOf t).isSome = true) :
    AllocateGlobalCIDR fuel info =
      allocateByClusterSize fuel (loaded base info) info.GlobalnetClusterSize := by
  unfold AllocateGlobalCIDR
  simp only [hp]
  rw [loadClusters_of_all _ _ (fun t ht => entryOf_isSome (hall t ht))]
  simp [loaded, ledger]

theorem probe_mono {g : GlobalCIDR} {P : Int} {r : Except Error CidrText} :
    ∀ (fuel last k : Nat), probe g P fuel last = some r → probe g P (fuel + k) last = some r := by
  intro fuel
  induction fuel with
  | zero => intro last k h; simp [probe] at h
  | succ n ih =>
    intro last k h
    rw [Nat.succ_add]
    unfold probe at h ⊢
    simp only at h ⊢
    split
    · rename_i heq
      rw [heq] at h
      exact h
    · rename_i last1 e g1 heq
      rw [heq] at h
      simp only at h
      by_cases h0 : last1 = 0
      · simpa [h0] using h
      · simp only [h0, if_false] at h ⊢
        exact ih last1 k h

theorem allocateByClusterSize_mono {g : GlobalCIDR} {n fuel : Nat} {r : Except Error CidrText}
    (k : Nat) (h : allocateByClusterSize fuel g n = some r) :
    allocateByClusterSize (fuel + k) g n = some r := by
  unfold allocateByClusterSize at h ⊢
  simp only at h ⊢
  split
  · rename_i heq
    rw [heq] at h
    exact h
  · rename_i last1 e g1 heq
    rw [heq] at h
    simp only at h
    by_cases h0 : last1 = 0
    · simpa [h0] using h
    · simp only [h0, if_false] at h ⊢
      exact probe_mono fuel last1 k h

/-- More fuel does not change a result. -/
theorem AllocateGlobalCIDR_mono {info : GlobalnetInfo} {fuel : Nat} {r : Except Error CidrText}
    (k : Nat) (h : AllocateGlobalCIDR fuel info = some r) :
    AllocateGlobalCIDR (fuel + k) info = some r := by
  unfold AllocateGlobalCIDR at h ⊢
  split
  · rename_i heq
    rw [heq] at h
    exact h
  · rename_i bip base heq
    rw [heq] at h
    simp only at h ⊢
    split
    · rename_i e hl
      rw [hl] at h
      exact h
    · rename_i g1 hl
      rw [hl] at h
      exact allocateByClusterSize_mono k h

/-! ## The full base range is allocated -/

/-- C6, counterexample. Base range `10.0.0.0/24`, ledger `10.0.0.0/24`, requested size 512:
the first attempt `10.0.0.0/23` is not a subnet of the base range and its error is
returned as it is; the error is not "allocation not available". -/
theorem full_range_size_512_not_exhausted :
    AllocateGlobalCIDR 8
        (infoOf (CidrText.v4 (ip4 10 0 0 0) 24) 512 [CidrText.v4 (ip4 10 0 0 0) 24])
      = some (.error (.notValidSubnet (CidrText.v4 (ip4 10 0 0 0) 23)
          { IP := ip4 10 0 0 0, ones := 24 })) ∧
    AllocateGlobalCIDR 8
        (infoOf (CidrText.v4 (ip4 10 0 0 0) 24) 512 [CidrText.v4 (ip4 10 0 0 0) 24])
      ≠ some (.error .allocationNotAvailable) := by
  decide

theorem wrapped_pred_lt_iff {n : Nat} (hn : n < 2 ^ 64) :
    (n + 2 ^ 64 - 1) % 2 ^ 64 < 2 ^ 8 ↔ 1 ≤ n ∧ n ≤ 256 := by
  by_cases h0 : n = 0
  · subst h0
    decide
  · have e : (n + 2 ^ 64 - 1) % 2 ^ 64 = n - 1 := by
      have : n + 2 ^ 64 - 1 = (n - 1) + 2 ^ 64 := by omega
      rw [this, Nat.add_mod_right]
      exact Nat.mod_eq_of_lt (by omega)
    rw [e]
    omega

/-- The body of `allocateByClusterSize` with the prefix length written out. -/
theorem allocateByClusterSize_eq (fuel : Nat) (g : GlobalCIDR) (n : Nat) :
    allocateByClusterSize fuel g n =
      match allocateByCidr g
          (CidrText.v4 g.net.IP ((32 : Int) - (bitsLen ((n + 2 ^ 64 - 1) % 2 ^ 64) : Int))) with
      | ((_, none), _) =>
        some (.ok (CidrText.v4 g.net.IP
          ((32 : Int) - (bitsLen ((n + 2 ^ 64 - 1) % 2 ^ 64) : Int))))
      | ((last, some err), _) =>
        if last = 0 then some (.error err)
        else probe g ((32 : Int) - (bitsLen ((n + 2 ^ 64 - 1) % 2 ^ 64) : Int)) fuel last := by
  unfold allocateByClusterSize
  rw [clusterPrefixOf_eq]

/-- C6, amended. For base range `10.0.0.0/24` whose ledger is `10.0.0.0/24` itself,
`AllocateGlobalCIDR` fails for every requested size: with "allocation not available" for
the sizes `1..256`, and with the not-a-valid-subnet error of the first attempt for size `0`
and for every size above 256. -/
theorem full_range_allocated_fails (info : GlobalnetInfo) (fuel : Nat)
    (hbase : info.GlobalnetCidrRange = CidrText.v4 (ip4 10 0 0 0) 24)
    (hledger : ledger info = [CidrText.v4 (ip4 10 0 0 0) 24])
    (hn : info.GlobalnetClusterSize < 2 ^ 64) (hfuel : 1 ≤ fuel) :
    AllocateGlobalCIDR fuel info = some (.error
      (if 1 ≤ info.GlobalnetClusterSize ∧ info.GlobalnetClusterSize ≤ 256 then
        .allocationNotAvailable
      else .notValidSubnet
        (CidrText.v4 (ip4 10 0 0 0) (clusterPrefixOf info.GlobalnetClusterSize))
        { IP := ip4 10 0 0 0, ones := 24 })) := by
  have hp : ParseCIDR info.GlobalnetCidrRange
      = some (ip4 10 0 0 0, { IP := ip4 10 0 0 0, ones := 24 }) := by
    rw [hbase]
    decide
  have hall : ∀ t ∈ ledger info, (blockOf t).isSome = true := by
    rw [hledger]
    decide
  have hg : loaded { IP := ip4 10 0 0 0, ones := 24 } info =
      { cidr := CidrText.v4 (ip4 10 0 0 0) 24, net := { IP := ip4 10 0 0 0, ones := 24 },
        allocatedClusters :=
          [{ network := { IP := ip4 10 0 0 0, ones := 24 }, size := 8,
             lastIP := ip4 10 0 0 255 }],
        allocatedCount := 1 } := by
    unfold loaded
    rw [hbase, hledger]
    rfl
  obtain ⟨f, rfl⟩ : ∃ f, fuel = f + 1 := ⟨fuel - 1, by omega⟩
  rw [AllocateGlobalCIDR_eq _ hp hall, hg]
  have hb64 := bitsLen_le_64 ((info.GlobalnetClusterSize + 2 ^ 64 - 1) % 2 ^ 64)
    (Nat.mod_lt _ (by decide))
  have hiff := bitsLen_le_iff ((info.GlobalnetClusterSize + 2 ^ 64 - 1) % 2 ^ 64) 8
    (Nat.mod_lt _ (by decide))
  rw [wrapped_pred_lt_iff hn] at hiff
  rw [allocateByClusterSize_eq, clusterPrefixOf_eq]
  generalize bitsLen ((info.GlobalnetClusterSize + 2 ^ 64 - 1) % 2 ^ 64) = b at hb64 hiff
  by_cases hr : 1 ≤ info.GlobalnetClusterSize ∧ info.GlobalnetClusterSize ≤ 256
  · rw [if_pos hr]
    have hb8 : b ≤ 8 := hiff.mpr hr
    interval_cases b <;> rfl
  · rw [if_neg hr]
    have hb8 : 9 ≤ b := by
      by_contra hcon
      exact hr (hiff.mp (by omega))
    interval_cases b <;> rfl

theorem full_range_allocated_fails_witness :
    (infoOf (CidrText.v4 (ip4 10 0 0 0) 24) 256
        [CidrText.v4 (ip4 10 0 0 0) 24]).GlobalnetCidrRange = CidrText.v4 (ip4 10 0 0 0) 24 ∧
    ledger (infoOf (CidrText.v4 (ip4 10 0 0 0) 24) 256 [CidrText.v4 (ip4 10 0 0 0) 24])
      = [CidrText.v4 (ip4 10 0 0 0) 24] ∧
    AllocateGlobalCIDR 1
        (infoOf (CidrText.v4 (ip4 10 0 0 0) 24) 256 [CidrText.v4 (ip4 10 0 0 0) 24])
      = some (.error (if 1 ≤ 256 ∧ 256 ≤ 256 then .allocationNotAvailable
          else .notValidSubnet (CidrText.v4 (ip4 10 0 0 0) (clusterPrefixOf 256))
            { IP := ip4 10 0 0 0, ones := 24 })) :=
  ⟨rfl, rfl,
    full_range_allocated_fails
      (infoOf (CidrText.v4 (ip4 10 0 0 0) 24) 256 [CidrText.v4 (ip4 10 0 0 0) 24]) 1
      rfl rfl (by decide) (by decide)⟩

/-! ## The last address `0` is taken for "no address to resume from" -/

/-- C4, failing input. Base range `0.0.0.0/8`, ledger `0.0.0.0/32`, requested size 1. The
block `0.0.0.1/32` is aligned, lies in the base range and shares no address with the ledger
entry, yet the allocation fails for every amount of fuel: the first attempt `0.0.0.0/32` is
inside the entry `0.0.0.0/32`, whose last address is `0`, and `allocateByClusterSize` reads
the returned `0` as "no address to resume from". The same happens when the base range is
written `0.0.0.1/8`, which denotes the same network. -/
theorem zero_last_address_ends_allocation :
    blockOf (infoOf (CidrText.v4 0 8) 1 [CidrText.v4 0 32]).GlobalnetCidrRange
      = some { IP := 0, ones := 8 } ∧
    AvailableSlot { IP := 0, ones := 8 } (infoOf (CidrText.v4 0 8) 1 [CidrText.v4 0 32])
      { IP := 1, ones := 32 } ∧
    (∀ fuel, AllocateGlobalCIDR fuel (infoOf (CidrText.v4 0 8) 1 [CidrText.v4 0 32])
      = some (.error (.subsetOfAllocated (CidrText.v4 0 32) { IP := 0, ones := 32 }))) ∧
    (∀ fuel, AllocateGlobalCIDR fuel (infoOf (CidrText.v4 1 8) 1 [CidrText.v4 0 32])
      = some (.error (.subsetOfAllocated (CidrText.v4 0 32) { IP := 0, ones := 32 }))) := by
  refine ⟨by decide, ⟨⟨by decide, by decide, by decide⟩, by decide, by decide, ?_⟩,
    fun fuel => rfl, fun fuel => rfl⟩
  intro t ht E hE
  have ht' : t = CidrText.v4 0 32 := by simpa [ledger, infoOf] using ht
  subst ht'
  have hE' : E = { IP := 0, ones := 32 } := by
    have : blockOf (CidrText.v4 0 32) = some { IP := 0, ones := 32 } := by decide
    rw [this] at hE
    cases hE
    rfl
  subst hE'
  rintro ⟨x, hx, h1, h2⟩
  rw [Contains_iff_div _ x (by decide) hx] at h1 h2
  simp only [Nat.sub_self, Nat.pow_zero, Nat.div_one] at h1 h2
  omega

/-- C5, failing input. Base range `0.0.0.0/24`, size `s = 1`, `k = 1`: the ledger is the
first block `0.0.0.0/32` of the range and two blocks fit, so the second block
`0.0.0.1/32` is expected; the allocation returns an error for every amount of fuel. The
same happens when the base range is written `0.0.0.1/24`. -/
theorem second_block_of_zero_range_not_returned :
    ∀ fuel,
      AllocateGlobalCIDR fuel (infoOf (CidrText.v4 0 24) 1 [CidrText.v4 (0 + 0 * 1) 32])
        ≠ some (.ok (CidrText.v4 (0 + 1 * 1) 32)) ∧
      AllocateGlobalCIDR fuel (infoOf (CidrText.v4 0 24) 1 [CidrText.v4 (0 + 0 * 1) 32])
        = some (.error (.subsetOfAllocated (CidrText.v4 0 32) { IP := 0, ones := 32 })) ∧
      AllocateGlobalCIDR fuel (infoOf (CidrText.v4 1 24) 1 [CidrText.v4 (0 + 0 * 1) 32])
        = some (.error (.subsetOfAllocated (CidrText.v4 0 32) { IP := 0, ones := 32 })) := by
  intro fuel
  have h : AllocateGlobalCIDR fuel (infoOf (CidrText.v4 0 24) 1 [CidrText.v4 (0 + 0 * 1) 32])
      = some (.error (.subsetOfAllocated (CidrText.v4 0 32) { IP := 0, ones := 32 })) := rfl
  refine ⟨?_, h, rfl⟩
  rw [h]
  decide

/-- The scenarios of the specification: base range `10.0.0.0/8` and size 256 give
`10.0.0.0/24` on an empty ledger and `10.0.1.0/24` after `10.0.0.0/24`. -/
theorem scenario_first_and_second_block :
    AllocateGlobalCIDR 1 (infoOf (CidrText.v4 (ip4 10 0 0 0) 8) 256 [])
      = some (.ok (CidrText.v4 (ip4 10 0 0 0) 24)) ∧
    AllocateGlobalCIDR 1 (infoOf (CidrText.v4 (ip4 10 0 0 0) 8) 256
        [CidrText.v4 (ip4 10 0 0 0) 24])
      = some (.ok (CidrText.v4 (ip4 10 0 1 0) 24)) := by
  decide

/-! ## Away from the last address `0`: an available slot is found -/

theorem pow_sub_eq_zero_of_last {ip k : Nat} (h : ip + 2 ^ k - 1 = 0) : ip = 0 ∧ k = 0 := by
  have hpos : 0 < 2 ^ k := Nat.two_pow_pos k
  refine ⟨by omega, ?_⟩
  by_contra hk
  have : 1 < 2 ^ k := Nat.one_lt_two_pow hk
  omega

/-- A candidate that lies between the first address of the base range and an available slot
passes the two range checks; if the attempt fails, the address it returns is not zero, is
at least the candidate and is below the slot. -/
theorem attempt_progress {g : GlobalCIDR} {P : Int} {F : IPNet} {a : Nat}
    (hgood : GoodEntries g) (hg : g.net.WF)
    (hzero : g.net.IP ≠ 0 ∨
      ∀ c ∈ g.allocatedClusters.take g.allocatedCount, c.network ≠ { IP := 0, ones := 32 })
    (hF1 : (F.ones : Int) = P) (hF2 : F.WF) (hle : g.net.ones ≤ F.ones)
    (hF3 : ∀ c ∈ g.allocatedClusters.take g.allocatedCount, ¬ Overlap F c.network)
    (hF4 : g.net.Contains F.IP = true) (ha1 : g.net.IP ≤ a) (ha2 : a ≤ F.IP) :
    (allocateByCidr g (.v4 a P)).1.2 = none ∨
      ∃ last e g1, allocateByCidr g (.v4 a P) = ((last, some e), g1) ∧
        a ≤ last ∧ last < F.IP ∧ last ≠ 0 := by
  have hP0 : 0 ≤ P := by omega
  have hP1 : P ≤ 32 := by have := hF2.1; omega
  have ha : a < 2 ^ 32 := Nat.lt_of_le_of_lt ha2 hF2.2.1
  have hparse : ParseCIDR (.v4 a P) =
      some (a, { IP := a &&& CIDRMask P.toNat, ones := P.toNat }) := by
    simp only [ParseCIDR]
    rw [if_pos ⟨ha, hP0, hP1⟩]
  obtain ⟨hnet, hna⟩ := ParseCIDR_WF hparse
  generalize hnetdef : ({ IP := a &&& CIDRMask P.toNat, ones := P.toNat } : IPNet) = net
    at hparse hnet hna
  have hones : net.ones = F.ones := by
    rw [← hnetdef]
    show P.toNat = F.ones
    omega
  have hbase_a : g.net.Contains a = true := by
    have h4 := (Contains_iff_range g.net F.IP hg hF2.2.1).mp hF4
    rw [Contains_iff_range g.net a hg ha]
    omega
  have hlast := LastIP_eq hnet
  have hpos : 0 < 2 ^ (32 - net.ones) := Nat.two_pow_pos _
  have hu : uintToIP (LastIP net) = LastIP net := by
    unfold uintToIP
    exact Nat.mod_eq_of_lt (by omega)
  have hbase_last : g.net.Contains (uintToIP (LastIP net)) = true := by
    rw [hu, hlast.1]
    exact Contains_of_nested hg.2.1 hnet.2.1 (by omega) ha (by omega) hbase_a hna
      (Contains_last hnet)
  have hin := (Contains_iff_range net a hnet ha).mp hna
  rw [allocateByCidr_parsed hparse, if_pos ⟨hbase_a, hbase_last⟩]
  cases hs : scanAllocated (.v4 a P) a net
      { network := net, size := 32 - net.ones, lastIP := LastIP net }
      (g.allocatedClusters.take g.allocatedCount) with
  | none => left; rfl
  | some r =>
    obtain ⟨last, e⟩ := r
    right
    refine ⟨last, e, g, rfl, ?_⟩
    obtain ⟨c, hc, hcase⟩ := scanAllocated_some hs
    have hcw := (hgood c hc).1
    have hcl := (hgood c hc).2
    have hlt : last < F.IP :=
      skip_no_slot hnet ha hna hcw hcl hcase hones.symm hF2 (hF3 c hc) ha2
    rcases hcase with ⟨h1, h2⟩ | ⟨h0, h1, h2⟩
    · have hr := (Contains_iff_range c.network a hcw ha).mp h1
      rw [hcl, (LastIP_eq hcw).1] at h2
      have hale : a ≤ last := by omega
      refine ⟨hale, hlt, ?_⟩
      intro h0
      rw [h0] at h2
      obtain ⟨hip, hk⟩ := pow_sub_eq_zero_of_last h2.symm
      have hc32 : c.network.ones = 32 := by have := hcw.1; omega
      have hcnet : c.network = { IP := 0, ones := 32 } := by
        cases hcn : c.network
        rw [hcn] at hip hc32
        simp only at hip hc32
        simp [hip, hc32]
      rcases hzero with hz | hz
      · omega
      · exact hz c hc hcnet
    · simp only at h2
      rw [hlast.1] at h2
      have hale : a ≤ last := by omega
      refine ⟨hale, hlt, ?_⟩
      intro hl0
      rw [hl0] at h2
      obtain ⟨hip, hk⟩ := pow_sub_eq_zero_of_last h2.symm
      have hr := (Contains_iff_range net c.network.IP hnet hcw.2.1).mp h1
      rw [hip, hk] at hr
      have hc0 : c.network.IP = 0 := by omega
      have ha0 : a = 0 := by omega
      have := Contains_self hcw
      rw [hc0, ← ha0, h0] at this
      cases this

theorem probe_succeeds {g : GlobalCIDR} {P : Int} {F : IPNet}
    (hgood : GoodEntries g) (hg : g.net.WF)
    (hzero : g.net.IP ≠ 0 ∨
      ∀ c ∈ g.allocatedClusters.take g.allocatedCount, c.network ≠ { IP := 0, ones := 32 })
    (hF1 : (F.ones : Int) = P) (hF2 : F.WF) (hle : g.net.ones ≤ F.ones)
    (hF3 : ∀ c ∈ g.allocatedClusters.take g.allocatedCount, ¬ Overlap F c.network)
    (hF4 : g.net.Contains F.IP = true) :
    ∀ (fuel last : Nat), g.net.IP ≤ last + 1 → last + 1 ≤ F.IP → F.IP - (last + 1) < fuel →
      ∃ cidr, probe g P fuel last = some (.ok cidr) := by
  have hP0 : 0 ≤ P := by omega
  have hP1 : P ≤ 32 := by have := hF2.1; omega
  intro fuel
  induction fuel with
  | zero => intro last _ _ h; omega
  | succ n ih =>
    intro last h1 h2 h3
    have hlt : last + 1 < 2 ^ 32 := Nat.lt_of_le_of_lt h2 hF2.2.1
    have hcand : nextNetString last P = .v4 (last + 1) P := by
      unfold nextNetString uintToIP
      rw [if_pos ⟨hP0, hP1⟩, Nat.mod_mod_of_dvd _ (by decide), Nat.mod_eq_of_lt hlt]
    unfold probe
    simp only [hcand]
    rcases attempt_progress hgood hg hzero hF1 hF2 hle hF3 hF4 h1 h2 with
      hok | ⟨last1, e, g1, hfail, hl1, hl2, hl3⟩
    · split
      · exact ⟨_, rfl⟩
      · rename_i heq
        rw [heq] at hok
        cases hok
    · rw [hfail]
      simp only [if_neg hl3]
      exact ih last1 (by omega) (by omega) (by omega)

theorem allocateByClusterSize_succeeds {g : GlobalCIDR} {n : Nat} {F : IPNet}
    (hgood : GoodEntries g) (hg : g.net.WF)
    (hzero : g.net.IP ≠ 0 ∨
      ∀ c ∈ g.allocatedClusters.take g.allocatedCount, c.network ≠ { IP := 0, ones := 32 })
    (hF1 : (F.ones : Int) = clusterPrefixOf n) (hF2 : F.WF) (hle : g.net.ones ≤ F.ones)
    (hF3 : ∀ c ∈ g.allocatedClusters.take g.allocatedCount, ¬ Overlap F c.network)
    (hF4 : g.net.Contains F.IP = true) (fuel : Nat) (hfuel : 2 ^ 32 ≤ fuel) :
    ∃ cidr, allocateByClusterSize fuel g n = some (.ok cidr) := by
  have hbase := ((Contains_iff_range g.net F.IP hg hF2.2.1).mp hF4).1
  have hFlt := hF2.2.1
  unfold allocateByClusterSize
  simp only
  rcases attempt_progress hgood hg hzero hF1 hF2 hle hF3 hF4 (Nat.le_refl _) hbase with
    hok | ⟨last1, e, g1, hfail, hl1, hl2, hl3⟩
  · split
    · exact ⟨_, rfl⟩
    · rename_i heq
      rw [heq] at hok
      cases hok
  · rw [hfail]
    simp only [if_neg hl3]
    exact probe_succeeds hgood hg hzero hF1 hF2 hle hF3 hF4 fuel last1 (by omega) (by omega)
      (by omega)

/-- Where the sentinel value `0` cannot be met (the base range does not start at `0.0.0.0`,
or no ledger entry is `0.0.0.0/32`) the allocation fails only when no slot is available:
for a requested size `1 ≤ n ≤ capacity`, if an aligned block of the rounded size lies in the
base range and is disjoint from every ledger entry, `AllocateGlobalCIDR` returns a CIDR, the
same for every amount of fuel from `2 ^ 32` on. -/
theorem allocation_succeeds_when_slot_available (info : GlobalnetInfo) (bip : Nat)
    (base F : IPNet)
    (hbase : ParseCIDR info.GlobalnetCidrRange = some (bip, base))
    (hall : ∀ t ∈ ledger info, (blockOf t).isSome = true)
    (hzero : base.IP ≠ 0 ∨ ∀ t ∈ ledger info, blockOf t ≠ some { IP := 0, ones := 32 })
    (hn1 : 1 ≤ info.GlobalnetClusterSize)
    (hn2 : info.GlobalnetClusterSize ≤ 2 ^ (32 - base.ones))
    (hF1 : (F.ones : Int) = clusterPrefixOf info.GlobalnetClusterSize)
    (hF : AvailableSlot base info F) :
    ∃ cidr, ∀ fuel, 2 ^ 32 ≤ fuel → AllocateGlobalCIDR fuel info = some (.ok cidr) := by
  obtain ⟨hF2, hF4, _, hF5⟩ := hF
  have hbwf := (ParseCIDR_WF hbase).1
  have hge := clusterPrefixOf_ge (Nat.sub_le 32 base.ones) hn1 hn2
  have hle : base.ones ≤ F.ones := by have := hbwf.1; omega
  have hfree : ∀ c ∈ (loaded base info).allocatedClusters.take (loaded base info).allocatedCount,
      ¬ Overlap F c.network := by
    intro c hc
    rw [take_loaded] at hc
    obtain ⟨t, ht, hte⟩ := List.mem_filterMap.mp hc
    exact hF5 t ht c.network (entryOf_some hte).1
  have hzero' : (loaded base info).net.IP ≠ 0 ∨
      ∀ c ∈ (loaded base info).allocatedClusters.take (loaded base info).allocatedCount,
        c.network ≠ { IP := 0, ones := 32 } := by
    rcases hzero with hz | hz
    · exact Or.inl hz
    · right
      intro c hc hcn
      rw [take_loaded] at hc
      obtain ⟨t, ht, hte⟩ := List.mem_filterMap.mp hc
      apply hz t ht
      rw [(entryOf_some hte).1, hcn]
  obtain ⟨cidr, hc⟩ := allocateByClusterSize_succeeds (GoodEntries_loaded base info) hbwf hzero'
    hF1 hF2 hle hfree hF4 (2 ^ 32) (Nat.le_refl _)
  refine ⟨cidr, ?_⟩
  intro fuel hfuel
  obtain ⟨k, rfl⟩ : ∃ k, fuel = 2 ^ 32 + k := ⟨fuel - 2 ^ 32, by omega⟩
  apply AllocateGlobalCIDR_mono
  rw [AllocateGlobalCIDR_eq _ hbase hall]
  exact hc

/-! ## Away from the last address `0`: consecutive blocks -/

theorem clusterPrefixOf_two_pow {j : Nat} (hj : j ≤ 32) :
    clusterPrefixOf (2 ^ j) = ((32 - j : Nat) : Int) := by
  have hpos : 0 < 2 ^ j := Nat.two_pow_pos j
  have hle : 2 ^ j ≤ 2 ^ 32 := Nat.pow_le_pow_right (by decide) hj
  have e : (2 ^ j + 2 ^ 64 - 1) % 2 ^ 64 = 2 ^ j - 1 := by
    have : 2 ^ j + 2 ^ 64 - 1 = (2 ^ j - 1) + 2 ^ 64 := by omega
    rw [this, Nat.add_mod_right]
    exact Nat.mod_eq_of_lt (by omega)
  have h1 : bitsLen (2 ^ j - 1) ≤ j := (bitsLen_le_iff _ j (by omega)).mpr (by omega)
  have h2 : j ≤ bitsLen (2 ^ j - 1) := by
    cases j with
    | zero => exact Nat.zero_le _
    | succ m =>
      by_contra hcon
      have hlt : bitsLen (2 ^ (m + 1) - 1) ≤ m := by omega
      have h3 := (bitsLen_le_iff _ m (by omega)).mp hlt
      have h4 : 2 ^ (m + 1) = 2 * 2 ^ m := Nat.pow_succ'
      have h5 : 0 < 2 ^ m := Nat.two_pow_pos m
      omega
  rw [clusterPrefixOf_eq, e]
  omega

/-- The `i`-th block of `2 ^ j` addresses of a base range is a well-formed network that
parses from its text. -/
theorem nth_block {base : IPNet} (hb : base.WF) {j i : Nat} (hj : j ≤ 32 - base.ones)
    (hi : (i + 1) * 2 ^ j ≤ 2 ^ (32 - base.ones)) :
    IPNet.WF { IP := base.IP + i * 2 ^ j, ones := 32 - j } ∧
    ParseCIDR (.v4 (base.IP + i * 2 ^ j) ((32 - j : Nat) : Int)) =
      some (base.IP + i * 2 ^ j, { IP := base.IP + i * 2 ^ j, ones := 32 - j }) ∧
    base.IP + (i + 1) * 2 ^ j ≤ base.IP + 2 ^ (32 - base.ones) := by
  have hcap := (LastIP_eq hb).2
  have hpos : 0 < 2 ^ j := Nat.two_pow_pos j
  have hj32 : j ≤ 32 := by omega
  have hsub : 32 - (32 - j) = j := by omega
  have hdvd : 2 ^ j ∣ base.IP :=
    Nat.dvd_trans (Nat.pow_dvd_pow 2 hj) (Nat.dvd_of_mod_eq_zero hb.2.2)
  have hlt : base.IP + i * 2 ^ j < 2 ^ 32 := by
    rw [Nat.succ_mul] at hi
    omega
  have hal : (base.IP + i * 2 ^ j) % 2 ^ j = 0 := by
    obtain ⟨q, hq⟩ := hdvd
    rw [hq, Nat.mul_comm i, ← Nat.mul_add]
    exact Nat.mul_mod_right _ _
  have hwf : IPNet.WF { IP := base.IP + i * 2 ^ j, ones := 32 - j } := by
    refine ⟨by simp only; omega, hlt, ?_⟩
    simp only [hsub]
    exact hal
  refine ⟨hwf, ?_, by omega⟩
  simp only [ParseCIDR]
  rw [if_pos ⟨hlt, by omega, by omega⟩]
  simp only [Int.toNat_ofNat]
  rw [land_CIDRMask _ _ hlt, hsub, Nat.div_mul_cancel (Nat.dvd_of_mod_eq_zero hal)]

theorem block_mem_iff {base : IPNet} (hb : base.WF) {j i x : Nat} (hj : j ≤ 32 - base.ones)
    (hi : (i + 1) * 2 ^ j ≤ 2 ^ (32 - base.ones)) (hx : x < 2 ^ 32) :
    IPNet.Contains { IP := base.IP + i * 2 ^ j, ones := 32 - j } x = true ↔
      base.IP + i * 2 ^ j ≤ x ∧ x < base.IP + (i + 1) * 2 ^ j := by
  have hwf := (nth_block hb hj hi).1
  have hsub : 32 - (32 - j) = j := by omega
  rw [Contains_iff_range _ x hwf hx]
  simp only [hsub, Nat.succ_mul]
  omega

/-- Where the sentinel value `0` cannot be met (`first(R) ≠ 0.0.0.0`, or `s ≠ 1`, or
`k = 0`): for a base range `R`, a size `s = 2 ^ j ≤ capacity` and `k` such that `k + 1`
blocks of `s` addresses fit in `R`, when the ledger consists of exactly the first `k` blocks
of `R`, `AllocateGlobalCIDR` returns the `(k + 1)`-th block `first(R) + k * s` with prefix
length `32 - j`. -/
theorem next_block_is_allocated (info : GlobalnetInfo) (bip : Nat) (base : IPNet) (j k : Nat)
    (hbase : ParseCIDR info.GlobalnetCidrRange = some (bip, base))
    (hj : j ≤ 32 - base.ones)
    (hsize : info.GlobalnetClusterSize = 2 ^ j)
    (hfit : (k + 1) * 2 ^ j ≤ 2 ^ (32 - base.ones))
    (hledger : ∀ t, t ∈ ledger info ↔
      ∃ i, i < k ∧ t = CidrText.v4 (base.IP + i * 2 ^ j) ((32 - j : Nat) : Int))
    (hzero : base.IP ≠ 0 ∨ j ≠ 0 ∨ k = 0) :
    ∀ fuel, 2 ^ 32 ≤ fuel →
      AllocateGlobalCIDR fuel info =
        some (.ok (CidrText.v4 (base.IP + k * 2 ^ j) ((32 - j : Nat) : Int))) := by
  have hbwf := (ParseCIDR_WF hbase).1
  have hpos : 0 < 2 ^ j := Nat.two_pow_pos j
  have hj32 : j ≤ 32 := by omega
  have hfit_i : ∀ i, i < k → (i + 1) * 2 ^ j ≤ 2 ^ (32 - base.ones) := by
    intro i hi
    exact Nat.le_trans (Nat.mul_le_mul_right _ (by omega)) hfit
  have hentry : ∀ t ∈ ledger info, ∃ i, i < k ∧
      blockOf t = some { IP := base.IP + i * 2 ^ j, ones := 32 - j } := by
    intro t ht
    obtain ⟨i, hi, rfl⟩ := (hledger t).mp ht
    exact ⟨i, hi, by simp [blockOf, (nth_block hbwf hj (hfit_i i hi)).2.1]⟩
  have hall : ∀ t ∈ ledger info, (blockOf t).isSome = true := by
    intro t ht
    obtain ⟨i, _, hb⟩ := hentry t ht
    simp [hb]
  obtain ⟨hFwf, hFparse, hFend⟩ := nth_block hbwf hj hfit
  have hcap := (LastIP_eq hbwf).2
  have hsub : 32 - (32 - j) = j := by omega
  have hslot : AvailableSlot base info { IP := base.IP + k * 2 ^ j, ones := 32 - j } := by
    have hend : base.IP + k * 2 ^ j + 2 ^ j ≤ base.IP + 2 ^ (32 - base.ones) := by
      rw [Nat.add_mul, Nat.one_mul] at hFend
      omega
    refine ⟨hFwf, ?_, ?_, ?_⟩
    · show base.Contains (base.IP + k * 2 ^ j) = true
      rw [Contains_iff_range base _ hbwf (by omega)]
      constructor <;> omega
    · show base.Contains (base.IP + k * 2 ^ j + 2 ^ (32 - (32 - j)) - 1) = true
      rw [hsub, Contains_iff_range base _ hbwf (by omega)]
      constructor <;> omega
    · intro t ht E hE
      obtain ⟨i, hi, hb⟩ := hentry t ht
      rw [hb] at hE
      cases hE
      rintro ⟨x, hx, h1, h2⟩
      rw [block_mem_iff hbwf hj hfit hx] at h1
      rw [block_mem_iff hbwf hj (hfit_i i hi) hx] at h2
      have h3 : (i + 1) * 2 ^ j ≤ k * 2 ^ j := Nat.mul_le_mul_right _ (by omega)
      rw [Nat.add_mul, Nat.one_mul] at h1 h2 h3
      omega
  have hF1 : (((32 - j : Nat)) : Int) = clusterPrefixOf info.GlobalnetClusterSize := by
    rw [hsize, clusterPrefixOf_two_pow hj32]
  have hzero' : base.IP ≠ 0 ∨ ∀ t ∈ ledger info, blockOf t ≠ some { IP := 0, ones := 32 } := by
    rcases hzero with hz | hz | hz
    · exact Or.inl hz
    · right
      intro t ht h0
      obtain ⟨i, _, hb⟩ := hentry t ht
      rw [hb] at h0
      simp only [Option.some.injEq, IPNet.mk.injEq] at h0
      omega
    · right
      intro t ht
      obtain ⟨i, hi, _⟩ := hentry t ht
      omega
  have hn1 : 1 ≤ info.GlobalnetClusterSize := by rw [hsize]; exact hpos
  have hn2 : info.GlobalnetClusterSize ≤ 2 ^ (32 - base.ones) := by
    rw [hsize]
    exact Nat.pow_le_pow_right (by decide) hj
  obtain ⟨cidr, hc⟩ := allocation_succeeds_when_slot_available info bip base
    { IP := base.IP + k * 2 ^ j, ones := 32 - j } hbase hall hzero' hn1 hn2 hF1 hslot
  have hc0 := hc (2 ^ 32) (Nat.le_refl _)
  obtain ⟨bip1, base1, ip, net, hp1, hparse, hin, _, hchk⟩ := AllocateGlobalCIDR_checks hc0
  rw [hbase] at hp1
  cases hp1
  obtain ⟨bip2, base2, hp2, _, hs⟩ := AllocateGlobalCIDR_ok hc0
  rw [hbase] at hp2
  cases hp2
  have hones := allocateByClusterSize_text hs hparse
  have hfree : ∀ c ∈ (loaded base info).allocatedClusters.take (loaded base info).allocatedCount,
      ¬ Overlap { IP := base.IP + k * 2 ^ j, ones := 32 - j } c.network := by
    intro c hc'
    rw [take_loaded] at hc'
    obtain ⟨t, ht, hte⟩ := List.mem_filterMap.mp hc'
    exact hslot.2.2.2 t ht c.network (entryOf_some hte).1
  obtain ⟨ip', net', hparse', hle⟩ := allocateByClusterSize_lowest
    (GoodEntries_loaded base info) hbwf hF1 hFwf hfree hslot.2.1 hs
  rw [hparse] at hparse'
  cases hparse'
  have hip := (ParseCIDR_some hparse).2.1
  have hlow := ((Contains_iff_range base ip hbwf hip).mp hin).1
  have hipk : ip = base.IP + k * 2 ^ j := by
    by_contra hne
    have hle' : ip ≤ base.IP + k * 2 ^ j := hle
    have hlt : ip < base.IP + k * 2 ^ j := by omega
    have hi : (ip - base.IP) / 2 ^ j < k := by
      rw [Nat.div_lt_iff_lt_mul hpos]
      omega
    have hmem := (hledger _).mpr ⟨(ip - base.IP) / 2 ^ j, hi, rfl⟩
    obtain ⟨c, hce, hcc, _⟩ := hchk _ hmem
    have hblock := (nth_block hbwf hj (hfit_i _ hi)).2.1
    have hcn : c.network = { IP := base.IP + (ip - base.IP) / 2 ^ j * 2 ^ j, ones := 32 - j } := by
      have h1 := (entryOf_some hce).1
      simp only [blockOf, hblock, Option.map_some', Option.some.injEq] at h1
      exact h1.symm
    rw [hcn, ← Bool.not_eq_true, block_mem_iff hbwf hj (hfit_i _ hi) hip] at hcc
    apply hcc
    have h1 := Nat.div_mul_le_self (ip - base.IP) (2 ^ j)
    have h2 : ip - base.IP < (ip - base.IP) / 2 ^ j * 2 ^ j + 2 ^ j := Nat.lt_div_mul_add hpos
    rw [Nat.add_mul, Nat.one_mul]
    omega
  have htext := (ParseCIDR_some hparse).1
  intro fuel hfuel
  rw [hc fuel hfuel, htext, hipk, hones, ← hF1]

theorem next_block_is_allocated_witness :
    AllocateGlobalCIDR (2 ^ 32)
        (infoOf (CidrText.v4 (ip4 10 0 0 0) 8) 256 [CidrText.v4 (ip4 10 0 0 0) 24])
      = some (.ok (CidrText.v4 (ip4 10 0 0 0 + 1 * 2 ^ 8) ((32 - 8 : Nat) : Int))) :=
  next_block_is_allocated
    (infoOf (CidrText.v4 (ip4 10 0 0 0) 8) 256 [CidrText.v4 (ip4 10 0 0 0) 24])
    (ip4 10 0 0 0) { IP := ip4 10 0 0 0, ones := 8 } 8 1 (by decide) (by decide) rfl
    (by decide)
    (by
      intro t
      constructor
      · intro h
        have ht : t = CidrText.v4 (ip4 10 0 0 0) 24 := by simpa [ledger, infoOf] using h
        exact ⟨0, by decide, by rw [ht]; rfl⟩
      · rintro ⟨i, hi, rfl⟩
        have hi0 : i = 0 := by omega
        subst hi0
        simp [ledger, infoOf])
    (Or.inl (by decide)) (2 ^ 32) (Nat.le_refl _)

/-! ## Rounding up to a power of two -/

/-- One step `n |= n >> w` of the bit smear doubles the window of bits of `m` that each
bit of `n` collects. -/
theorem smear_step {m x w : Nat}
    (h : ∀ i, x.testBit i = true ↔ ∃ d, d < w ∧ m.testBit (i + d) = true) :
    ∀ i, (x ||| (x >>> w)).testBit i = true ↔ ∃ d, d < 2 * w ∧ m.testBit (i + d) = true := by
  intro i
  rw [Nat.testBit_or, Nat.testBit_shiftRight, Bool.or_eq_true, h i, h (w + i)]
  constructor
  · rintro (⟨d, hd, hm⟩ | ⟨d, hd, hm⟩)
    · exact ⟨d, by omega, hm⟩
    · refine ⟨w + d, by omega, ?_⟩
      rw [← hm]
      congr 1
      omega
  · rintro ⟨d, hd, hm⟩
    by_cases hdw : d < w
    · exact Or.inl ⟨d, hdw, hm⟩
    · refine Or.inr ⟨d - w, by omega, ?_⟩
      rw [← hm]
      congr 1
      omega

theorem testBit_top {m L : Nat} (h1 : 2 ^ L ≤ m) (h2 : m < 2 ^ (L + 1)) :
    m.testBit L = true := by
  rw [Nat.testBit_to_div_mod]
  have hpos : 0 < 2 ^ L := Nat.two_pow_pos L
  have : m / 2 ^ L = 1 := by
    apply Nat.div_eq_of_lt_le
    · rw [Nat.one_mul]; exact h1
    · rw [Nat.pow_succ] at h2
      omega
  simp [this]

/-- The five smear steps turn `m < 2 ^ 32` into `2 ^ L - 1`, where `L` is the bit length
of `m`. -/
theorem smear_eq {m : Nat} (hm : m < 2 ^ 32) :
    let n1 := m ||| (m >>> 1)
    let n2 := n1 ||| (n1 >>> 2)
    let n3 := n2 ||| (n2 >>> 4)
    let n4 := n3 ||| (n3 >>> 8)
    n4 ||| (n4 >>> 16) = 2 ^ bitsLen m - 1 := by
  intro n1 n2 n3 n4
  have h0 : ∀ i, m.testBit i = true ↔ ∃ d, d < 1 ∧ m.testBit (i + d) = true := by
    intro i
    constructor
    · intro h
      exact ⟨0, by decide, h⟩
    · rintro ⟨d, hd, h⟩
      have hd0 : d = 0 := by omega
      subst hd0
      exact h
  have h5 := smear_step (smear_step (smear_step (smear_step (smear_step h0))))
  have hL : bitsLen m ≤ 32 := (bitsLen_le_iff m 32 (by omega)).mpr hm
  have hlt : m < 2 ^ bitsLen m := (bitsLen_le_iff m _ (by omega)).mp (Nat.le_refl _)
  apply Nat.eq_of_testBit_eq
  intro i
  rw [Nat.testBit_two_pow_sub_one]
  by_cases hi : i < bitsLen m
  · rw [decide_eq_true hi]
    apply (h5 i).mpr
    obtain ⟨L, hLe⟩ : ∃ L, bitsLen m = L + 1 := ⟨bitsLen m - 1, by omega⟩
    have hge : 2 ^ L ≤ m := by
      by_contra hcon
      have := (bitsLen_le_iff m L (by omega)).mpr (by omega)
      omega
    refine ⟨L - i, by omega, ?_⟩
    have : i + (L - i) = L := by omega
    rw [this]
    rw [hLe] at hlt
    exact testBit_top hge hlt
  · rw [decide_eq_false hi]
    rw [Bool.eq_false_iff]
    intro hcon
    obtain ⟨d, _, hd⟩ := (h5 i).mp hcon
    have h1 := Nat.testBit_implies_ge hd
    have h2 : 2 ^ bitsLen m ≤ 2 ^ (i + d) := Nat.pow_le_pow_right (by decide) (by omega)
    omega

/-- The value of `nextPowerOf2` through the bit length of `n - 1` (in `uint32` arithmetic). -/
theorem nextPowerOf2_eq (n : Nat) :
    nextPowerOf2 n = 2 ^ bitsLen ((n + 2 ^ 32 - 1) % 2 ^ 32) % 2 ^ 32 := by
  have hm : (n + 2 ^ 32 - 1) % 2 ^ 32 < 2 ^ 32 := Nat.mod_lt _ (by decide)
  have h := smear_eq hm
  simp only at h
  unfold nextPowerOf2
  simp only
  rw [h]
  rw [Nat.sub_add_cancel (Nat.two_pow_pos _)]

theorem wrapped32_pred {n : Nat} (h1 : 1 ≤ n) (h2 : n ≤ 2 ^ 32) :
    (n + 2 ^ 32 - 1) % 2 ^ 32 = n - 1 := by
  have : n + 2 ^ 32 - 1 = (n - 1) + 2 ^ 32 := by omega
  rw [this, Nat.add_mod_right]
  exact Nat.mod_eq_of_lt (by omega)

/-- For `1 ≤ n ≤ 2 ^ 31` the result is `2 ^ L`, with `L` the bit length of `n - 1`. -/
theorem nextPowerOf2_small {n : Nat} (h1 : 1 ≤ n) (h2 : n ≤ 2 ^ 31) :
    nextPowerOf2 n = 2 ^ bitsLen (n - 1) ∧ bitsLen (n - 1) ≤ 31 := by
  have hL : bitsLen (n - 1) ≤ 31 := (bitsLen_le_iff (n - 1) 31 (by omega)).mpr (by omega)
  refine ⟨?_, hL⟩
  rw [nextPowerOf2_eq, wrapped32_pred h1 (by omega)]
  apply Nat.mod_eq_of_lt
  exact Nat.pow_lt_pow_right (by decide) (by omega)

theorem le_nextPowerOf2 {n : Nat} (h1 : 1 ≤ n) (h2 : n ≤ 2 ^ 31) :
    n ≤ nextPowerOf2 n := by
  obtain ⟨he, _⟩ := nextPowerOf2_small h1 h2
  have hlt : n - 1 < 2 ^ bitsLen (n - 1) :=
    (bitsLen_le_iff (n - 1) _ (by omega)).mp (Nat.le_refl _)
  omega

/-- C20. For every `n` with `1 ≤ n ≤ 2 ^ 31`, `nextPowerOf2 n` is the smallest power of two
that is at least `n`: it is a power of two, it is at least `n`, and it is at most every
power of two that is at least `n`. -/
theorem nextPowerOf2_is_least_power_of_two (n : Nat) (h1 : 1 ≤ n) (h2 : n ≤ 2 ^ 31) :
    (∃ k, nextPowerOf2 n = 2 ^ k) ∧ n ≤ nextPowerOf2 n ∧
      ∀ j, n ≤ 2 ^ j → nextPowerOf2 n ≤ 2 ^ j := by
  obtain ⟨he, hL⟩ := nextPowerOf2_small h1 h2
  have hlt : n - 1 < 2 ^ bitsLen (n - 1) :=
    (bitsLen_le_iff (n - 1) _ (by omega)).mp (Nat.le_refl _)
  refine ⟨⟨_, he⟩, by omega, ?_⟩
  intro j hj
  rw [he]
  apply Nat.pow_le_pow_right (by decide)
  have hpos : 0 < 2 ^ j := Nat.two_pow_pos j
  exact (bitsLen_le_iff (n - 1) j (by omega)).mpr (by omega)

theorem nextPowerOf2_is_least_power_of_two_witness :
    1 ≤ 5 ∧ 5 ≤ 2 ^ 31 ∧ nextPowerOf2 5 = 8 ∧ nextPowerOf2 8 = 8 ∧
    ((∃ k, nextPowerOf2 5 = 2 ^ k) ∧ 5 ≤ nextPowerOf2 5 ∧
      ∀ j, 5 ≤ 2 ^ j → nextPowerOf2 5 ≤ 2 ^ j) :=
  ⟨by decide, by decide, by decide, by decide,
    nextPowerOf2_is_least_power_of_two 5 (by decide) (by decide)⟩

/-- C13, counterexample. On input `0` the decrement wraps to `2 ^ 32 - 1` and the final
increment wraps to `0`: `nextPowerOf2 0` is `0`, not `1`. -/
theorem nextPowerOf2_zero : nextPowerOf2 0 = 0 ∧ nextPowerOf2 0 ≠ 1 := by
  decide

/-- C13, amended. `nextPowerOf2` returns `1` for input `1` and `0` for input `0`. -/
theorem nextPowerOf2_one_and_zero : nextPowerOf2 1 = 1 ∧ nextPowerOf2 0 = 0 := by
  decide

/-- C14. `nextPowerOf2` is idempotent on every input: the result is below `2 ^ 32`, so the
conversion back to `uint32` changes nothing, and applying `nextPowerOf2` again returns the
same value. -/
theorem nextPowerOf2_idempotent (n : Nat) :
    nextPowerOf2 n < 2 ^ 32 ∧
      nextPowerOf2 (nextPowerOf2 n % 2 ^ 32) = nextPowerOf2 n := by
  have hL : bitsLen ((n + 2 ^ 32 - 1) % 2 ^ 32) ≤ 32 :=
    (bitsLen_le_iff _ 32 (Nat.lt_of_lt_of_le (Nat.mod_lt _ (by decide)) (by decide))).mpr
      (Nat.mod_lt _ (by decide))
  rw [nextPowerOf2_eq n]
  generalize bitsLen ((n + 2 ^ 32 - 1) % 2 ^ 32) = L at hL
  interval_cases L <;> decide

theorem nextPowerOf2_large {n : Nat} (h1 : 2 ^ 31 < n) (h2 : n ≤ 2 ^ 32) :
    nextPowerOf2 (n % 2 ^ 32) = 0 := by
  by_cases hn : n = 2 ^ 32
  · subst hn
    decide
  · have hlt : n < 2 ^ 32 := by omega
    rw [Nat.mod_eq_of_lt hlt, nextPowerOf2_eq, wrapped32_pred (by omega) h2]
    have hL : bitsLen (n - 1) ≤ 32 := (bitsLen_le_iff (n - 1) 32 (by omega)).mpr (by omega)
    have hL' : ¬ bitsLen (n - 1) ≤ 31 := by
      intro hcon
      have := (bitsLen_le_iff (n - 1) 31 (by omega)).mp hcon
      omega
    have : bitsLen (n - 1) = 32 := by omega
    rw [this]
    exact Nat.mod_self _

/-- C11, counterexample. On base range `10.0.0.0/8` (half capacity `2 ^ 23`) the requests
`2 ^ 31 + 1` and `2 ^ 32` give the size `0` with no error, and the request `2 ^ 32 + 1` gives
the size `1` with no error. -/
theorem oversized_cluster_size_not_rejected :
    GetValidClusterSize (CidrText.v4 (ip4 10 0 0 0) 8) (2 ^ 31 + 1) = .ok 0 ∧
    GetValidClusterSize (CidrText.v4 (ip4 10 0 0 0) 8) (2 ^ 32) = .ok 0 ∧
    GetValidClusterSize (CidrText.v4 (ip4 10 0 0 0) 8) (2 ^ 32 + 1) = .ok 1 := by
  decide

/-- Requested sizes `n` with `2 ^ 31 < n ≤ 2 ^ 32` make the rounding wrap around:
`GetValidClusterSize` returns the size `0` with no error, which the guard `clusterSize == 0`
of `ValidateGlobalnetConfiguration` turns into an error. -/
theorem cluster_size_wraps_to_zero (globalnetInfo : GlobalnetInfo) (netconfig : Config)
    (ip : Nat) (network : IPNet)
    (hp : ParseCIDR globalnetInfo.GlobalnetCidrRange = some (ip, network))
    (he : globalnetInfo.GlobalnetEnabled = true)
    (hd : netconfig.GlobalnetClusterSize ≠ globalnetInfo.GlobalnetClusterSize)
    (h1 : 2 ^ 31 < netconfig.GlobalnetClusterSize)
    (h2 : netconfig.GlobalnetClusterSize ≤ 2 ^ 32) :
    GetValidClusterSize globalnetInfo.GlobalnetCidrRange netconfig.GlobalnetClusterSize
      = .ok 0 ∧
    validateClusterSize globalnetInfo netconfig = .error .invalidClusterSizeNil := by
  have hg : GetValidClusterSize globalnetInfo.GlobalnetCidrRange
      netconfig.GlobalnetClusterSize = .ok 0 := by
    unfold GetValidClusterSize
    simp only [hp]
    rw [nextPowerOf2_large h1 h2, if_neg (Nat.not_lt_zero _)]
  refine ⟨hg, ?_⟩
  have h0 : netconfig.GlobalnetClusterSize ≠ 0 := by omega
  unfold validateClusterSize
  rw [if_pos ⟨he, h0, hd⟩, hg]
  rfl

/-- C11, amended. For a well-formed base range with capacity `C = 2 ^ hostBits`, every
requested size `n` with `C / 2 < n ≤ 2 ^ 31` is rejected by `GetValidClusterSize` with the
size error. -/
theorem cluster_size_above_half_rejected (cidrRange : CidrText) (ip : Nat) (network : IPNet)
    (n : Nat) (hp : ParseCIDR cidrRange = some (ip, network))
    (hn : 2 ^ (32 - network.ones) / 2 < n) (h2 : n ≤ 2 ^ 31) :
    GetValidClusterSize cidrRange n =
      .error (.clusterSizeTooLarge n (2 ^ (32 - network.ones) / 2)) := by
  have h1 : 1 ≤ n := Nat.lt_of_le_of_lt (Nat.zero_le _) hn
  have hge := (le_nextPowerOf2 h1 h2)
  unfold GetValidClusterSize
  simp only [hp]
  rw [Nat.mod_eq_of_lt (by omega), if_pos (Nat.lt_of_lt_of_le hn hge)]

theorem cluster_size_above_half_rejected_witness :
    ParseCIDR (CidrText.v4 (ip4 10 0 0 0) 8)
      = some (ip4 10 0 0 0, { IP := ip4 10 0 0 0, ones := 8 }) ∧
    2 ^ (32 - 8) / 2 < 2 ^ 23 + 1 ∧ 2 ^ 23 + 1 ≤ 2 ^ 31 ∧
    GetValidClusterSize (CidrText.v4 (ip4 10 0 0 0) 8) (2 ^ 23 + 1) =
      .error (.clusterSizeTooLarge (2 ^ 23 + 1) (2 ^ (32 - 8) / 2)) :=
  ⟨by decide, by decide, by decide,
    cluster_size_above_half_rejected (CidrText.v4 (ip4 10 0 0 0) 8) (ip4 10 0 0 0)
      { IP := ip4 10 0 0 0, ones := 8 } (2 ^ 23 + 1) (by decide) (by decide) (by decide)⟩

theorem cluster_size_wraps_to_zero_witness :
    validateClusterSize
      (infoOf (CidrText.v4 (ip4 10 0 0 0) 8) 256 [])
      (requestOf "cluster-b" CidrText.empty (2 ^ 32))
      = .error .invalidClusterSizeNil :=
  (cluster_size_wraps_to_zero
    (infoOf (CidrText.v4 (ip4 10 0 0 0) 8) 256 [])
    (requestOf "cluster-b" CidrText.empty (2 ^ 32))
    (ip4 10 0 0 0) { IP := ip4 10 0 0 0, ones := 8 } (by decide) rfl (by decide) (by decide)
    (by decide)).2

/-- C12. For a well-formed base range with at least one host bit, `GetValidClusterSize`
called with exactly half the capacity succeeds and returns half the capacity. -/
theorem cluster_size_half_accepted (cidrRange : CidrText) (ip : Nat) (network : IPNet)
    (hp : ParseCIDR cidrRange = some (ip, network)) (hb : 1 ≤ 32 - network.ones) :
    GetValidClusterSize cidrRange (2 ^ (32 - network.ones) / 2) =
      .ok (2 ^ (32 - network.ones) / 2) := by
  have hle : 32 - network.ones ≤ 32 := Nat.sub_le _ _
  unfold GetValidClusterSize
  simp only [hp]
  generalize 32 - network.ones = k at hb hle
  interval_cases k <;> decide

theorem cluster_size_half_accepted_witness :
    ParseCIDR (CidrText.v4 (ip4 10 0 0 0) 8)
      = some (ip4 10 0 0 0, { IP := ip4 10 0 0 0, ones := 8 }) ∧
    1 ≤ 32 - 8 ∧
    GetValidClusterSize (CidrText.v4 (ip4 10 0 0 0) 8) (2 ^ (32 - 8) / 2) =
      .ok (2 ^ (32 - 8) / 2) :=
  ⟨by decide, by decide,
    cluster_size_half_accepted (CidrText.v4 (ip4 10 0 0 0) 8) (ip4 10 0 0 0)
      { IP := ip4 10 0 0 0, ones := 8 } (by decide) (by decide)⟩

theorem IsLoopback_iff {ip : Nat} (h : ip < 2 ^ 32) :
    IsLoopback ip = true ↔ IPNet.Contains { IP := ip4 127 0 0 0, ones := 8 } ip = true := by
  rw [Contains_iff_div _ ip (by decide) h]
  simp only [IsLoopback, octet, ip4, beq_iff_eq]
  norm_num at h ⊢
  omega

theorem IsLinkLocalUnicast_iff {ip : Nat} (h : ip < 2 ^ 32) :
    IsLinkLocalUnicast ip = true ↔
      IPNet.Contains { IP := ip4 169 254 0 0, ones := 16 } ip = true := by
  rw [Contains_iff_div _ ip (by decide) h]
  simp only [IsLinkLocalUnicast, octet, ip4, Bool.and_eq_true, beq_iff_eq]
  norm_num at h ⊢
  omega

theorem IsLinkLocalMulticast_iff {ip : Nat} (h : ip < 2 ^ 32) :
    IsLinkLocalMulticast ip = true ↔
      IPNet.Contains { IP := ip4 224 0 0 0, ones := 24 } ip = true := by
  rw [Contains_iff_div _ ip (by decide) h]
  simp only [IsLinkLocalMulticast, octet, ip4, Bool.and_eq_true, beq_iff_eq]
  norm_num at h ⊢
  omega

/-- C15. `IsValidCIDR` returns an error exactly when the text does not parse or its address
(as written) is `0.0.0.0` or lies in `127.0.0.0/8`, `169.254.0.0/16` or `224.0.0.0/24`, and
returns nil for every other well-formed IPv4 CIDR; `0.0.0.0/8` is rejected as unspecified
and `169.254.0.0/16` as link-local. -/
theorem IsValidCIDR_rejects_exactly_reserved (cidr : CidrText) :
    ((IsValidCIDR cidr).isSome = true ↔
      (ParseCIDR cidr = none ∨
        ∃ ip network, ParseCIDR cidr = some (ip, network) ∧ ReservedAddress ip)) ∧
    (IsValidCIDR cidr = none ↔
      ∃ ip network, ParseCIDR cidr = some (ip, network) ∧ ¬ ReservedAddress ip) ∧
    IsValidCIDR (CidrText.v4 (ip4 0 0 0 0) 8)
      = some (.unspecifiedAddress (CidrText.v4 (ip4 0 0 0 0) 8)) ∧
    IsValidCIDR (CidrText.v4 (ip4 169 254 0 0) 16)
      = some (.linkLocalRange (CidrText.v4 (ip4 169 254 0 0) 16)) := by
  have key : ∀ ip network, ParseCIDR cidr = some (ip, network) →
      ((IsValidCIDR cidr).isSome = true ↔ ReservedAddress ip) := by
    intro ip network hp
    have hip := (ParseCIDR_some hp).2.1
    unfold IsValidCIDR ReservedAddress
    simp only [hp]
    rw [← IsLoopback_iff hip, ← IsLinkLocalUnicast_iff hip, ← IsLinkLocalMulticast_iff hip]
    by_cases h0 : ip = 0
    · simp [IsUnspecified, h0]
    · by_cases h1 : IsLoopback ip = true
      · simp [IsUnspecified, h0, h1]
      · by_cases h2 : IsLinkLocalUnicast ip = true
        · simp [IsUnspecified, h0, h1, h2]
        · by_cases h3 : IsLinkLocalMulticast ip = true
          · simp [IsUnspecified, h0, h1, h2, h3]
          · simp [IsUnspecified, h0, h1, h2, h3]
  refine ⟨?_, ?_, by decide, by decide⟩
  · cases hp : ParseCIDR cidr with
    | none => simp [IsValidCIDR, hp]
    | some r =>
      obtain ⟨ip, network⟩ := r
      rw [key ip network hp]
      constructor
      · intro h
        exact Or.inr ⟨ip, network, rfl, h⟩
      · rintro (h | ⟨ip', network', h1, h2⟩)
        · cases h
        · cases h1
          exact h2
  · cases hp : ParseCIDR cidr with
    | none => simp [IsValidCIDR, hp]
    | some r =>
      obtain ⟨ip, network⟩ := r
      have hk := key ip network hp
      constructor
      · intro h
        refine ⟨ip, network, rfl, ?_⟩
        intro hr
        have := hk.mpr hr
        rw [h] at this
        cases this
      · rintro ⟨ip', network', h1, h2⟩
        cases h1
        have := hk.not.mpr h2
        simpa using this

/-! ## A candidate that contains an entry: probing goes on after the candidate -/

theorem scanAllocated_overlaps {cidr cidr' : CidrText} {ip : Nat} {net alloc : IPNet}
    {cc : CIDR} {l : List CIDR} {last : Nat}
    (h : scanAllocated cidr ip net cc l = some (last, .overlapsAllocated cidr' alloc)) :
    ∃ c ∈ l, c.network.Contains ip = false ∧ net.Contains c.network.IP = true ∧
      last = cc.lastIP := by
  induction l with
  | nil => simp [scanAllocated] at h
  | cons a rest ih =>
    unfold scanAllocated at h
    by_cases h1 : a.network.Contains ip = true
    · rw [if_pos h1] at h
      simp at h
    · by_cases h2 : net.Contains a.network.IP = true
      · rw [if_neg h1, if_pos h2] at h
        simp only [Option.some.injEq, Prod.mk.injEq] at h
        exact ⟨a, List.mem_cons_self _ _, by simpa using h1, h2, h.1.symm⟩
      · rw [if_neg h1, if_neg h2] at h
        obtain ⟨c, hc, hh⟩ := ih h
        exact ⟨c, List.mem_cons_of_mem _ hc, hh⟩

/-- An attempt that fails with the overlap error returns the last address of the candidate
block itself, and this address is not zero. -/
theorem overlap_attempt_last {g g1 : GlobalCIDR} {cidr cidr' : CidrText} {a last : Nat}
    {net alloc : IPNet} (hgood : GoodEntries g) (hp : ParseCIDR cidr = some (a, net))
    (h : allocateByCidr g cidr = ((last, some (.overlapsAllocated cidr' alloc)), g1)) :
    last = net.IP + 2 ^ (32 - net.ones) - 1 ∧ last ≠ 0 := by
  obtain ⟨hnet, hna⟩ := ParseCIDR_WF hp
  have ha := (ParseCIDR_some hp).2.1
  rw [allocateByCidr_parsed hp] at h
  by_cases hc : g.net.Contains a = true ∧ g.net.Contains (uintToIP (LastIP net)) = true
  · rw [if_pos hc] at h
    cases hs : scanAllocated cidr a net
        { network := net, size := 32 - net.ones, lastIP := LastIP net }
        (g.allocatedClusters.take g.allocatedCount) with
    | none => simp [hs] at h
    | some r =>
      obtain ⟨l, e⟩ := r
      simp only [hs, Prod.mk.injEq, Option.some.injEq] at h
      obtain ⟨⟨hl, he⟩, _⟩ := h
      subst hl
      subst he
      obtain ⟨c, hcm, hc1, hc2, hc3⟩ := scanAllocated_overlaps hs
      simp only at hc3
      have hcw := (hgood c hcm).1
      rw [(LastIP_eq hnet).1] at hc3
      refine ⟨hc3, ?_⟩
      intro h0
      rw [h0] at hc3
      obtain ⟨hip, hk⟩ := pow_sub_eq_zero_of_last hc3.symm
      have hr := (Contains_iff_range net c.network.IP hnet hcw.2.1).mp hc2
      have hra := (Contains_iff_range net a hnet ha).mp hna
      rw [hip, hk] at hr hra
      have hc0 : c.network.IP = 0 := by omega
      have ha0 : a = 0 := by omega
      have := Contains_self hcw
      rw [hc0, ← ha0, hc1] at this
      cases this
  · rw [if_neg hc] at h
    simp at h

/-- C16, counterexample. Base range `10.0.0.0/8`, ledger `10.0.0.128/25`, size 256: the first
attempt `10.0.0.0/24` fails with the overlap error and returns its own last address
`10.0.0.255`; probing goes on with `10.0.1.0/24`, which is returned. -/
theorem overlap_does_not_stop_probing :
    (allocateByCidr
        (loaded { IP := ip4 10 0 0 0, ones := 8 }
          (infoOf (CidrText.v4 (ip4 10 0 0 0) 8) 256 [CidrText.v4 (ip4 10 0 0 128) 25]))
        (CidrText.v4 (ip4 10 0 0 0) 24)).1
      = (ip4 10 0 0 255, some (.overlapsAllocated (CidrText.v4 (ip4 10 0 0 0) 24)
          { IP := ip4 10 0 0 128, ones := 25 })) ∧
    AllocateGlobalCIDR 8
        (infoOf (CidrText.v4 (ip4 10 0 0 0) 8) 256 [CidrText.v4 (ip4 10 0 0 128) 25])
      = some (.ok (CidrText.v4 (ip4 10 0 1 0) 24)) ∧
    AllocateGlobalCIDR 8
        (infoOf (CidrText.v4 (ip4 10 0 0 0) 8) 256 [CidrText.v4 (ip4 10 0 0 128) 25])
      ≠ some (.error .allocationNotAvailable) := by
  decide

/-- C16, amended. Whenever an attempt fails because the candidate block contains the first
address of an entry (the overlap error), `allocateByCidr` returns the last address of the
candidate block itself. On a ledger as `NewCIDR` builds it this address is never zero, so
probing does not stop: `allocateByClusterSize` goes on with the candidate that starts one
address after the failed candidate block, both after the first attempt and inside the
loop. -/
theorem overlap_attempt_resumes_after_candidate (g g1 : GlobalCIDR) (cidr cidr' : CidrText)
    (a last : Nat) (net alloc : IPNet) (hgood : GoodEntries g)
    (hp : ParseCIDR cidr = some (a, net))
    (h : allocateByCidr g cidr = ((last, some (.overlapsAllocated cidr' alloc)), g1)) :
    last = net.IP + 2 ^ (32 - net.ones) - 1 ∧ last ≠ 0 ∧
    (∀ fuel l0 P, nextNetString l0 P = cidr → probe g P (fuel + 1) l0 = probe g P fuel last) ∧
    (∀ fuel n, CidrText.v4 g.net.IP (clusterPrefixOf n) = cidr →
      allocateByClusterSize fuel g n = probe g (clusterPrefixOf n) fuel last) := by
  obtain ⟨h1, h2⟩ := overlap_attempt_last hgood hp h
  refine ⟨h1, h2, ?_, ?_⟩
  · intro fuel l0 P hc
    rw [probe]
    simp only [hc, h, if_neg h2]
  · intro fuel n hc
    unfold allocateByClusterSize
    simp only [hc, h, if_neg h2]

theorem overlap_attempt_resumes_after_candidate_witness :
    ParseCIDR (CidrText.v4 (ip4 10 0 0 0) 24)
      = some (ip4 10 0 0 0, { IP := ip4 10 0 0 0, ones := 24 }) ∧
    ip4 10 0 0 255 = ip4 10 0 0 0 + 2 ^ (32 - 24) - 1 ∧ ip4 10 0 0 255 ≠ 0 ∧
    allocateByClusterSize 8
        (loaded { IP := ip4 10 0 0 0, ones := 8 }
          (infoOf (CidrText.v4 (ip4 10 0 0 0) 8) 256 [CidrText.v4 (ip4 10 0 0 128) 25])) 256
      = probe
        (loaded { IP := ip4 10 0 0 0, ones := 8 }
          (infoOf (CidrText.v4 (ip4 10 0 0 0) 8) 256 [CidrText.v4 (ip4 10 0 0 128) 25]))
        (clusterPrefixOf 256) 8 (ip4 10 0 0 255) :=
  have h := overlap_attempt_resumes_after_candidate
    (loaded { IP := ip4 10 0 0 0, ones := 8 }
      (infoOf (CidrText.v4 (ip4 10 0 0 0) 8) 256 [CidrText.v4 (ip4 10 0 0 128) 25]))
    (loaded { IP := ip4 10 0 0 0, ones := 8 }
      (infoOf (CidrText.v4 (ip4 10 0 0 0) 8) 256 [CidrText.v4 (ip4 10 0 0 128) 25]))
    (CidrText.v4 (ip4 10 0 0 0) 24) (CidrText.v4 (ip4 10 0 0 0) 24)
    (ip4 10 0 0 0) (ip4 10 0 0 255) { IP := ip4 10 0 0 0, ones := 24 }
    { IP := ip4 10 0 0 128, ones := 25 }
    (GoodEntries_loaded _ _) (by decide) (by decide)
  ⟨by decide, h.1, h.2.1, h.2.2.2 8 256 (by decide)⟩

/-! ## A returned text is aligned -/

/-- A candidate that starts right after an entry and is not aligned to its own size lies in
the entry, or its block contains the first address of the entry. -/
theorem unaligned_after_entry {c net : IPNet} {a : Nat} (hc : c.WF) (hnet : net.WF)
    (ha : a < 2 ^ 32) (hna : net.Contains a = true)
    (hlast : c.IP + 2 ^ (32 - c.ones) - 1 + 1 = a) (hun : a % 2 ^ (32 - net.ones) ≠ 0) :
    net.Contains c.IP = true := by
  have hposk : 0 < 2 ^ (32 - c.ones) := Nat.two_pow_pos _
  have hposh : 0 < 2 ^ (32 - net.ones) := Nat.two_pow_pos _
  have ha' : a = c.IP + 2 ^ (32 - c.ones) := by omega
  have hdk : 2 ^ (32 - c.ones) ∣ a := by
    rw [ha']
    exact Nat.dvd_add (Nat.dvd_of_mod_eq_zero hc.2.2) (Nat.dvd_refl _)
  have hlt : 32 - c.ones < 32 - net.ones := by
    by_contra hcon
    have hd : 2 ^ (32 - net.ones) ∣ 2 ^ (32 - c.ones) := Nat.pow_dvd_pow 2 (by omega)
    exact hun (Nat.mod_eq_zero_of_dvd (Nat.dvd_trans hd hdk))
  have hd : 2 ^ (32 - c.ones) ∣ 2 ^ (32 - net.ones) := Nat.pow_dvd_pow 2 (by omega)
  have hrem : 2 ^ (32 - c.ones) ∣ a % 2 ^ (32 - net.ones) :=
    (Nat.dvd_mod_iff hd).mpr hdk
  have hge : 2 ^ (32 - c.ones) ≤ a % 2 ^ (32 - net.ones) :=
    Nat.le_of_dvd (Nat.pos_of_ne_zero hun) hrem
  have hr := (Contains_iff_range net a hnet ha).mp hna
  have hal : net.IP = a / 2 ^ (32 - net.ones) * 2 ^ (32 - net.ones) := by
    have := (Contains_iff_div net a hnet.2.1 ha).mp hna
    rw [← this, Nat.div_mul_cancel (Nat.dvd_of_mod_eq_zero hnet.2.2)]
  have hdm := Nat.div_add_mod a (2 ^ (32 - net.ones))
  rw [Nat.mul_comm] at hdm
  rw [Contains_iff_range net c.IP hnet hc.2.1]
  omega

theorem resumePoint_of_fail {g g1 : GlobalCIDR} (P : Int) {cidr : CidrText} {a last : Nat}
    {net : IPNet} {e : Error} (hp : ParseCIDR cidr = some (a, net))
    (hones : net.ones = P.toNat)
    (h : allocateByCidr g cidr = ((last, some e), g1)) (h0 : last ≠ 0) :
    ResumePoint g P last := by
  obtain ⟨_, _, c, hc, hcase⟩ := attempt_fail hp h h0
  have hnet := (ParseCIDR_WF hp).1
  rcases hcase with ⟨_, h2⟩ | ⟨_, _, h2⟩
  · exact Or.inr ⟨c, hc, h2.symm⟩
  · left
    have hl := LastIP_eq hnet
    have hpos : 0 < 2 ^ (32 - net.ones) := Nat.two_pow_pos _
    rw [h2, hl.1, ← hones]
    have e1 : net.IP + 2 ^ (32 - net.ones) - 1 + 1 = net.IP + 2 ^ (32 - net.ones) := by omega
    rw [e1]
    by_cases hw : net.IP + 2 ^ (32 - net.ones) = 2 ^ 32
    · rw [hw, Nat.mod_self]
      exact Nat.zero_mod _
    · rw [Nat.mod_eq_of_lt (Nat.lt_of_le_of_ne hl.2 hw), Nat.add_mod_right]
      exact hnet.2.2

theorem aligned_of_success {g : GlobalCIDR} {cidr : CidrText} {a : Nat} {net : IPNet}
    (hgood : GoodEntries g) (hp : ParseCIDR cidr = some (a, net))
    (hok : (allocateByCidr g cidr).1.2 = none)
    (hres : a % 2 ^ (32 - net.ones) = 0 ∨
      ∃ c ∈ g.allocatedClusters.take g.allocatedCount, (c.lastIP + 1) % 2 ^ 32 = a) :
    a = net.IP := by
  obtain ⟨hnet, hna⟩ := ParseCIDR_WF hp
  have ha := (ParseCIDR_some hp).2.1
  have hal := (ParseCIDR_some hp).2.2.2
  have key : a % 2 ^ (32 - net.ones) = 0 := by
    rcases hres with h | ⟨c, hc, hca⟩
    · exact h
    · by_contra hun
      obtain ⟨ip', net', hp', _, _, hchk⟩ := allocateByCidr_ok hok
      rw [hp] at hp'
      cases hp'
      have hcw := (hgood c hc).1
      have hcl := (hgood c hc).2
      have hl := LastIP_eq hcw
      rw [hcl, hl.1] at hca
      have hne : c.network.IP + 2 ^ (32 - c.network.ones) - 1 + 1 ≠ 2 ^ 32 := by
        intro hw
        rw [hw, Nat.mod_self] at hca
        rw [← hca] at hun
        exact hun (Nat.zero_mod _)
      have hpos : 0 < 2 ^ (32 - c.network.ones) := Nat.two_pow_pos _
      rw [Nat.mod_eq_of_lt (by omega)] at hca
      have := unaligned_after_entry hcw hnet ha hna hca hun
      rw [(hchk c hc).2] at this
      cases this
  rw [hal]
  exact (Nat.div_mul_cancel (Nat.dvd_of_mod_eq_zero key)).symm

theorem probe_aligned {g : GlobalCIDR} {P : Int} {cidr : CidrText} (hgood : GoodEntries g)
    (hP0 : 0 ≤ P) (hP1 : P ≤ 32) :
    ∀ (fuel last : Nat), ResumePoint g P last → probe g P fuel last = some (.ok cidr) →
      ∃ ip net, ParseCIDR cidr = some (ip, net) ∧ ip = net.IP := by
  intro fuel
  induction fuel with
  | zero => intro last _ h; simp [probe] at h
  | succ n ih =>
    intro last hres h
    have hparse := nextNetString_parse last hP0 hP1
    unfold probe at h
    simp only at h
    split at h
    · rename_i heq
      simp only [Option.some.injEq, Except.ok.injEq] at h
      rw [← h]
      refine ⟨_, _, hparse, ?_⟩
      apply aligned_of_success hgood hparse (by rw [heq])
      rcases hres with h1 | ⟨c, hc, hcl⟩
      · exact Or.inl h1
      · exact Or.inr ⟨c, hc, by rw [hcl]⟩
    · rename_i last1 e g1 heq
      by_cases h0 : last1 = 0
      · simp [h0] at h
      · simp only [h0, if_false] at h
        exact ih last1 (resumePoint_of_fail P hparse rfl heq h0) h

theorem allocateByClusterSize_aligned {fuel : Nat} {g : GlobalCIDR} {n : Nat}
    {cidr : CidrText} (hgood : GoodEntries g) (hg : g.net.WF)
    (hn1 : 1 ≤ n) (hn2 : n ≤ 2 ^ (32 - g.net.ones))
    (h : allocateByClusterSize fuel g n = some (.ok cidr)) :
    ∃ ip net, ParseCIDR cidr = some (ip, net) ∧ ip = net.IP := by
  obtain ⟨ip, net, hc, _⟩ := allocateByCidr_ok (allocateByClusterSize_ok h)
  have hones := allocateByClusterSize_text h hc
  have hn32 := (ParseCIDR_WF hc).1.1
  have hP0 : 0 ≤ clusterPrefixOf n := by omega
  have hP1 : clusterPrefixOf n ≤ 32 := by omega
  have hge := clusterPrefixOf_ge (Nat.sub_le 32 g.net.ones) hn1 hn2
  unfold allocateByClusterSize at h
  simp only at h
  generalize clusterPrefixOf n = P at h hP0 hP1 hge
  have hparse : ParseCIDR (.v4 g.net.IP P) =
      some (g.net.IP, { IP := g.net.IP &&& CIDRMask P.toNat, ones := P.toNat }) := by
    simp only [ParseCIDR]
    rw [if_pos ⟨hg.2.1, hP0, hP1⟩]
  split at h
  · rename_i heq
    simp only [Option.some.injEq, Except.ok.injEq] at h
    rw [← h]
    refine ⟨_, _, hparse, ?_⟩
    apply aligned_of_success hgood hparse (by rw [heq])
    left
    have hg32 := hg.1
    have hle : 32 - P.toNat ≤ 32 - g.net.ones := by omega
    show g.net.IP % 2 ^ (32 - P.toNat) = 0
    exact Nat.mod_eq_zero_of_dvd
      (Nat.dvd_trans (Nat.pow_dvd_pow 2 hle) (Nat.dvd_of_mod_eq_zero hg.2.2))
  · rename_i last1 e g1 heq
    by_cases h0 : last1 = 0
    · simp [h0] at h
    · simp only [h0, if_false] at h
      exact probe_aligned hgood hP0 hP1 fuel last1 (resumePoint_of_fail P hparse rfl heq h0) h

/-- C19. For a requested size `1 ≤ n ≤ capacity`, every text that a successful
`AllocateGlobalCIDR` returns is aligned to its own prefix length: the address written in
the text is the network address of its block, so all its host bits are zero. -/
theorem allocated_cidr_is_aligned (fuel : Nat) (info : GlobalnetInfo) (cidr : CidrText)
    (bip : Nat) (base : IPNet)
    (hbase : ParseCIDR info.GlobalnetCidrRange = some (bip, base))
    (hn1 : 1 ≤ info.GlobalnetClusterSize)
    (hn2 : info.GlobalnetClusterSize ≤ 2 ^ (32 - base.ones))
    (h : AllocateGlobalCIDR fuel info = some (.ok cidr)) :
    ∃ ip network, ParseCIDR cidr = some (ip, network) ∧ ip = network.IP ∧
      ip % 2 ^ (32 - network.ones) = 0 := by
  obtain ⟨bip2, base2, hp2, _, hs⟩ := AllocateGlobalCIDR_ok h
  rw [hbase] at hp2
  cases hp2
  obtain ⟨ip, net, hc, hal⟩ := allocateByClusterSize_aligned (GoodEntries_loaded base info)
    (ParseCIDR_WF hbase).1 hn1 hn2 hs
  refine ⟨ip, net, hc, hal, ?_⟩
  rw [hal]
  exact (ParseCIDR_WF hc).1.2.2

theorem allocated_cidr_is_aligned_witness :
    ParseCIDR (infoOf (CidrText.v4 (ip4 10 0 0 0) 8) 256
        [CidrText.v4 (ip4 10 0 0 0) 25]).GlobalnetCidrRange
      = some (ip4 10 0 0 0, { IP := ip4 10 0 0 0, ones := 8 }) ∧
    1 ≤ (infoOf (CidrText.v4 (ip4 10 0 0 0) 8) 256
        [CidrText.v4 (ip4 10 0 0 0) 25]).GlobalnetClusterSize ∧
    (infoOf (CidrText.v4 (ip4 10 0 0 0) 8) 256
        [CidrText.v4 (ip4 10 0 0 0) 25]).GlobalnetClusterSize ≤ 2 ^ (32 - 8) ∧
    AllocateGlobalCIDR 8 (infoOf (CidrText.v4 (ip4 10 0 0 0) 8) 256
        [CidrText.v4 (ip4 10 0 0 0) 25]) = some (.ok (CidrText.v4 (ip4 10 0 1 0) 24)) ∧
    ∃ ip network, ParseCIDR (CidrText.v4 (ip4 10 0 1 0) 24) = some (ip, network) ∧
      ip = network.IP ∧ ip % 2 ^ (32 - network.ones) = 0 :=
  ⟨by decide, by decide, by decide, by decide,
    allocated_cidr_is_aligned 8
      (infoOf (CidrText.v4 (ip4 10 0 0 0) 8) 256 [CidrText.v4 (ip4 10 0 0 0) 25])
      (CidrText.v4 (ip4 10 0 1 0) 24) (ip4 10 0 0 0) { IP := ip4 10 0 0 0, ones := 8 }
      (by decide) (by decide) (by decide) (by decide)⟩

/-! ## Termination of the probing -/

theorem probe_zero_range_loops (fuel : Nat) :
    probe (loaded { IP := 0, ones := 8 } zeroRangeUnderWholeSpace) 24 fuel (2 ^ 32 - 1)
      = none := by
  induction fuel with
  | zero => rfl
  | succ n ih => exact ih

theorem probe_whole_space_loops (fuel : Nat) :
    probe (loaded { IP := 0, ones := 0 } wholeSpaceTaken) 24 fuel (2 ^ 32 - 1) = none := by
  induction fuel with
  | zero => rfl
  | succ n ih => exact ih

/-- C17, failing input. Base range `0.0.0.0/0`, ledger `0.0.0.0/0` (the full range), size 256:
the candidate `0.0.0.0/24` lies in the entry, whose last address is `255.255.255.255`; the
next candidate address `last + 1` is cut to 32 bits and is `0.0.0.0` again, so every attempt
repeats the first one and no amount of fuel gives a result. The same happens for the base
range `0.0.0.0/8` written `0.0.0.1/8`, which `IsValidCIDR` admits, with the ledger entry
`0.0.0.0/0`. -/
theorem whole_space_probing_never_returns :
    (allocateByCidr (loaded { IP := 0, ones := 0 } wholeSpaceTaken)
        (CidrText.v4 (ip4 0 0 0 0) 24)).1
      = (2 ^ 32 - 1, some (.subsetOfAllocated (CidrText.v4 (ip4 0 0 0 0) 24)
          { IP := 0, ones := 0 })) ∧
    nextNetString (2 ^ 32 - 1) 24 = CidrText.v4 (ip4 0 0 0 0) 24 ∧
    (∀ fuel, AllocateGlobalCIDR fuel wholeSpaceTaken = none) ∧
    IsValidCIDR zeroRangeUnderWholeSpace.GlobalnetCidrRange = none ∧
    (∀ fuel, AllocateGlobalCIDR fuel zeroRangeUnderWholeSpace = none) := by
  refine ⟨by decide, by decide, ?_, by decide, ?_⟩
  · intro fuel
    have h := probe_whole_space_loops fuel
    exact h
  · intro fuel
    have h := probe_zero_range_loops fuel
    exact h

/-- What a failed attempt with a non-zero returned address tells about that address: it is
a 32-bit address at or after the candidate. -/
theorem fail_last_bounds {g g1 : GlobalCIDR} {cidr : CidrText} {a last : Nat} {net : IPNet}
    {e : Error} (hgood : GoodEntries g) (hp : ParseCIDR cidr = some (a, net))
    (h : allocateByCidr g cidr = ((last, some e), g1)) (h0 : last ≠ 0) :
    a ≤ last ∧ last < 2 ^ 32 ∧ g.net.Contains a = true := by
  obtain ⟨hba, _, c, hc, hcase⟩ := attempt_fail hp h h0
  obtain ⟨hnet, hna⟩ := ParseCIDR_WF hp
  have ha := (ParseCIDR_some hp).2.1
  have hcw := (hgood c hc).1
  have hcl := (hgood c hc).2
  rcases hcase with ⟨h1, h2⟩ | ⟨_, _, h2⟩
  · have hr := (Contains_iff_range c.network a hcw ha).mp h1
    have hl := LastIP_eq hcw
    have hpos : 0 < 2 ^ (32 - c.network.ones) := Nat.two_pow_pos _
    rw [hcl, hl.1] at h2
    exact ⟨by omega, by omega, hba⟩
  · have hr := (Contains_iff_range net a hnet ha).mp hna
    have hl := LastIP_eq hnet
    have hpos : 0 < 2 ^ (32 - net.ones) := Nat.two_pow_pos _
    rw [hl.1] at h2
    exact ⟨by omega, by omega, hba⟩

theorem probe_terminates {g : GlobalCIDR} {P : Int} (hgood : GoodEntries g) (hg : g.net.WF)
    (hz : g.net.IP ≠ 0) :
    ∀ (fuel last : Nat), last < 2 ^ 32 → 2 ^ 32 - last ≤ fuel →
      ∃ r, probe g P fuel last = some r := by
  intro fuel
  induction fuel with
  | zero => intro last h1 h2; omega
  | succ n ih =>
    intro last h1 h2
    unfold probe
    simp only
    split
    · exact ⟨_, rfl⟩
    · rename_i last1 e g1 heq
      by_cases h0 : last1 = 0
      · rw [if_pos h0]
        exact ⟨_, rfl⟩
      · rw [if_neg h0]
        cases hp : ParseCIDR (nextNetString last P) with
        | none =>
          simp only [allocateByCidr, hp, Prod.mk.injEq] at heq
          exact absurd heq.1.1.symm h0
        | some r =>
          obtain ⟨a, net⟩ := r
          obtain ⟨hle, hlt, hba⟩ := fail_last_bounds hgood hp heq h0
          have ha := (ParseCIDR_some hp).2.1
          have hr := (Contains_iff_range g.net a hg ha).mp hba
          have hP : 0 ≤ P ∧ P ≤ 32 := by
            by_contra hcon
            simp [nextNetString, hcon, ParseCIDR] at hp
          have hparse := nextNetString_parse last hP.1 hP.2
          rw [hp] at hparse
          simp only [Option.some.injEq, Prod.mk.injEq] at hparse
          have ha' : a = (last + 1) % 2 ^ 32 := hparse.1
          have hnw : last + 1 < 2 ^ 32 := by
            by_contra hcon
            have : last + 1 = 2 ^ 32 := by omega
            rw [this, Nat.mod_self] at ha'
            omega
          rw [Nat.mod_eq_of_lt hnw] at ha'
          exact ih last1 hlt (by omega)

theorem allocateByClusterSize_terminates {g : GlobalCIDR} (n : Nat) (hgood : GoodEntries g)
    (hg : g.net.WF) (hz : g.net.IP ≠ 0) (fuel : Nat) (hfuel : 2 ^ 32 ≤ fuel) :
    ∃ r, allocateByClusterSize fuel g n = some r := by
  unfold allocateByClusterSize
  simp only
  split
  · exact ⟨_, rfl⟩
  · rename_i last1 e g1 heq
    by_cases h0 : last1 = 0
    · rw [if_pos h0]
      exact ⟨_, rfl⟩
    · rw [if_neg h0]
      cases hp : ParseCIDR (CidrText.v4 g.net.IP (clusterPrefixOf n)) with
      | none =>
        simp only [allocateByCidr, hp, Prod.mk.injEq] at heq
        exact absurd heq.1.1.symm h0
      | some r =>
        obtain ⟨a, net⟩ := r
        obtain ⟨_, hlt, _⟩ := fail_last_bounds hgood hp heq h0
        exact probe_terminates hgood hg hz fuel last1 hlt (by omega)

/-- When the base range does not contain `0.0.0.0`, the probing terminates: for every
ledger and every requested size `AllocateGlobalCIDR` returns a CIDR or an error, the same
for every amount of fuel from `2 ^ 32` on. -/
theorem allocation_terminates (info : GlobalnetInfo)
    (hz : ∀ bip base, ParseCIDR info.GlobalnetCidrRange = some (bip, base) → base.IP ≠ 0) :
    ∃ r, ∀ fuel, 2 ^ 32 ≤ fuel → AllocateGlobalCIDR fuel info = some r := by
  have h0 : ∃ r, AllocateGlobalCIDR (2 ^ 32) info = some r := by
    unfold AllocateGlobalCIDR
    split
    · exact ⟨_, rfl⟩
    · rename_i bip base hp
      simp only
      split
      · exact ⟨_, rfl⟩
      · rename_i g1 hl
        obtain ⟨hg1, hall⟩ := loadClusters_ok hl
        have hgl : g1 = loaded base info := by
          rw [hg1]
          simp [loaded, ledger]
        rw [hgl]
        exact allocateByClusterSize_terminates _ (GoodEntries_loaded base info)
          (ParseCIDR_WF hp).1 (hz bip base hp) (2 ^ 32) (Nat.le_refl _)
  obtain ⟨r, hr⟩ := h0
  refine ⟨r, ?_⟩
  intro fuel hfuel
  obtain ⟨k, rfl⟩ : ∃ k, fuel = 2 ^ 32 + k := ⟨fuel - 2 ^ 32, by omega⟩
  exact AllocateGlobalCIDR_mono k hr

theorem allocation_terminates_witness :
    ∃ r, ∀ fuel, 2 ^ 32 ≤ fuel →
      AllocateGlobalCIDR fuel
        (infoOf (CidrText.v4 (ip4 10 0 0 0) 24) 256 [CidrText.v4 (ip4 10 0 0 0) 24]) = some r :=
  allocation_terminates
    (infoOf (CidrText.v4 (ip4 10 0 0 0) 24) 256 [CidrText.v4 (ip4 10 0 0 0) 24])
    (by
      intro bip base hp
      have hp' : ParseCIDR (CidrText.v4 (ip4 10 0 0 0) 24)
          = some (ip4 10 0 0 0, { IP := ip4 10 0 0 0, ones := 24 }) := by decide
      have e : ParseCIDR (infoOf (CidrText.v4 (ip4 10 0 0 0) 24) 256
          [CidrText.v4 (ip4 10 0 0 0) 24]).GlobalnetCidrRange
            = ParseCIDR (CidrText.v4 (ip4 10 0 0 0) 24) := rfl
      rw [e, hp'] at hp
      cases hp
      decide)

/-! ## The order of the ledger -/

theorem single_addresses_disjoint :
    TextsDisjoint (CidrText.v4 (ip4 0 0 0 0) 32) (CidrText.v4 (ip4 0 0 0 1) 32) := by
  intro a b ha hb
  have h1 : blockOf (CidrText.v4 (ip4 0 0 0 0) 32) = some { IP := 0, ones := 32 } := by decide
  have h2 : blockOf (CidrText.v4 (ip4 0 0 0 1) 32) = some { IP := 1, ones := 32 } := by decide
  rw [h1] at ha
  rw [h2] at hb
  cases ha
  cases hb
  rintro ⟨x, hx, hxa, hxb⟩
  rw [Contains_iff_div _ x (by decide) hx] at hxa hxb
  simp only [Nat.sub_self, Nat.pow_zero, Nat.div_one] at hxa hxb
  omega

/-- C18, failing input. Base range `0.0.0.0/8`, written `0.0.0.1/8` so that `IsValidCIDR`
admits it, size 2 and the two disjoint entries `0.0.0.0/32` and `0.0.0.1/32`. Visited as `0.0.0.0/32`, `0.0.0.1/32` the first attempt
`0.0.0.0/31` returns the last address `0` of the first entry and the allocation fails;
visited in the other order the attempt returns its own last address `0.0.0.1`, probing goes
on and `0.0.0.2/31` is returned. -/
theorem ledger_order_changes_result :
    IsValidCIDR zeroFirst.GlobalnetCidrRange = none ∧
    zeroSecond.GlobalnetCidrRange = zeroFirst.GlobalnetCidrRange ∧
    zeroSecond.GlobalnetClusterSize = zeroFirst.GlobalnetClusterSize ∧
    (ledger zeroFirst).Perm (ledger zeroSecond) ∧
    (ledger zeroFirst).Pairwise TextsDisjoint ∧
    (ledger zeroSecond).Pairwise TextsDisjoint ∧
    (∀ fuel, AllocateGlobalCIDR (fuel + 1) zeroFirst
      = some (.error (.subsetOfAllocated (CidrText.v4 (ip4 0 0 0 0) 31)
          { IP := 0, ones := 32 }))) ∧
    (∀ fuel, AllocateGlobalCIDR (fuel + 1) zeroSecond
      = some (.ok (CidrText.v4 (ip4 0 0 0 2) 31))) := by
  refine ⟨by decide, rfl, rfl, ?_, ?_, ?_, fun fuel => rfl, fun fuel => rfl⟩
  · exact List.Perm.swap _ _ _
  · show List.Pairwise TextsDisjoint
      [CidrText.v4 (ip4 0 0 0 0) 32, CidrText.v4 (ip4 0 0 0 1) 32]
    rw [List.pairwise_pair]
    exact single_addresses_disjoint
  · show List.Pairwise TextsDisjoint
      [CidrText.v4 (ip4 0 0 0 1) 32, CidrText.v4 (ip4 0 0 0 0) 32]
    rw [List.pairwise_pair]
    intro a b ha hb ho
    exact single_addresses_disjoint b a hb ha (Overlap_symm ho)

/-- For a requested size `1 ≤ n ≤ capacity`, the text that a successful allocation returns is
written with the network address of its block, and that block is an available slot of the
requested prefix length. -/
theorem returned_block_is_slot {fuel : Nat} {info : GlobalnetInfo} {cidr : CidrText}
    {bip : Nat} {base : IPNet}
    (hbase : ParseCIDR info.GlobalnetCidrRange = some (bip, base))
    (hn1 : 1 ≤ info.GlobalnetClusterSize)
    (hn2 : info.GlobalnetClusterSize ≤ 2 ^ (32 - base.ones))
    (h : AllocateGlobalCIDR fuel info = some (.ok cidr)) :
    ∃ B : IPNet, cidr = CidrText.v4 B.IP (clusterPrefixOf info.GlobalnetClusterSize) ∧
      (B.ones : Int) = clusterPrefixOf info.GlobalnetClusterSize ∧
      AvailableSlot base info B ∧
      ∀ F : IPNet, (F.ones : Int) = clusterPrefixOf info.GlobalnetClusterSize →
        AvailableSlot base info F → B.IP ≤ F.IP := by
  obtain ⟨bip1, base1, ip, net, hp, hc, h1, _, h3⟩ := AllocateGlobalCIDR_checks h
  obtain ⟨bip2, base2, hp2, _, hs⟩ := AllocateGlobalCIDR_ok h
  rw [hbase] at hp hp2
  cases hp
  cases hp2
  have hbwf := (ParseCIDR_WF hbase).1
  obtain ⟨ip', net', hc', hal⟩ := allocateByClusterSize_aligned (GoodEntries_loaded base info)
    hbwf hn1 hn2 hs
  rw [hc] at hc'
  cases hc'
  have hones := allocateByClusterSize_text hs hc
  obtain ⟨hnet, hna⟩ := ParseCIDR_WF hc
  have hip := (ParseCIDR_some hc).2.1
  have htext := (ParseCIDR_some hc).1
  have hge := clusterPrefixOf_ge (Nat.sub_le 32 base.ones) hn1 hn2
  have hb32 := hbwf.1
  have hle : base.ones ≤ net.ones := by omega
  have hlast := LastIP_eq hnet
  have hpos : 0 < 2 ^ (32 - net.ones) := Nat.two_pow_pos _
  refine ⟨net, ?_, hones, ⟨hnet, ?_, ?_, ?_⟩, ?_⟩
  · rw [htext, hal, hones]
  · rw [← hal]
    exact h1
  · exact Contains_of_nested hbwf.2.1 hnet.2.1 (by omega) hip hle h1 hna (Contains_last hnet)
  · intro t ht E hE
    obtain ⟨c, he, hc1, hc2⟩ := h3 t ht
    obtain ⟨hb, hwf, _⟩ := entryOf_some he
    rw [hb] at hE
    cases hE
    exact no_overlap_of_checks hnet.2.1 hwf.2.1 hip hna hc1 hc2
  · intro F hF1 ⟨hF2, hF3, _, hF5⟩
    have hfree : ∀ c ∈ (loaded base info).allocatedClusters.take
        (loaded base info).allocatedCount, ¬ Overlap F c.network := by
      intro c hcm
      rw [take_loaded] at hcm
      obtain ⟨t, ht, hte⟩ := List.mem_filterMap.mp hcm
      exact hF5 t ht c.network (entryOf_some hte).1
    obtain ⟨ip', net', hc', hle'⟩ := allocateByClusterSize_lowest
      (GoodEntries_loaded base info) hbwf hF1 hF2 hfree hF3 hs
    rw [hc] at hc'
    cases hc'
    omega

theorem availableSlot_of_same_members {base F : IPNet} {info1 info2 : GlobalnetInfo}
    (hmem : ∀ t, t ∈ ledger info2 → t ∈ ledger info1) (h : AvailableSlot base info1 F) :
    AvailableSlot base info2 F :=
  ⟨h.1, h.2.1, h.2.2.1, fun t ht => h.2.2.2 t (hmem t ht)⟩

/-- A success carries over to every run with the same base range, the same size and the
same set of ledger entries, when the base range does not contain `0.0.0.0`. -/
theorem success_transfers {info1 info2 : GlobalnetInfo} {bip : Nat} {base : IPNet}
    {cidr : CidrText} {fuel : Nat}
    (hb1 : ParseCIDR info1.GlobalnetCidrRange = some (bip, base))
    (hb2 : info2.GlobalnetCidrRange = info1.GlobalnetCidrRange)
    (hs : info2.GlobalnetClusterSize = info1.GlobalnetClusterSize)
    (hmem : ∀ t, t ∈ ledger info1 ↔ t ∈ ledger info2)
    (hz : base.IP ≠ 0) (hn1 : 1 ≤ info1.GlobalnetClusterSize)
    (hn2 : info1.GlobalnetClusterSize ≤ 2 ^ (32 - base.ones))
    (hfuel : 2 ^ 32 ≤ fuel)
    (h : AllocateGlobalCIDR fuel info1 = some (.ok cidr)) :
    AllocateGlobalCIDR fuel info2 = some (.ok cidr) := by
  have hb2' : ParseCIDR info2.GlobalnetCidrRange = some (bip, base) := by rw [hb2]; exact hb1
  obtain ⟨B, hB1, hB2, hB3, hB4⟩ := returned_block_is_slot hb1 hn1 hn2 h
  obtain ⟨_, _, _, hall1, _⟩ := AllocateGlobalCIDR_ok h
  have hall2 : ∀ t ∈ ledger info2, (blockOf t).isSome = true := by
    intro t ht
    have := hall1 t ((hmem t).mpr ht)
    cases he : entryOf t with
    | none => simp [he] at this
    | some c => simp [(entryOf_some he).1]
  have hslot2 := availableSlot_of_same_members (fun t ht => (hmem t).mpr ht) hB3
  obtain ⟨cidr2, hc2⟩ := allocation_succeeds_when_slot_available info2 bip base B hb2' hall2
    (Or.inl hz) (by rw [hs]; exact hn1) (by rw [hs]; exact hn2) (by rw [hs]; exact hB2) hslot2
  have h2 := hc2 fuel hfuel
  obtain ⟨B', hB1', hB2', hB3', hB4'⟩ := returned_block_is_slot hb2'
    (by rw [hs]; exact hn1) (by rw [hs]; exact hn2) h2
  rw [hs] at hB1' hB2' hB4'
  have hslot1 := availableSlot_of_same_members (fun t ht => (hmem t).mp ht) hB3'
  have hle1 := hB4 B' hB2' hslot1
  have hle2 := hB4' B hB2 hslot2
  have : B.IP = B'.IP := by omega
  rw [h2, hB1', hB1, this]

/-- When the base range does not contain `0.0.0.0` and `1 ≤ n ≤ capacity`, the order of the
ledger does not matter: two runs whose ledgers are permutations of each other return the
same CIDR, or both fail. -/
theorem ledger_order_irrelevant (info1 info2 : GlobalnetInfo) (bip : Nat) (base : IPNet)
    (fuel : Nat)
    (hb1 : ParseCIDR info1.GlobalnetCidrRange = some (bip, base))
    (hb2 : info2.GlobalnetCidrRange = info1.GlobalnetCidrRange)
    (hs : info2.GlobalnetClusterSize = info1.GlobalnetClusterSize)
    (hperm : (ledger info1).Perm (ledger info2))
    (hz : base.IP ≠ 0) (hn1 : 1 ≤ info1.GlobalnetClusterSize)
    (hn2 : info1.GlobalnetClusterSize ≤ 2 ^ (32 - base.ones))
    (hfuel : 2 ^ 32 ≤ fuel) :
    (∃ cidr, AllocateGlobalCIDR fuel info1 = some (.ok cidr) ∧
        AllocateGlobalCIDR fuel info2 = some (.ok cidr)) ∨
    (∃ e1 e2, AllocateGlobalCIDR fuel info1 = some (.error e1) ∧
        AllocateGlobalCIDR fuel info2 = some (.error e2)) := by
  have hmem : ∀ t, t ∈ ledger info1 ↔ t ∈ ledger info2 := fun t => hperm.mem_iff
  have hz1 : ∀ b n, ParseCIDR info1.GlobalnetCidrRange = some (b, n) → n.IP ≠ 0 := by
    intro b n hp
    rw [hb1] at hp
    cases hp
    exact hz
  have hz2 : ∀ b n, ParseCIDR info2.GlobalnetCidrRange = some (b, n) → n.IP ≠ 0 := by
    rw [hb2]
    exact hz1
  obtain ⟨r1, hr1⟩ := allocation_terminates info1 hz1
  obtain ⟨r2, hr2⟩ := allocation_terminates info2 hz2
  have h1 := hr1 fuel hfuel
  have h2 := hr2 fuel hfuel
  cases r1 with
  | ok c =>
    left
    exact ⟨c, h1, success_transfers hb1 hb2 hs hmem hz hn1 hn2 hfuel h1⟩
  | error e1 =>
    cases r2 with
    | ok c =>
      have hb2' : ParseCIDR info2.GlobalnetCidrRange = some (bip, base) := by
        rw [hb2]; exact hb1
      have := success_transfers hb2' hb2.symm hs.symm (fun t => (hmem t).symm) hz
        (by rw [hs]; exact hn1) (by rw [hs]; exact hn2) hfuel h2
      rw [h1] at this
      cases this
    | error e2 =>
      right
      exact ⟨e1, e2, h1, h2⟩

theorem ledger_order_irrelevant_witness :
    (∃ cidr,
      AllocateGlobalCIDR (2 ^ 32)
        { GlobalnetEnabled := true, GlobalnetCidrRange := CidrText.v4 (ip4 10 0 0 0) 8,
          GlobalnetClusterSize := 256,
          GlobalCidrInfo :=
            [("cluster-a", { GlobalCIDRs := [CidrText.v4 (ip4 10 0 0 0) 24],
                             ClusterID := "cluster-a" }),
             ("cluster-b", { GlobalCIDRs := [CidrText.v4 (ip4 10 0 1 0) 24],
                             ClusterID := "cluster-b" })] } = some (.ok cidr) ∧
      AllocateGlobalCIDR (2 ^ 32)
        { GlobalnetEnabled := true, GlobalnetCidrRange := CidrText.v4 (ip4 10 0 0 0) 8,
          GlobalnetClusterSize := 256,
          GlobalCidrInfo :=
            [("cluster-b", { GlobalCIDRs := [CidrText.v4 (ip4 10 0 1 0) 24],
                             ClusterID := "cluster-b" }),
             ("cluster-a", { GlobalCIDRs := [CidrText.v4 (ip4 10 0 0 0) 24],
                             ClusterID := "cluster-a" })] } = some (.ok cidr)) ∨
    (∃ e1 e2,
      AllocateGlobalCIDR (2 ^ 32)
        { GlobalnetEnabled := true, GlobalnetCidrRange := CidrText.v4 (ip4 10 0 0 0) 8,
          GlobalnetClusterSize := 256,
          GlobalCidrInfo :=
            [("cluster-a", { GlobalCIDRs := [CidrText.v4 (ip4 10 0 0 0) 24],
                             ClusterID := "cluster-a" }),
             ("cluster-b", { GlobalCIDRs := [CidrText.v4 (ip4 10 0 1 0) 24],
                             ClusterID := "cluster-b" })] } = some (.error e1) ∧
      AllocateGlobalCIDR (2 ^ 32)
        { GlobalnetEnabled := true, GlobalnetCidrRange := CidrText.v4 (ip4 10 0 0 0) 8,
          GlobalnetClusterSize := 256,
          GlobalCidrInfo :=
            [("cluster-b", { GlobalCIDRs := [CidrText.v4 (ip4 10 0 1 0) 24],
                             ClusterID := "cluster-b" }),
             ("cluster-a", { GlobalCIDRs := [CidrText.v4 (ip4 10 0 0 0) 24],
                             ClusterID := "cluster-a" })] } = some (.error e2)) :=
  ledger_order_irrelevant _ _ (ip4 10 0 0 0) { IP := ip4 10 0 0 0, ones := 8 } (2 ^ 32)
    (by decide) rfl rfl (List.Perm.swap _ _ _) (by decide) (by decide) (by decide)
    (Nat.le_refl _)

end Globalnet
